import Mathlib

/-!
# UniversalCodeGrep: scan loop, synchronized queue, argument parsing, file identity

A shallow embedding of parts of `src/FileScannerPCRE2.cpp`, `src/sync_queue.h`,
`src/ArgParse.cpp`, `src/libext/FileID.cpp` and `src/libext/filesystem.hpp`, with the
properties proved about them.

Conventions.
* A file buffer is a `List Nat` of bytes; `'\n'` is the byte `10`.  Offsets into the
  buffer are natural numbers (`file_data + k` in the source is the offset `k`).
* The regex engine (`pcre2_match`, an external library) is a parameter of the scan loop:
  a function from the start offset and the option bits to the return code and the two
  offsets it writes to `ovector[0]`, `ovector[1]` on a match.
* A C string is a `List Char`; an rc file is its name and its bytes.  The member functions
  of `TypeManager` and the helpers of `libext/string.hpp` are parameters of the functions
  of `ArgParse` that call them.
-/

namespace Ucg

/-! # Part I: the embedding

The definitions: the code of the sources, with the notions the properties are stated
with. -/

/-! ## FileScannerPCRE2.cpp -/

/-- The byte `'\n'`. -/
def NL : Nat := 10

/-- Return code `PCRE2_ERROR_NOMATCH` of `pcre2_match`. -/
def PCRE2_ERROR_NOMATCH : Int := -1

/-- Option bit `PCRE2_NOTEMPTY_ATSTART`. -/
def PCRE2_NOTEMPTY_ATSTART : Nat := 0x00000008

/-- Option bit `PCRE2_ANCHORED`. -/
def PCRE2_ANCHORED : Nat := 0x80000000

/-- The value `(PCRE2_SIZE)-1` that `ScanFile` stores in `ovector[0]` before the loop. -/
def SIZE_MAX : Nat := 2 ^ 64 - 1

/-- The C library function `memchr(base + p, c, n)` over a buffer: the offset of the first
byte equal to `c` among the `n` bytes starting at offset `p`, if there is one. -/
def memchr (s : List Nat) (p : Nat) (c : Nat) : Nat → Option Nat
  | 0 => none
  | n + 1 => if s[p]? = some c then some p else memchr s (p + 1) c n

/-- The function `callout_handler`: `1` when the tentative match
`[start_match, current_position)` holds a `'\n'`, else `0`.  The length handed to `memchr`
is `current_position - start_match`; the engine calls it with
`start_match ≤ current_position`. -/
def callout_handler (subject : List Nat) (start_match current_position : Nat) : Int :=
  match memchr subject start_match NL (current_position - start_match) with
  | none => 0
  | some _ => 1

/-- The arguments `ScanFile` hands to the `Match` constructor: `ovector[0]`, `ovector[1]`
and `line_no` (the buffer and its size are the same for every match of a file). -/
structure Match where
  start : Nat
  stop : Nat
  line_no : Nat
  deriving DecidableEq, Repr

/-- Modelled from the spec: `FileScanner::CountLinesSinceLastMatch`, whose body is not in
the sources at hand; the spec has the line number computed "by counting `\n` in the span"
between the previous search end and the start of the current match. -/
def CountLinesSinceLastMatch (file_data : List Nat) (prev_lineno_search_end
    start_of_current_match : Nat) : Nat :=
  ((file_data.take start_of_current_match).drop prev_lineno_search_end).count NL

/-- The regex engine as `ScanFile` sees it: start offset and options in, return code and
the offsets of the match out.  A call that returns `PCRE2_ERROR_NOMATCH` leaves the
ovector as it was. -/
abbrev Engine := Nat → Nat → Int × Nat × Nat

/-- The local variables of `ScanFile` together with the `MatchList` it fills. -/
structure ScanState where
  line_no : Nat
  prev_lineno : Nat
  prev_lineno_search_end : Nat
  start_offset : Nat
  ov0 : Nat
  ov1 : Nat
  ml : List Match
  deriving Repr

/-- How one pass through the body of the `while` loop ends. -/
inductive LoopCtl where
  /-- Control reaches the loop condition again (`continue`, or the end of the body). -/
  | next (st : ScanState)
  /-- The loop or the function is left (`break`, `return`). -/
  | leave (st : ScanState)
  /-- A `FileScannerException` is thrown for the engine error `rc`. -/
  | throw (rc : Int) (st : ScanState)

/-- The state `ScanFile` sets up before its loop. -/
def ScanFile_init : ScanState :=
  { line_no := 1, prev_lineno := 0, prev_lineno_search_end := 0, start_offset := 0,
    ov0 := SIZE_MAX, ov1 := 0, ml := [] }

/-- The option bits `ScanFile` passes to the engine: `0`, or
`PCRE2_NOTEMPTY_ATSTART | PCRE2_ANCHORED` when the previous match was empty
(`ovector[0] == ovector[1]`). -/
def ScanFile_options (ov0 ov1 : Nat) : Nat :=
  if ov0 = ov1 then PCRE2_NOTEMPTY_ATSTART ||| PCRE2_ANCHORED else 0

/-- The body of the `while` loop of `ScanFile`. -/
def ScanFile_body (pcre2_match : Engine) (file_data : List Nat) (file_size : Nat)
    (st : ScanState) : LoopCtl :=
  let start_offset := st.ov1
  let options := ScanFile_options st.ov0 st.ov1
  let st := { st with start_offset := start_offset }
  if st.ov0 = st.ov1 ∧ st.ov0 = file_size then
    .leave st
  else
    let r := pcre2_match start_offset options
    if r.1 = PCRE2_ERROR_NOMATCH then
      if options = 0 then .leave st
      else .next { st with ov1 := start_offset + 1 }
    else if r.1 < 0 then .throw r.1 st
    else if r.1 = 0 then .leave st
    else
      let line_no := st.line_no +
        CountLinesSinceLastMatch file_data st.prev_lineno_search_end r.2.1
      let st := { st with ov0 := r.2.1, ov1 := r.2.2, line_no := line_no,
                          prev_lineno_search_end := r.2.1 }
      if line_no = st.prev_lineno then .next st
      else .next { st with prev_lineno := line_no,
                           ml := st.ml ++ [{ start := r.2.1, stop := r.2.2, line_no := line_no }] }

/-- How a run of `ScanFile` ends. -/
inductive ScanStatus where
  /-- The function returned. -/
  | returned
  /-- A `FileScannerException` was thrown for the engine error `rc`. -/
  | threw (rc : Int)
  /-- The loop was still running when the step budget ran out. -/
  | running
  deriving DecidableEq, Repr

/-- The `while(start_offset < file_size)` loop, run for at most `fuel` passes. -/
def ScanFile_loop (pcre2_match : Engine) (file_data : List Nat) (file_size : Nat) :
    Nat → ScanState → ScanStatus × ScanState
  | 0, st => (.running, st)
  | fuel + 1, st =>
    if st.start_offset < file_size then
      match ScanFile_body pcre2_match file_data file_size st with
      | .next st1 => ScanFile_loop pcre2_match file_data file_size fuel st1
      | .leave st1 => (.returned, st1)
      | .throw rc st1 => (.threw rc, st1)
    else (.returned, st)

/-- The function `FileScannerPCRE2::ScanFile`: the status and the `MatchList` after the
call, the list starting empty. -/
def ScanFile (pcre2_match : Engine) (file_data : List Nat) (file_size : Nat) (fuel : Nat) :
    ScanStatus × List Match :=
  let r := ScanFile_loop pcre2_match file_data file_size fuel ScanFile_init
  (r.1, r.2.ml)

/-- The 1-based number of the line that holds offset `s`. -/
def lineOf (file_data : List Nat) (s : Nat) : Nat :=
  1 + (file_data.take s).count NL

/-- The state carried by a loop-control value. -/
def LoopCtl.state : LoopCtl → ScanState
  | .next st => st
  | .leave st => st
  | .throw _ st => st

/-- The invariant behind the ascending order of the match list: the list is strictly
ascending in line number, no entry exceeds `prev_lineno`, and `prev_lineno ≤ line_no`. -/
def AscendingInv (st : ScanState) : Prop :=
  List.Pairwise (fun a b : Match => a.line_no < b.line_no) st.ml ∧
  (∀ m ∈ st.ml, m.line_no ≤ st.prev_lineno) ∧ st.prev_lineno ≤ st.line_no

/-- The invariant behind the absence of newlines in the recorded matches. -/
def NoNewlineInv (file_data : List Nat) (st : ScanState) : Prop :=
  ∀ m ∈ st.ml, ∀ i, m.start ≤ i → i < m.stop → file_data[i]? ≠ some NL

/-- The invariant behind the line numbers: the running counter is the line of the place up
to which newlines have been counted, that place is not beyond the next start offset, and
every recorded match carries the line of its start. -/
def LineInv (file_data : List Nat) (st : ScanState) : Prop :=
  st.line_no = lineOf file_data st.prev_lineno_search_end ∧
  st.prev_lineno_search_end ≤ st.ov1 ∧
  ∀ m ∈ st.ml, m.line_no = lineOf file_data m.start

/-- The wrapped pattern `(?:P)(?=.*?$)(?C1)` matches `[s, e)` of the buffer: the part before
the callout can match there (`Cand s e`, a tentative match inside the buffer) and the
callout at the end of the pattern accepts it. -/
def WrappedMatch (file_data : List Nat) (Cand : Nat → Nat → Prop) (s e : Nat) : Prop :=
  Cand s e ∧ s ≤ e ∧ e ≤ file_data.length ∧ callout_handler file_data s e = 0

/-- The wrapped pattern has a match lying wholly within line `L`: it starts on line `L`
and none of its bytes is a newline. -/
def MatchWithinLine (file_data : List Nat) (Cand : Nat → Nat → Prop) (L : Nat) : Prop :=
  ∃ s e, WrappedMatch file_data Cand s e ∧ lineOf file_data s = L ∧
    ∀ i, s ≤ i → i < e → file_data[i]? ≠ some NL

/-- The line numbers in the match list are exactly the lines within which the wrapped
pattern has a match. -/
def LinesAgree (file_data : List Nat) (Cand : Nat → Nat → Prop) (ml : List Match) : Prop :=
  ∀ L, (∃ m ∈ ml, m.line_no = L) ↔ MatchWithinLine file_data Cand L

/-- The quantity that decreases with every pass through the loop body. -/
def scanMeasure (file_size : Nat) (st : ScanState) : Nat :=
  2 * (file_size - st.ov1) + (if st.ov0 = st.ov1 then 0 else 1)

/-- A reference engine, first part: the first end offset, in the order the pattern tries
them (`cands s`), of a tentative match at `s` inside the buffer that the callout accepts
(and that is not empty when `notempty` is set). -/
def acceptAt (cands : Nat → List Nat) (subject : List Nat) (notempty : Bool) (s : Nat) :
    Option Nat :=
  (cands s).find? (fun e => decide (s ≤ e ∧ e ≤ subject.length ∧
    callout_handler subject s e = 0 ∧ (notempty = true → s < e)))

/-- A reference engine, second part: the first of the `n` start offsets `s`, `s + 1`, ...
at which a match is accepted. -/
def searchFrom (cands : Nat → List Nat) (subject : List Nat) (s : Nat) :
    Nat → Option (Nat × Nat)
  | 0 => none
  | n + 1 =>
    match acceptAt cands subject false s with
    | some e => some (s, e)
    | none => searchFrom cands subject (s + 1) n

/-- A reference engine for a pattern given by its tentative matches: without options the
leftmost accepted match at or after `start`, with options (anchored, not empty at start)
an accepted non-empty match at `start`; `PCRE2_ERROR_NOMATCH` when there is none. -/
def referenceEngine (cands : Nat → List Nat) (subject : List Nat) : Engine :=
  fun start options =>
    if options = 0 then
      match searchFrom cands subject start (subject.length + 1 - start) with
      | some (s, e) => (1, s, e)
      | none => (PCRE2_ERROR_NOMATCH, 0, 0)
    else
      match acceptAt cands subject true start with
      | some e => (1, start, e)
      | none => (PCRE2_ERROR_NOMATCH, 0, 0)

/-- Tentative matches of the pattern `b` on a buffer: one byte `b` (98). -/
def candsB (subject : List Nat) : Nat → List Nat :=
  fun s => if subject[s]? = some 98 then [s + 1] else []

/-- Tentative matches of a pattern that matches the empty string everywhere (such as `x*`
on a buffer without `x`). -/
def candsEmpty : Nat → List Nat :=
  fun s => [s]

/-- The buffer `a\nb\na b\n`. -/
def bufMultiline : List Nat := [97, 10, 98, 10, 97, 32, 98, 10]

/-- The buffer `bb\nab\n`. -/
def bufB : List Nat := [98, 98, 10, 97, 98, 10]

/-- The buffer `int f() {\n    return 0;\n}\n`: 26 bytes, the first `\n` at offset 9, four
spaces at 10 to 13 and `return` at 14 to 19. -/
def bufReturn : List Nat :=
  [105, 110, 116, 32, 102, 40, 41, 32, 123, 10, 32, 32, 32, 32, 114, 101, 116, 117, 114, 110,
    32, 48, 59, 10, 125, 10]

/-- Tentative matches of the pattern `\s+return` on `bufReturn`: from each of the offsets 9
to 13 the whitespace up to 14 and then `return`, ending at 20. -/
def candsReturn : Nat → List Nat :=
  fun s => if 9 ≤ s ∧ s ≤ 13 then [20] else []

/-- The return values of `pcre2_match` in libpcre2 10.42 for the pattern
`(?:\s+return)(?=.*?$)(?C1)`, compiled with the options of the constructor and
JIT-compiled as the constructor does, on `bufReturn` with `callout_handler` as the callout:
the match from the start offset to 20 for the start offsets 10 to 13, and
`PCRE2_ERROR_NOMATCH` for every other start offset, the offsets 0 to 9 included (after the
callout has refused the tentative match from 9 to 20, the JIT-compiled code tries no start
offset inside the whitespace that attempt ran through). -/
def jitEngine : Engine :=
  fun start _ =>
    if 10 ≤ start ∧ start ≤ 13 then (1, start, 20) else (PCRE2_ERROR_NOMATCH, 0, 0)

/-- The buffer `a\nb`. -/
def bufANB : List Nat := [97, 10, 98]

/-- The return values of `pcre2_match` in libpcre2 10.42 for the pattern
`(?:a\sb)|(?:zzz)(?=.*?$)(?C1)` on `bufANB`: from the start offset 0 the first alternative,
which holds no callout, matches the three bytes; from later start offsets there is no
match. -/
def alternativeEngine : Engine :=
  fun start _ => if start = 0 then (1, 0, 3) else (PCRE2_ERROR_NOMATCH, 0, 0)

/-! ## sync_queue.h

Every member function runs under `m_mutex`, so a run of the queue is a sequence of the
sections of code executed with the lock held.  A call of `wait_pull` or
`wait_for_worker_completion` is one such section when the predicate of its `wait` holds on
entry; otherwise the thread is left inside the `wait`, and each time it runs again
(notified or woken spuriously) it evaluates the predicate with the lock held and either
goes on or blocks again.  A condition variable is the list of the threads inside its
`wait`. -/

/-- The enumeration `queue_op_status`. -/
inductive queue_op_status where
  | success
  | empty
  | full
  | closed
  | busy
  | timeout
  | not_ready
  deriving DecidableEq, Repr

/-- A thread inside a `wait` on a condition variable: its id, and whether a notify has
reached it since it last blocked. -/
structure Waiter where
  tid : Nat
  notified : Bool
  deriving DecidableEq, Repr

/-- The call `notify_all()` on a condition variable: every thread in its `wait` is notified. -/
def notify_all (cv : List Waiter) : List Waiter :=
  cv.map (fun w => { w with notified := true })

/-- The call `notify_one()` on a condition variable: one thread in its `wait`, if there is
one, is notified (here the longest waiting one that is not notified yet). -/
def notify_one : List Waiter → List Waiter
  | [] => []
  | w :: rest =>
    if w.notified then w :: notify_one rest else { w with notified := true } :: rest

/-- A thread blocks in a `wait`: it joins the list of the condition variable. -/
def block (cv : List Waiter) (tid : Nat) : List Waiter :=
  cv ++ [{ tid := tid, notified := false }]

/-- A thread that ran again inside a `wait` and found the predicate false blocks again:
the notification it had is used up. -/
def reblock (cv : List Waiter) (tid : Nat) : List Waiter :=
  cv.map (fun w => if w.tid = tid then { w with notified := false } else w)

/-- A thread leaves a `wait`. -/
def unblock (cv : List Waiter) (tid : Nat) : List Waiter :=
  cv.eraseP (fun w => w.tid = tid)

/-- The data members of `sync_queue<ValueType>`; `m_mutex` is implicit in the atomicity
of the operations. -/
structure sync_queue (ValueType : Type) where
  m_cv : List Waiter
  m_cv_complete : List Waiter
  m_num_waiting_threads_notification_level : Nat
  m_num_waiting_threads : Nat
  m_closed : Bool
  m_underlying_queue : List ValueType
  deriving DecidableEq, Repr

/-- The constructor `sync_queue()`: the default member initializers. -/
def sync_queue.new (ValueType : Type) : sync_queue ValueType :=
  { m_cv := [], m_cv_complete := [], m_num_waiting_threads_notification_level := 500,
    m_num_waiting_threads := 0, m_closed := false, m_underlying_queue := [] }

/-- The member function `close()`. -/
def sync_queue.close {α : Type} (q : sync_queue α) : sync_queue α :=
  { q with m_closed := true, m_cv := notify_all q.m_cv }

/-- The member function `wait_push(const ValueType& x)`. -/
def sync_queue.wait_push {α : Type} (q : sync_queue α) (x : α) :
    queue_op_status × sync_queue α :=
  if q.m_closed then (.closed, q)
  else (.success, { q with m_underlying_queue := q.m_underlying_queue ++ [x],
                           m_cv := notify_one q.m_cv })

/-- The member function `wait_push(ValueType&& x)`. -/
def sync_queue.wait_push_move {α : Type} (q : sync_queue α) (x : α) :
    queue_op_status × sync_queue α :=
  if q.m_closed then (.closed, q)
  else (.success, { q with m_underlying_queue := q.m_underlying_queue ++ [x],
                           m_cv := notify_one q.m_cv })

/-- How a section of `wait_pull` ends: the thread is left inside `m_cv.wait`, or the call
returns a status and, on success, has assigned a value to `x`. -/
inductive PullOutcome (α : Type) where
  | blocked
  | returned (status : queue_op_status) (x : Option α)
  deriving DecidableEq, Repr

/-- The predicate of `m_cv.wait` in `wait_pull`. -/
def sync_queue.wait_pull_pred {α : Type} (q : sync_queue α) : Bool :=
  !q.m_underlying_queue.isEmpty || q.m_closed

/-- The code of `wait_pull` after `m_cv.wait` has returned (the same for both overloads:
copy or move assignment from `front()`, then `pop()`). -/
def sync_queue.wait_pull_finish {α : Type} (q : sync_queue α) :
    PullOutcome α × sync_queue α :=
  let q1 := { q with m_num_waiting_threads := q.m_num_waiting_threads - 1 }
  if q1.m_underlying_queue.isEmpty && q1.m_closed then (.returned .closed none, q1)
  else (.returned .success q1.m_underlying_queue.head?,
        { q1 with m_underlying_queue := q1.m_underlying_queue.tail })

/-- The code of `wait_pull` up to `m_cv.wait`: count the thread as waiting and notify
`m_cv_complete` when the notification level is reached. -/
def sync_queue.wait_pull_enter {α : Type} (q : sync_queue α) : sync_queue α :=
  let q1 := { q with m_num_waiting_threads := q.m_num_waiting_threads + 1 }
  if q1.m_num_waiting_threads = q1.m_num_waiting_threads_notification_level then
    { q1 with m_cv_complete := notify_all q1.m_cv_complete }
  else q1

/-- The member function `wait_pull(ValueType& x)`, called by thread `tid`. -/
def sync_queue.wait_pull {α : Type} (q : sync_queue α) (tid : Nat) :
    PullOutcome α × sync_queue α :=
  let q1 := q.wait_pull_enter
  if q1.wait_pull_pred then q1.wait_pull_finish
  else (.blocked, { q1 with m_cv := block q1.m_cv tid })

/-- The member function `wait_pull(ValueType&& x)`, called by thread `tid`. -/
def sync_queue.wait_pull_move {α : Type} (q : sync_queue α) (tid : Nat) :
    PullOutcome α × sync_queue α :=
  let q1 := q.wait_pull_enter
  if q1.wait_pull_pred then q1.wait_pull_finish
  else (.blocked, { q1 with m_cv := block q1.m_cv tid })

/-- Thread `tid`, inside `m_cv.wait` of either `wait_pull`, runs again: it evaluates the
predicate and goes on or blocks again.  A thread that is not inside the `wait` has nothing
to run. -/
def sync_queue.wait_pull_wakeup {α : Type} (q : sync_queue α) (tid : Nat) :
    PullOutcome α × sync_queue α :=
  if q.m_cv.any (fun w => w.tid = tid) then
    if q.wait_pull_pred then
      sync_queue.wait_pull_finish { q with m_cv := unblock q.m_cv tid }
    else (.blocked, { q with m_cv := reblock q.m_cv tid })
  else (.blocked, q)

/-- How a section of `wait_for_worker_completion` ends. -/
inductive CompletionOutcome where
  | blocked
  | returned (status : queue_op_status)
  deriving DecidableEq, Repr

/-- The predicate of `m_cv_complete.wait` in `wait_for_worker_completion`. -/
def sync_queue.completion_pred {α : Type} (q : sync_queue α) (num_workers : Nat) : Bool :=
  (q.m_num_waiting_threads = num_workers && q.m_underlying_queue.isEmpty) || q.m_closed

/-- The code of `wait_for_worker_completion` after `m_cv_complete.wait` has returned. -/
def sync_queue.completion_finish {α : Type} (q : sync_queue α) : queue_op_status :=
  if q.m_closed then .closed else .success

/-- The member function `wait_for_worker_completion(num_workers)`, called by thread `tid`. -/
def sync_queue.wait_for_worker_completion {α : Type} (q : sync_queue α) (tid : Nat)
    (num_workers : Nat) : CompletionOutcome × sync_queue α :=
  let q1 := { q with m_num_waiting_threads_notification_level := num_workers }
  if q1.completion_pred num_workers then (.returned q1.completion_finish, q1)
  else (.blocked, { q1 with m_cv_complete := block q1.m_cv_complete tid })

/-- Thread `tid`, inside `m_cv_complete.wait` of `wait_for_worker_completion(num_workers)`,
runs again. -/
def sync_queue.wait_for_worker_completion_wakeup {α : Type} (q : sync_queue α) (tid : Nat)
    (num_workers : Nat) : CompletionOutcome × sync_queue α :=
  if q.m_cv_complete.any (fun w => w.tid = tid) then
    if q.completion_pred num_workers then
      (.returned q.completion_finish, { q with m_cv_complete := unblock q.m_cv_complete tid })
    else (.blocked, { q with m_cv_complete := reblock q.m_cv_complete tid })
  else (.blocked, q)

/-- The sections of code that threads run on a queue. -/
inductive QueueCall (α : Type) where
  | close
  | wait_push (x : α)
  | wait_push_move (x : α)
  | wait_pull (tid : Nat)
  | wait_pull_move (tid : Nat)
  | wait_pull_wakeup (tid : Nat)
  | wait_for_worker_completion (tid : Nat) (num_workers : Nat)
  | wait_for_worker_completion_wakeup (tid : Nat) (num_workers : Nat)
  deriving DecidableEq, Repr

/-- What a section contributes to the history: the value of a push that returned
`success`, and the value a pull that returned `success` assigned. -/
structure QueueEffect (α : Type) where
  pushed : List α
  pulled : List α
  deriving DecidableEq, Repr

/-- The values a pull section hands to its caller. -/
def PullOutcome.values {α : Type} : PullOutcome α → List α
  | .returned .success (some x) => [x]
  | _ => []

/-- One section: the state after it and what it adds to the history. -/
def sync_queue.step {α : Type} (q : sync_queue α) : QueueCall α → sync_queue α × QueueEffect α
  | .close => (q.close, { pushed := [], pulled := [] })
  | .wait_push x =>
    let r := q.wait_push x
    (r.2, { pushed := if r.1 = .success then [x] else [], pulled := [] })
  | .wait_push_move x =>
    let r := q.wait_push_move x
    (r.2, { pushed := if r.1 = .success then [x] else [], pulled := [] })
  | .wait_pull tid =>
    let r := q.wait_pull tid
    (r.2, { pushed := [], pulled := r.1.values })
  | .wait_pull_move tid =>
    let r := q.wait_pull_move tid
    (r.2, { pushed := [], pulled := r.1.values })
  | .wait_pull_wakeup tid =>
    let r := q.wait_pull_wakeup tid
    (r.2, { pushed := [], pulled := r.1.values })
  | .wait_for_worker_completion tid n =>
    ((q.wait_for_worker_completion tid n).2, { pushed := [], pulled := [] })
  | .wait_for_worker_completion_wakeup tid n =>
    ((q.wait_for_worker_completion_wakeup tid n).2, { pushed := [], pulled := [] })

/-- A run: the state after a sequence of sections, with the values pushed successfully and
the values pulled successfully, each in the order of the calls. -/
def sync_queue.run {α : Type} (q : sync_queue α) : List (QueueCall α) →
    sync_queue α × QueueEffect α
  | [] => (q, { pushed := [], pulled := [] })
  | c :: cs =>
    let r := q.step c
    let rs := r.1.run cs
    (rs.1, { pushed := r.2.pushed ++ rs.2.pushed, pulled := r.2.pulled ++ rs.2.pulled })

/-- The outcomes of consecutive `wait_pull` calls, one by each thread of the list. -/
def sync_queue.pulls {α : Type} (q : sync_queue α) : List Nat → List (PullOutcome α)
  | [] => []
  | tid :: tids => (q.wait_pull tid).1 :: (q.wait_pull tid).2.pulls tids

/-- The counter `m_num_waiting_threads` is the number of threads inside `m_cv.wait`. -/
def WaitingCounted {α : Type} (q : sync_queue α) : Prop :=
  q.m_num_waiting_threads = q.m_cv.length

/-! ## ArgParse.cpp: HandleTYPELogic -/

/-- A string (`std::string`, or a C string without its terminator): its characters. -/
abbrev Str := List Char

/-- What `HandleTYPELogic` uses and the sources at hand do not define: the member functions
of `TypeManager` it calls, on a type-manager state `TM` (a call that throws a
`TypeManagerException` yields its `what()` text), and the helpers `split` and `join` of
`libext/string.hpp`. -/
structure Externals (TM : Type) where
  GetMatchingTypenameList : TM → Str → List Str
  TypeAddFromFilterSpecString : TM → Bool → Str → Except Str TM
  TypeDel : TM → Str → Except Str TM
  TypeAddIgnoreFileFromFilterSpecString : TM → Str → Except Str TM
  TypeAddIncludeGlobFromFilterSpecString : TM → Str → Except Str TM
  split : Str → Char → List Str
  join : List Str → Str → Str

/-- How the body of the `for` loop of `HandleTYPELogic` ends for one argument. -/
inductive ArgStep (TM : Type) where
  /-- The loop goes on: the argument as it now stands in the vector, and the type manager. -/
  | next (arg : Str) (tm : TM)
  /-- The loop is left (`break`). -/
  | leave
  /-- An `ArgParseException` with this message is thrown. -/
  | throw (msg : Str)

/-- A call of the type manager inside the `try` block: a `TypeManagerException` is caught
and rethrown as an `ArgParseException` naming the argument. -/
def tryTypeManager {TM : Type} (arg : Str) (r : Except Str TM) : ArgStep TM :=
  match r with
  | .ok tm1 => .next arg tm1
  | .error what => .throw (what ++ " while parsing option '".toList ++ arg ++ "'".toList)

/-- The body of the `for` loop of `HandleTYPELogic` for the argument `arg`. -/
def HandleTYPELogic_arg {TM : Type} (ext : Externals TM) (tm : TM) (arg : Str) :
    ArgStep TM :=
  let arglen := arg.length
  if arglen < 3 ∨ arg.take 2 ≠ "--".toList then
    .next arg tm
  else if arg = "--".toList then
    .leave
  else
    let argtxt := arg.drop 2
    match ext.GetMatchingTypenameList tm argtxt with
    | [name] => .next ("--type=".toList ++ name) tm
    | n1 :: n2 :: names =>
      .throw ("option '--".toList ++ argtxt ++ "' is ambiguous; possibilities: ".toList ++
        ("'--".toList ++ ext.join (n1 :: n2 :: names) "' '--".toList ++ "'".toList))
    | [] =>
      if argtxt.take 2 = "no".toList then
        let possible_type_name := argtxt.drop 2
        match ext.GetMatchingTypenameList tm possible_type_name with
        | [name] => .next ("--type=no".toList ++ name) tm
        | n1 :: n2 :: names =>
          .throw ("option '--".toList ++ argtxt ++ "' is ambiguous; possibilities: ".toList ++
            ("'--no".toList ++ ext.join (n1 :: n2 :: names) "' '--no".toList ++ "'".toList))
        | [] => .next arg tm
      else
        match ext.split argtxt '=' with
        | [cmd, params] =>
          if cmd = "type-add".toList then
            tryTypeManager arg (ext.TypeAddFromFilterSpecString tm false params)
          else if cmd = "type-set".toList then
            tryTypeManager arg (ext.TypeAddFromFilterSpecString tm true params)
          else if cmd = "type-del".toList then
            tryTypeManager arg (ext.TypeDel tm params)
          else if cmd = "ignore-file".toList then
            tryTypeManager arg (ext.TypeAddIgnoreFileFromFilterSpecString tm params)
          else if cmd = "exclude".toList ∨ cmd = "ignore".toList then
            tryTypeManager arg
              (ext.TypeAddIgnoreFileFromFilterSpecString tm ("globx:".toList ++ params))
          else if cmd = "include".toList then
            tryTypeManager arg
              (ext.TypeAddIncludeGlobFromFilterSpecString tm ("glob:".toList ++ params))
          else .next arg tm
        | _ => .next arg tm

/-- What a call of `HandleTYPELogic` leaves behind: the message of the `ArgParseException`
it threw, if any; the vector, which it rewrites in place; and the type manager (as it was
before the failing call when an exception was thrown). -/
structure HandleResult (TM : Type) where
  thrown : Option Str
  v : List Str
  tm : TM

/-- The `for` loop of `HandleTYPELogic` over the arguments not yet visited. -/
def HandleTYPELogic_loop {TM : Type} (ext : Externals TM) : TM → List Str → HandleResult TM
  | tm, [] => { thrown := none, v := [], tm := tm }
  | tm, arg :: rest =>
    match HandleTYPELogic_arg ext tm arg with
    | .next arg1 tm1 =>
      let r := HandleTYPELogic_loop ext tm1 rest
      { thrown := r.thrown, v := arg1 :: r.v, tm := r.tm }
    | .leave => { thrown := none, v := arg :: rest, tm := tm }
    | .throw msg => { thrown := some msg, v := arg :: rest, tm := tm }

/-- The function `ArgParse::HandleTYPELogic` on the vector `v`, with the type manager in
state `tm`. -/
def HandleTYPELogic {TM : Type} (ext : Externals TM) (tm : TM) (v : List Str) :
    HandleResult TM :=
  HandleTYPELogic_loop ext tm v

/-- A type manager for examples: its state is the list of type names,
`GetMatchingTypenameList` returns the names the text is a prefix of, and the other calls
succeed and leave the state alone. -/
def demoExternals : Externals (List Str) where
  GetMatchingTypenameList := fun tm s => tm.filter (fun name => s.isPrefixOf name)
  TypeAddFromFilterSpecString := fun tm _ _ => .ok tm
  TypeDel := fun tm _ => .ok tm
  TypeAddIgnoreFileFromFilterSpecString := fun tm _ => .ok tm
  TypeAddIncludeGlobFromFilterSpecString := fun tm _ => .ok tm
  split := fun s c => s.splitOn c
  join := fun l sep => l.intersperse sep |>.flatten

/-- The vector `ucg --cpp --nopy pat`. -/
def demoArgv : List Str :=
  ["ucg".toList, "--cpp".toList, "--nopy".toList, "pat".toList]

/-- The type names `cpp` and `python`. -/
def demoTypes : List Str := ["cpp".toList, "python".toList]

/-- The type names `cpp`, `cc` and `python`. -/
def demoTypesC : List Str := ["cpp".toList, "cc".toList, "python".toList]

/-- The vector `ucg --c --noc pat`. -/
def demoArgvAmbiguous : List Str :=
  ["ucg".toList, "--c".toList, "--noc".toList, "pat".toList]

/-- The vector `ucg --noc pat`. -/
def demoArgvNoAmbiguous : List Str :=
  ["ucg".toList, "--noc".toList, "pat".toList]

/-- The state of `HandleTYPELogic` after the argument `arg`, when the loop had reached it in
the state `before` and made the one type-manager call `call` for it: the call's new
state, or its `TypeManagerException` rethrown as an `ArgParseException`; the argument
stays as it is. -/
def afterCall {TM : Type} (before : HandleResult TM) (arg : Str) (call : Except Str TM) :
    HandleResult TM :=
  match call with
  | .ok tm1 => { thrown := none, v := before.v ++ [arg], tm := tm1 }
  | .error what =>
    { thrown := some (what ++ " while parsing option '".toList ++ arg ++ "'".toList),
      v := before.v ++ [arg], tm := before.tm }

/-- The calls of `TypeManager` member functions that change it, with their arguments. -/
inductive TMCall where
  | type (name : Str)
  | notype (name : Str)
  | TypeAddFromFilterSpecString (delete_type_first : Bool) (spec : Str)
  | TypeDel (name : Str)
  | TypeAddIgnoreFileFromFilterSpecString (spec : Str)
  | TypeAddIncludeGlobFromFilterSpecString (spec : Str)
  deriving DecidableEq, Repr

/-- A type manager for examples that records the calls made on it: its state is the list
of calls so far, `GetMatchingTypenameList` returns the names of the fixed list `names`
that the text is a prefix of, `split` cuts at every delimiter and `join` puts the
separator between the elements. -/
def logExternals (names : List Str) : Externals (List TMCall) where
  GetMatchingTypenameList := fun _ s => names.filter (fun name => s.isPrefixOf name)
  TypeAddFromFilterSpecString := fun tm b s => .ok (tm ++ [TMCall.TypeAddFromFilterSpecString b s])
  TypeDel := fun tm s => .ok (tm ++ [TMCall.TypeDel s])
  TypeAddIgnoreFileFromFilterSpecString := fun tm s =>
    .ok (tm ++ [TMCall.TypeAddIgnoreFileFromFilterSpecString s])
  TypeAddIncludeGlobFromFilterSpecString := fun tm s =>
    .ok (tm ++ [TMCall.TypeAddIncludeGlobFromFilterSpecString s])
  split := fun s c => s.splitOn c
  join := fun l sep => List.intercalate sep l

/-- The vector `ucg --type-add=cpp:ext:txt --exclude=*.bak pat`. -/
def demoArgvCommands : List Str :=
  ["ucg".toList, "--type-add=cpp:ext:txt".toList, "--exclude=*.bak".toList, "pat".toList]

/-! ## ArgParse.cpp: ConvertRCFileToArgv -/

/-- The class `File` as `ConvertRCFileToArgv` uses it: `name()`, and the bytes
`data()` ... `data() + size()`. -/
structure File where
  name : Str
  data : List Char
  deriving DecidableEq, Repr

/-- The NUL character that ends a C string. -/
def NUL : Char := Char.ofNat 0

/-- The double quote character. -/
def DQUOTE : Char := Char.ofNat 34

/-- The C library function `isspace` in the "C" locale: space, `\t`, `\n`, `\v`, `\f`, `\r`. -/
def isspace (c : Char) : Bool :=
  c = ' ' || c = '\t' || c = '\n' || c = Char.ofNat 11 || c = Char.ofNat 12 || c = '\r'

/-- The string a `char*` buffer holding `bytes` followed by a NUL stands for: the bytes up
to the first NUL. -/
def c_str (bytes : List Char) : Str :=
  bytes.takeWhile (fun c => c ≠ NUL)

/-- The predicate `(c=='\r') || (c=='\n')` that ends a parameter. -/
def isEol (c : Char) : Bool :=
  c = '\r' || c = '\n'

/-- How a run of `ConvertRCFileToArgv` ends. -/
inductive RcOutcome where
  /-- The function returned the vector `retval`. -/
  | returned (retval : List Str)
  /-- An `ArgParseException` with this message was thrown. -/
  | threw (msg : Str)
  /-- The loop was still running when the step budget ran out. -/
  | running
  deriving DecidableEq, Repr

/-- The `while(pos != end)` loop of `ConvertRCFileToArgv`, run for at most `fuel` passes:
`pos` is the text from the current position to the end, `retval` the vector so far. -/
def ConvertRCFileToArgv_loop (name : Str) : Nat → List Char → List Str → RcOutcome
  | 0, _, _ => .running
  | fuel + 1, pos, retval =>
    match pos with
    | [] => .returned retval
    | _ :: _ =>
      match pos.dropWhile isspace with
      | [] => ConvertRCFileToArgv_loop name fuel [] retval
      | c :: rest =>
        if c = '#' then
          ConvertRCFileToArgv_loop name fuel ((c :: rest).dropWhile (fun x => x ≠ '\n')) retval
        else
          let param := (c :: rest).takeWhile (fun x => !isEol x)
          let param_end := (c :: rest).dropWhile (fun x => !isEol x)
          if c_str param = "--".toList then
            .threw ("Double-dash ".toList ++ [DQUOTE] ++ c_str param ++ [DQUOTE] ++
              " is not allowed in rc file ".toList ++ [DQUOTE] ++ name ++ [DQUOTE] ++ ".".toList)
          else if param.head? ≠ some '-' then
            .threw ("Non-option argument ".toList ++ [DQUOTE] ++ c_str param ++ [DQUOTE] ++
              " is not allowed in rc file ".toList ++ [DQUOTE] ++ name ++ [DQUOTE] ++ ".".toList)
          else
            ConvertRCFileToArgv_loop name fuel param_end (retval ++ [c_str param])

/-- The function `ArgParse::ConvertRCFileToArgv`.  Every pass through its loop moves `pos`
forward, so `size() + 1` passes are enough. -/
def ConvertRCFileToArgv (f : File) : RcOutcome :=
  ConvertRCFileToArgv_loop f.name (f.data.length + 1) f.data []

/-- The arguments the scanning of `ConvertRCFileToArgv` extracts from a text, before any
check: whitespace is passed over, a `#` passes over the text up to the next `\n`, and
anything else starts an argument that runs up to the next `\r` or `\n`. -/
def rcTokens_loop : Nat → List Char → List Str
  | 0, _ => []
  | fuel + 1, pos =>
    match pos.dropWhile isspace with
    | [] => []
    | c :: rest =>
      if c = '#' then rcTokens_loop fuel ((c :: rest).dropWhile (fun x => x ≠ '\n'))
      else
        c_str ((c :: rest).takeWhile (fun x => !isEol x)) ::
          rcTokens_loop fuel ((c :: rest).dropWhile (fun x => !isEol x))

/-- The arguments an rc text yields. -/
def rcTokens (text : List Char) : List Str :=
  rcTokens_loop (text.length + 1) text

/-- An argument that `ConvertRCFileToArgv` rejects: exactly `--`, or not beginning
with `-`. -/
def rcForbidden (a : Str) : Prop :=
  a = "--".toList ∨ a.head? ≠ some '-'

/-- The rc file with the lines `# c`, `  -i`, an empty line and `--type=cpp`. -/
def demoRcFile : File :=
  { name := ".ucgrc".toList, data := "# c\n  -i\r\n\n--type=cpp\n".toList }

/-- The lines of a text, a line ending at `\n`, at `\r\n` or at a lone `\r` (the
terminator is not part of the line); the text after the last terminator is a line too. -/
def splitLines : List Char → List (List Char)
  | [] => [[]]
  | [c] =>
    if c = '\n' ∨ c = '\r' then [[], []] else [[c]]
  | c :: d :: ds =>
    if c = '\n' then [] :: splitLines (d :: ds)
    else if c = '\r' then
      if d = '\n' then [] :: splitLines ds else [] :: splitLines (d :: ds)
    else
      match splitLines (d :: ds) with
      | l :: ls => (c :: l) :: ls
      | [] => [[c]]

/-- The argument a line stands for, in the words of the spec: nothing for a blank line and
for a comment (a line whose first non-whitespace character is `#`), else the text of the
line with its leading whitespace removed. -/
def lineArg (line : List Char) : Option Str :=
  match line.dropWhile isspace with
  | [] => none
  | c :: rest => if c = '#' then none else some (c :: rest)

/-- The argument vector of an rc text, in the words of the spec: one argument per line that
is neither blank nor a comment, in file order. -/
def rcArgsSpec (text : List Char) : List Str :=
  (splitLines text).filterMap lineArg

/-- Every `\r` of the text is followed by `\n`: the lines end in `\n` or `\r\n`. -/
def crOnlyBeforeLf : List Char → Bool
  | [] => true
  | c :: cs => (c ≠ '\r' || cs.head? = some '\n') && crOnlyBeforeLf cs

/-- The text that holds the elements of `v` one per line, each line ended by `\n`. -/
def rcSerialize : List Str → List Char
  | [] => []
  | a :: rest => a ++ '\n' :: rcSerialize rest

/-- The rc file with the one line `-i `, which ends in a space. -/
def demoRcTrailing : File :=
  { name := ".ucgrc".toList, data := "-i \n".toList }

/-- The rc file with the lines `#c` and `-i`, each ended by a `\r` alone. -/
def demoRcLoneCr : File :=
  { name := ".ucgrc".toList, data := "#c\r-i\r".toList }

/-- The rc file with the lines `#c` and `--`, each ended by a `\r` alone. -/
def demoRcCommentThenDashDash : File :=
  { name := ".ucgrc".toList, data := "#c\r--\r".toList }

/-- The rc file with the one line `-a\rb`, a `\r` inside it, ended by `\n`. -/
def demoRcCrInsideLine : File :=
  { name := ".ucgrc".toList, data := "-a\rb\n".toList }

/-- The rc file with the lines `-i` and `--`. -/
def demoRcDashDash : File :=
  { name := ".ucgrc".toList, data := "-i\n--\n".toList }

/-! ## ArgParse.cpp: parse_opt -/

/-- The key of an option with a short name: the character as an `int`. -/
def key (c : Char) : Int := c.toNat

/-- The enumeration `OPT`, the keys of the options without a short name. -/
def OPT_RESERVED : Int := 0
def OPT_SMART_CASE : Int := 1
def OPT_NO_SMART_CASE : Int := 2
def OPT_COLOR : Int := 3
def OPT_NOCOLOR : Int := 4
def OPT_IGNORE_DIR : Int := 5
def OPT_NOIGNORE_DIR : Int := 6
def OPT_IGNORE_FILE : Int := 7
def OPT_INCLUDE : Int := 8
def OPT_EXCLUDE : Int := 9
def OPT_TYPE : Int := 10
def OPT_NOENV : Int := 11
def OPT_TYPE_SET : Int := 12
def OPT_TYPE_ADD : Int := 13
def OPT_TYPE_DEL : Int := 14
def OPT_PERF_DIRJOBS : Int := 15
def OPT_HELP_TYPES : Int := 16
def OPT_COLUMN : Int := 17
def OPT_NOCOLUMN : Int := 18
def OPT_TEST_LOG_ALL : Int := 19
def OPT_TEST_NOENV_USER : Int := 20
def OPT_TEST_USE_MMAP : Int := 21
def OPT_BRACKET_NO_STANDIN : Int := 22

/-- The key `ARGP_KEY_ARG` of `argp.h`, passed with a non-option argument. -/
def ARGP_KEY_ARG : Int := 0

/-- The key `ARGP_KEY_END` of `argp.h`, passed when the arguments are used up. -/
def ARGP_KEY_END : Int := 0x1000001

/-- The macro `STATUS_EX_USAGE`. -/
def STATUS_EX_USAGE : Nat := 255

/-- The flags `OPTION_HIDDEN` and `OPTION_ALIAS` of `argp.h`. -/
def OPTION_HIDDEN : Nat := 2
def OPTION_ALIAS : Nat := 4

/-- An entry of the table `options[]`, a `struct argp_option` without its help text: the
long name, the key, the name of the argument if the option takes one, and the flags. -/
structure argp_option where
  name : Option Str
  key : Int
  arg : Option Str
  flags : Nat
  deriving DecidableEq, Repr

/-- The table `options[]`, in the order of the source; the entries without a name and with
key 0 are the group headers. -/
def options : List argp_option := [
  ⟨none, 0, none, 0⟩,
  ⟨some "ignore-case".toList, key 'i', none, 0⟩,
  ⟨some "[no]smart-case".toList, OPT_BRACKET_NO_STANDIN, none, 0⟩,
  ⟨some "smart-case".toList, OPT_SMART_CASE, none, OPTION_HIDDEN⟩,
  ⟨some "nosmart-case".toList, OPT_NO_SMART_CASE, none, OPTION_HIDDEN⟩,
  ⟨some "no-smart-case".toList, OPT_NO_SMART_CASE, none, OPTION_HIDDEN ||| OPTION_ALIAS⟩,
  ⟨some "word-regexp".toList, key 'w', none, 0⟩,
  ⟨some "literal".toList, key 'Q', none, 0⟩,
  ⟨none, 0, none, 0⟩,
  ⟨some "column".toList, OPT_COLUMN, none, 0⟩,
  ⟨some "nocolumn".toList, OPT_NOCOLUMN, none, 0⟩,
  ⟨none, 0, none, 0⟩,
  ⟨some "color".toList, OPT_COLOR, none, 0⟩,
  ⟨some "colour".toList, OPT_COLOR, none, OPTION_ALIAS⟩,
  ⟨some "nocolor".toList, OPT_NOCOLOR, none, 0⟩,
  ⟨some "nocolour".toList, OPT_NOCOLOR, none, OPTION_ALIAS⟩,
  ⟨none, 0, none, 0⟩,
  ⟨some "[no]ignore-dir".toList, OPT_BRACKET_NO_STANDIN, some "name".toList, 0⟩,
  ⟨some "[no]ignore-directory".toList, OPT_BRACKET_NO_STANDIN, some "name".toList,
    OPTION_ALIAS⟩,
  ⟨some "ignore-dir".toList, OPT_IGNORE_DIR, some "name".toList, OPTION_HIDDEN⟩,
  ⟨some "ignore-directory".toList, OPT_IGNORE_DIR, some "name".toList,
    OPTION_HIDDEN ||| OPTION_ALIAS⟩,
  ⟨some "noignore-dir".toList, OPT_NOIGNORE_DIR, some "name".toList, OPTION_HIDDEN⟩,
  ⟨some "noignore-directory".toList, OPT_NOIGNORE_DIR, some "name".toList,
    OPTION_HIDDEN ||| OPTION_ALIAS⟩,
  ⟨some "ignore-file".toList, OPT_IGNORE_FILE, some "FILTER:FILTERARGS".toList, 0⟩,
  ⟨some "include".toList, OPT_INCLUDE, some "GLOB".toList, 0⟩,
  ⟨some "exclude".toList, OPT_EXCLUDE, some "GLOB".toList, 0⟩,
  ⟨some "ignore".toList, OPT_EXCLUDE, some "GLOB".toList, OPTION_ALIAS⟩,
  ⟨some "recurse".toList, key 'r', none, 0⟩,
  ⟨none, key 'R', none, OPTION_ALIAS⟩,
  ⟨some "no-recurse".toList, key 'n', none, 0⟩,
  ⟨some "known-types".toList, key 'k', none, 0⟩,
  ⟨some "type".toList, OPT_TYPE, some "[no]TYPE".toList, 0⟩,
  ⟨none, 0, none, 0⟩,
  ⟨some "type-set".toList, OPT_TYPE_SET, some "TYPE:FILTER:FILTERARGS".toList, 0⟩,
  ⟨some "type-add".toList, OPT_TYPE_ADD, some "TYPE:FILTER:FILTERARGS".toList, 0⟩,
  ⟨some "type-del".toList, OPT_TYPE_DEL, some "TYPE".toList, 0⟩,
  ⟨none, 0, none, 0⟩,
  ⟨some "jobs".toList, key 'j', some "NUM_JOBS".toList, 0⟩,
  ⟨some "dirjobs".toList, OPT_PERF_DIRJOBS, some "NUM_JOBS".toList, 0⟩,
  ⟨none, 0, none, 0⟩,
  ⟨some "noenv".toList, OPT_NOENV, none, 0⟩,
  ⟨none, 0, none, 0⟩,
  ⟨some "help-types".toList, OPT_HELP_TYPES, none, 0⟩,
  ⟨some "list-file-types".toList, 0, none, OPTION_ALIAS⟩,
  ⟨some "test-log-all".toList, OPT_TEST_LOG_ALL, none, OPTION_HIDDEN⟩,
  ⟨some "test-noenv-user".toList, OPT_TEST_NOENV_USER, none, OPTION_HIDDEN⟩,
  ⟨some "test-use-mmap".toList, OPT_TEST_USE_MMAP, none, OPTION_HIDDEN⟩]

/-- The entry of `options[]` with the long name `name`. -/
def find_option (name : Str) : Option argp_option :=
  options.find? (fun o => o.name = some name)

/-- The data members of the class `ArgParse` that `parse_opt` and `Parse` read or write,
over a type-manager state `TM`; `m_excludes`, a `std::set`, is a list taken without order
and without repeats. -/
structure ArgParse (TM : Type) where
  m_type_manager : TM
  m_pattern : Str
  m_paths : List Str
  m_ignore_case : Bool
  m_smart_case : Bool
  m_word_regexp : Bool
  m_pattern_is_literal : Bool
  m_column : Bool
  m_excludes : List Str
  m_recurse : Bool
  m_jobs : Int
  m_dirjobs : Int
  m_color : Bool
  m_nocolor : Bool
  m_use_mmap : Bool
  m_test_noenv_user : Bool
  deriving DecidableEq, Repr

/-- What `parse_opt` uses and the sources at hand do not define: the member functions
`type` and `notype` of `TypeManager`, which return whether the type is known and leave a
new state, and the C library function `atoi`. -/
structure ParseOptExternals (TM : Type) where
  type : TM → Str → Bool × TM
  notype : TM → Str → Bool × TM
  atoi : Str → Int

/-- The fields of `struct argp_state` that `parse_opt` reads or writes. -/
structure argp_state where
  argc : Nat
  argv : List Str
  next : Nat
  arg_num : Nat
  deriving DecidableEq, Repr

/-- What `parse_opt` does besides changing the `ArgParse` object and the parser state. -/
inductive ParseEffect where
  /-- The call `arguments->PrintHelpTypes()`. -/
  | PrintHelpTypes
  /-- The call `INFO::Enable(true)`. -/
  | INFO_Enable
  deriving DecidableEq, Repr

/-- How a call of `parse_opt` ends. -/
inductive ParseOptResult (TM : Type) where
  /-- It returns 0: the `ArgParse` object, the parser state and the calls made. -/
  | ok (arguments : ArgParse TM) (state : argp_state) (effects : List ParseEffect)
  /-- It returns `ARGP_ERR_UNKNOWN`. -/
  | ARGP_ERR_UNKNOWN
  /-- The call `argp_failure(state, status, 0, ...)` with a non-zero status: the message
  is printed and the program exits with `status`. -/
  | argp_failure (status : Nat) (msg : Str)
  /-- The call `argp_error(state, ...)`: the message is printed and the program exits. -/
  | argp_error (msg : Str)
  /-- The call `argp_usage(state)`: the usage text is printed and the program exits. -/
  | argp_usage
  deriving DecidableEq, Repr

/-- The `case OPT_TYPE` of `parse_opt`: the result `(known, tm)` of the call of `type` or
`notype` made with `name`. -/
def parse_opt_type {TM : Type} (arguments : ArgParse TM) (state : argp_state) (name : Str)
    (r : Bool × TM) : ParseOptResult TM :=
  if r.1 = false then
    .argp_failure STATUS_EX_USAGE ("Unknown type '".toList ++ name ++ "'.".toList)
  else .ok { arguments with m_type_manager := r.2 } state []

/-- The function `ArgParse::parse_opt` for the key `key` and the argument `arg` (the empty
string where argp passes a null pointer), on the object `state->input`. -/
def parse_opt {TM : Type} (ext : ParseOptExternals TM) (k : Int) (arg : Str)
    (state : argp_state) (arguments : ArgParse TM) : ParseOptResult TM :=
  if k = key 'i' then
    .ok { arguments with m_ignore_case := true, m_smart_case := false } state []
  else if k = OPT_SMART_CASE then
    .ok { arguments with m_smart_case := true, m_ignore_case := false } state []
  else if k = OPT_NO_SMART_CASE then
    .ok { arguments with m_smart_case := false } state []
  else if k = key 'w' then .ok { arguments with m_word_regexp := true } state []
  else if k = key 'Q' then .ok { arguments with m_pattern_is_literal := true } state []
  else if k = OPT_COLUMN then .ok { arguments with m_column := true } state []
  else if k = OPT_NOCOLUMN then .ok { arguments with m_column := false } state []
  else if k = OPT_IGNORE_DIR then
    .ok { arguments with
      m_excludes := if arg ∈ arguments.m_excludes then arguments.m_excludes
        else arg :: arguments.m_excludes } state []
  else if k = OPT_NOIGNORE_DIR then
    .ok { arguments with m_excludes := arguments.m_excludes.filter (fun x => x ≠ arg) }
      state []
  else if k = OPT_IGNORE_FILE then .ok arguments state []
  else if k = OPT_INCLUDE ∨ k = OPT_EXCLUDE then .ok arguments state []
  else if k = key 'r' ∨ k = key 'R' then .ok { arguments with m_recurse := true } state []
  else if k = key 'n' then .ok { arguments with m_recurse := false } state []
  else if k = key 'k' then .ok arguments state []
  else if k = OPT_TYPE then
    if arg.take 2 = "no".toList then
      parse_opt_type arguments state (arg.drop 2)
        (ext.notype arguments.m_type_manager (arg.drop 2))
    else
      parse_opt_type arguments state arg (ext.type arguments.m_type_manager arg)
  else if k = OPT_TYPE_SET ∨ k = OPT_TYPE_ADD ∨ k = OPT_TYPE_DEL then .ok arguments state []
  else if k = OPT_NOENV then .ok arguments state []
  else if k = OPT_HELP_TYPES then
    .ok arguments { state with next := state.argc } [ParseEffect.PrintHelpTypes]
  else if k = key 'j' then
    if ext.atoi arg < 1 then .argp_failure STATUS_EX_USAGE "jobs must be >= 1".toList
    else .ok { arguments with m_jobs := ext.atoi arg } state []
  else if k = OPT_PERF_DIRJOBS then
    if ext.atoi arg < 1 then .argp_failure STATUS_EX_USAGE "jobs must be >= 1".toList
    else .ok { arguments with m_dirjobs := ext.atoi arg } state []
  else if k = OPT_COLOR then
    .ok { arguments with m_color := true, m_nocolor := false } state []
  else if k = OPT_NOCOLOR then
    .ok { arguments with m_color := false, m_nocolor := true } state []
  else if k = OPT_TEST_LOG_ALL then .ok arguments state [ParseEffect.INFO_Enable]
  else if k = OPT_TEST_NOENV_USER then .ok arguments state []
  else if k = OPT_TEST_USE_MMAP then .ok { arguments with m_use_mmap := true } state []
  else if k = ARGP_KEY_ARG then
    if state.arg_num = 0 then .ok { arguments with m_pattern := arg } state []
    else .ok { arguments with m_paths := arguments.m_paths ++ [arg] } state []
  else if k = ARGP_KEY_END then
    if state.arg_num < 1 then .argp_usage else .ok arguments state []
  else if k = OPT_BRACKET_NO_STANDIN then
    .argp_error ("unrecognized option '".toList ++ (state.argv.getD (state.next - 1) []) ++
      "'".toList)
  else .ARGP_ERR_UNKNOWN

/-- A type manager for examples of `parse_opt`, recording the calls made on it: `type` and
`notype` know the names of the list `names`; `atoi` reads a run of decimal digits. -/
def logParseOptExternals (names : List Str) : ParseOptExternals (List TMCall) where
  type := fun tm s => (decide (s ∈ names), tm ++ [TMCall.type s])
  notype := fun tm s => (decide (s ∈ names), tm ++ [TMCall.notype s])
  atoi := fun s => (s.takeWhile Char.isDigit).foldl (fun n c => 10 * n + (c.toNat - 48)) 0

/-- An `ArgParse` object for examples: smart-case on, recursion on, nothing else set. -/
def demoArgParse (tm : List TMCall) : ArgParse (List TMCall) :=
  { m_type_manager := tm, m_pattern := [], m_paths := [], m_ignore_case := false,
    m_smart_case := true, m_word_regexp := false, m_pattern_is_literal := false,
    m_column := false, m_excludes := [], m_recurse := true, m_jobs := 0, m_dirjobs := 0,
    m_color := false, m_nocolor := false, m_use_mmap := false, m_test_noenv_user := false }

/-- A parser state for examples: the vector `argv`, its argument at index 1 just read. -/
def demoState (argv : List Str) : argp_state :=
  { argc := argv.length, argv := argv, next := 2, arg_num := 0 }

/-- The vector `ucg --type-add cpp:ext:txt pat`, the rule in an argument of its own. -/
def demoArgvTypeAddSeparate : List Str :=
  ["ucg".toList, "--type-add".toList, "cpp:ext:txt".toList, "pat".toList]

/-- The vector `ucg --type-add=cpp:ext:txt pat`. -/
def demoArgvTypeAddJoined : List Str :=
  ["ucg".toList, "--type-add=cpp:ext:txt".toList, "pat".toList]

/-- The type manager a call of `parse_opt` leaves behind, `d` when it does not return 0. -/
def ParseOptResult.typeManagerOr {TM : Type} (d : TM) : ParseOptResult TM → TM
  | .ok arguments _ _ => arguments.m_type_manager
  | _ => d

/-! ## ArgParse.cpp: Parse -/

/-- The function `std::isupper` in the classic "C" locale. -/
def isupper (c : Char) : Bool :=
  decide ('A'.toNat ≤ c.toNat ∧ c.toNat ≤ 'Z'.toNat)

/-- The constant `f_default_dirjobs`. -/
def f_default_dirjobs : Int := 2

/-- The last part of `ArgParse::Parse`, after `argp_parse` has returned: the defaults for
the jobs, the directory jobs and the paths, and the smart-case decision;
`hardware_concurrency` is what `std::thread::hardware_concurrency()` returns. -/
def Parse_defaults {TM : Type} (hardware_concurrency : Nat) (a : ArgParse TM) : ArgParse TM :=
  let a1 :=
    if a.m_jobs = 0 then
      if (hardware_concurrency : Int) = 0 then { a with m_jobs := 1 }
      else { a with m_jobs := hardware_concurrency }
    else a
  let a2 := if a1.m_dirjobs = 0 then { a1 with m_dirjobs := f_default_dirjobs } else a1
  let a3 := if a2.m_paths = [] then { a2 with m_paths := [".".toList] } else a2
  if a3.m_smart_case = true ∧ a3.m_ignore_case = false then
    if a3.m_pattern.find? isupper = none then { a3 with m_ignore_case := true } else a3
  else a3

/-- The string the constructor `FileScannerPCRE2::FileScannerPCRE2` hands to
`pcre2_compile`: the local `regex` after the three assignments, for the members
`m_word_regexp` and `m_pattern_is_literal` that the base class took from the arguments. -/
def FileScannerPCRE2_regex (regex : Str) (m_word_regexp m_pattern_is_literal : Bool) : Str :=
  let regex := if m_pattern_is_literal then "\\Q".toList ++ regex ++ "\\E".toList else regex
  let regex := if m_word_regexp then "\\b(?:".toList ++ regex ++ ")\\b".toList else regex
  "(?:".toList ++ regex ++ ")(?=.*?$)(?C1)".toList

/-- The first step in the words of the spec: `P` becomes `\Q` + `P` + `\E`. -/
def literalWrap (P : Str) : Str := "\\Q".toList ++ P ++ "\\E".toList

/-- The second step in the words of the spec: `R` becomes `\b(?:` + `R` + `)\b`. -/
def wordWrap (R : Str) : Str := "\\b(?:".toList ++ R ++ ")\\b".toList

/-- The third step in the words of the spec: `R` becomes `(?:` + `R` + `)(?=.*?$)(?C1)`. -/
def calloutWrap (R : Str) : Str := "(?:".toList ++ R ++ ")(?=.*?$)(?C1)".toList

/-- The compiled string in the words of the spec: the three steps in their order, the
first in literal mode only and the second in word-regexp mode only. -/
def compiledSpec (P : Str) (word_regexp literal : Bool) : Str :=
  let R1 := if literal then literalWrap P else P
  let R2 := if word_regexp then wordWrap R1 else R1
  calloutWrap R2

/-- The text of `s` before the first `\E` in it (all of `s` when there is none): what a
quotation opened by `\Q` just before `s` holds. -/
def beforeFirstBackslashE : Str → Str
  | [] => []
  | [c] => [c]
  | c :: d :: rest =>
    if c = '\\' ∧ d = 'E' then [] else c :: beforeFirstBackslashE (d :: rest)

/-! ## libext/filesystem.hpp: dev_ino_pair -/

/-- The constructor `dev_ino_pair(dev_t d, ino_t i)` for 64-bit `dev_t` and `ino_t`, the
value `m_val` being an unsigned 128-bit integer: `m_val = d`, `m_val <<= sizeof(ino_t)*8`,
`m_val |= i`. -/
def dev_ino_pair (d i : Nat) : Nat :=
  let m_val := d % 2 ^ 128
  let m_val := (m_val <<< 64) % 2 ^ 128
  m_val ||| (i % 2 ^ 128)

/-- The member `dev_ino_pair::operator<` on the values `m_val`. -/
def dev_ino_pair_lt (a b : Nat) : Bool := decide (a < b)

/-! ## ArgParse.cpp: runs of parse_opt -/

/-- The `ArgParse` object a call of `parse_opt` leaves behind, `d` when it does not
return 0. -/
def ParseOptResult.argumentsOr {TM : Type} (d : ArgParse TM) : ParseOptResult TM → ArgParse TM
  | .ok arguments _ _ => arguments
  | _ => d

/-- A run of calls of `parse_opt` on one `ArgParse` object, as `argp_parse` makes them one
after the other, each with its key, its argument and the parser state of the moment: the
object after the last call, or `none` when a call ends the program. A call that returns
`ARGP_ERR_UNKNOWN` has changed nothing. -/
def parse_opt_calls {TM : Type} (ext : ParseOptExternals TM) :
    List (Int × Str × argp_state) → ArgParse TM → Option (ArgParse TM)
  | [], a => some a
  | (k, arg, state) :: rest, a =>
    match parse_opt ext k arg state a with
    | .ok a1 _ _ => parse_opt_calls ext rest a1
    | .ARGP_ERR_UNKNOWN => parse_opt_calls ext rest a
    | _ => none

/-- The vector `ucg --type-add=sh:firstlinematch:/a=b/ pat`, a rule with an `=` in it. -/
def demoArgvSpecWithEquals : List Str :=
  ["ucg".toList, "--type-add=sh:firstlinematch:/a=b/".toList, "pat".toList]

/-- The vector `ucg -- --cpp`. -/
def demoArgvAfterDoubleDash : List Str :=
  ["ucg".toList, "--".toList, "--cpp".toList]

/-! ## FileScannerPCRE2.cpp: engines for the termination and error properties -/

/-- Return code `PCRE2_ERROR_MATCHLIMIT` of `pcre2_match`, one of its match-time errors. -/
def PCRE2_ERROR_MATCHLIMIT : Int := -47

/-- An engine that finds the one-byte match at offset 0 when asked to start there and
reports `PCRE2_ERROR_MATCHLIMIT` for every later start offset. -/
def errorEngine : Engine :=
  fun start _ => if start = 0 then (1, 0, 1) else (PCRE2_ERROR_MATCHLIMIT, 0, 0)

/-- The buffer `ab\nab\n`. -/
def bufAB : List Nat := [97, 98, 10, 97, 98, 10]

/-- What the termination of the loop of `ScanFile` needs from `pcre2_match`, for start
offsets up to `file_size`: a match lies between the start offset and `file_size`, and a
match found with `PCRE2_NOTEMPTY_ATSTART | PCRE2_ANCHORED` is not the empty match at the
start offset. -/
structure EngineBounded (file_size : Nat) (pcre2_match : Engine) : Prop where
  bounds : ∀ start options, start ≤ file_size → 0 < (pcre2_match start options).1 →
    start ≤ (pcre2_match start options).2.1 ∧
    (pcre2_match start options).2.1 ≤ (pcre2_match start options).2.2 ∧
    (pcre2_match start options).2.2 ≤ file_size
  notempty : ∀ start, start ≤ file_size →
    0 < (pcre2_match start (PCRE2_NOTEMPTY_ATSTART ||| PCRE2_ANCHORED)).1 →
    ¬ ((pcre2_match start (PCRE2_NOTEMPTY_ATSTART ||| PCRE2_ANCHORED)).2.1 = start ∧
      (pcre2_match start (PCRE2_NOTEMPTY_ATSTART ||| PCRE2_ANCHORED)).2.2 = start)

/-! ## libext/FileID.cpp -/

/-- The enumeration `FileID::FileType`, by the names `FileID.cpp` uses. -/
inductive FileType where
  | FT_UNINITIALIZED
  | FT_UNKNOWN
  | FT_REG
  | FT_DIR
  | FT_SYMLINK
  | FT_STAT_FAILED
  deriving DecidableEq, Repr

/-- The macro `AT_FDCWD` of `fcntl.h`. -/
def AT_FDCWD : Int := -100

/-- The data members of a `FileID` other than `m_at_dir`; `m_file_descriptor` is the
descriptor the shared pointer points to, `m_unique_file_identifier` the value `m_val` of
the `dev_ino_pair`. -/
structure FileIDMembers where
  m_basename : Str
  m_path : Str
  m_file_descriptor : Int
  m_file_type : FileType
  m_stat_info_valid : Bool
  m_dev : Nat
  m_unique_file_identifier : Nat
  m_size : Int
  m_block_size : Int
  m_blocks : Int
  deriving DecidableEq, Repr

/-- A `FileID` object: its members, and the `FileID` that `m_at_dir` points to unless
`m_at_dir` is null. -/
inductive FileID where
  | noAtDir (m : FileIDMembers)
  | atDir (m : FileIDMembers) (m_at_dir : FileID)
  deriving DecidableEq, Repr

/-- The members of a `FileID`. -/
def FileID.members : FileID → FileIDMembers
  | .noAtDir m => m
  | .atDir m _ => m

/-- The object with its members replaced, `m_at_dir` kept. -/
def FileID.withMembers : FileID → FileIDMembers → FileID
  | .noAtDir _, m => .noAtDir m
  | .atDir _ p, m => .atDir m p

/-- The object with the members `m` and the `m_at_dir` given to a constructor. -/
def FileID.make (m : FileIDMembers) : Option FileID → FileID
  | none => .noAtDir m
  | some at_dir_fileid => .atDir m at_dir_fileid

/-- What `FileID.cpp` uses and `FileID.h`, which is not among the sources, defines: the
members as their default member initialisers leave them, the constant
`cm_invalid_file_descriptor`, and the member functions `IsAtFDCWD`, `IsStatInfoValid` and
`GetBasename`. -/
structure FileIDHeader where
  init : FileIDMembers
  cm_invalid_file_descriptor : Int
  IsAtFDCWD : FileID → Bool
  IsStatInfoValid : FileID → Bool
  GetBasename : FileID → Str

/-- The function `is_pathname_absolute` of `libext/filesystem.hpp`: `path[0] == '/'`. -/
def is_pathname_absolute (path : Str) : Bool :=
  decide (path.head? = some '/')

/-- The constructor `FileID(path_known_cwd_tag)`. -/
def FileID.cwd (hdr : FileIDHeader) : FileID :=
  .noAtDir { hdr.init with
    m_basename := ".".toList, m_path := ".".toList, m_file_descriptor := AT_FDCWD,
    m_file_type := FileType.FT_DIR }

/-- The constructor `FileID(path_known_relative_tag, at_dir_fileid, basename, type)`; the
string `m_path` starts empty. -/
def FileID.relative (hdr : FileIDHeader) (at_dir_fileid : Option FileID) (basename : Str)
    (type : FileType) : FileID :=
  FileID.make { hdr.init with m_basename := basename, m_path := [], m_file_type := type }
    at_dir_fileid

/-- The constructor `FileID(path_known_absolute_tag, at_dir_fileid, pathname, type)`. -/
def FileID.absolute (hdr : FileIDHeader) (at_dir_fileid : Option FileID) (pathname : Str)
    (type : FileType) : FileID :=
  FileID.make { hdr.init with m_basename := pathname, m_path := pathname, m_file_type := type }
    at_dir_fileid

/-- The constructor `FileID(at_dir_fileid, pathname)`. -/
def FileID.ofPathname (hdr : FileIDHeader) (at_dir_fileid : Option FileID) (pathname : Str) :
    FileID :=
  FileID.make { hdr.init with
    m_basename := pathname,
    m_path := if is_pathname_absolute pathname then pathname else [] } at_dir_fileid

/-- The member function `FileID::UnsyncedGetPath`: the string returned and the object
afterwards (`m_path` is `mutable`, and the object `m_at_dir` points to is asked for its
path in turn); `none` when a null `m_at_dir` is dereferenced. -/
def FileID.UnsyncedGetPath (hdr : FileIDHeader) : FileID → Option (Str × FileID)
  | .noAtDir m => if m.m_path = [] then none else some (m.m_path, .noAtDir m)
  | .atDir m at_dir =>
    if m.m_path = [] then
      if hdr.IsAtFDCWD at_dir = false then
        match FileID.UnsyncedGetPath hdr at_dir with
        | none => none
        | some (at_path, at_dir1) =>
          some (at_path ++ '/' :: m.m_basename,
            .atDir { m with m_path := at_path ++ '/' :: m.m_basename } at_dir1)
      else some (m.m_basename, .atDir { m with m_path := m.m_basename } at_dir)
    else some (m.m_path, .atDir m at_dir)

/-- The member function `FileID::GetPath`: `UnsyncedGetPath` under the mutex. -/
def FileID.GetPath (hdr : FileIDHeader) (f : FileID) : Option (Str × FileID) :=
  FileID.UnsyncedGetPath hdr f

/-- The fields of `struct stat` that `LazyLoadStatInfo` reads. -/
structure stat_buf where
  st_mode : Nat
  st_dev : Nat
  st_ino : Nat
  st_size : Int
  st_blksize : Int
  st_blocks : Int
  deriving DecidableEq, Repr

/-- The file-type bits of `st_mode` in `sys/stat.h`. -/
def S_IFMT : Nat := 0o170000
def S_IFREG : Nat := 0o100000
def S_IFDIR : Nat := 0o040000
def S_IFLNK : Nat := 0o120000

/-- The operating system as `FileID.cpp` calls it: `stat(path, &buf)`, with `none` for a
non-zero return, and `openat(dirfd, path, flags)` with the flags `FileID.cpp` passes. -/
structure FileSystem where
  stat : Str → Option stat_buf
  openat : Int → Str → Int

/-- The file type `LazyLoadStatInfo` derives from `st_mode` with `S_ISREG`, `S_ISDIR`
and `S_ISLNK`. -/
def fileTypeOfMode (st_mode : Nat) : FileType :=
  if st_mode &&& S_IFMT = S_IFREG then FileType.FT_REG
  else if st_mode &&& S_IFMT = S_IFDIR then FileType.FT_DIR
  else if st_mode &&& S_IFMT = S_IFLNK then FileType.FT_SYMLINK
  else FileType.FT_UNKNOWN

/-- The member function `FileID::LazyLoadStatInfo`: the object afterwards (every member it
writes is `mutable`); `none` when `GetPath` dereferences a null `m_at_dir`. -/
def FileID.LazyLoadStatInfo (hdr : FileIDHeader) (fs : FileSystem) (f : FileID) :
    Option FileID :=
  if hdr.IsStatInfoValid f = true then some f
  else
    match FileID.GetPath hdr f with
    | none => none
    | some (path, f1) =>
      match fs.stat (c_str path) with
      | none => some (f1.withMembers { f1.members with m_file_type := FileType.FT_STAT_FAILED })
      | some stat_buf =>
        some (f1.withMembers { f1.members with
          m_stat_info_valid := true,
          m_file_type := fileTypeOfMode stat_buf.st_mode,
          m_dev := stat_buf.st_dev,
          m_unique_file_identifier := dev_ino_pair stat_buf.st_dev stat_buf.st_ino,
          m_size := stat_buf.st_size,
          m_block_size := stat_buf.st_blksize,
          m_blocks := stat_buf.st_blocks })

/-- The member function `FileID::GetFileType`: the type returned and the object
afterwards. -/
def FileID.GetFileType (hdr : FileIDHeader) (fs : FileSystem) (f : FileID) :
    Option (FileType × FileID) :=
  if f.members.m_file_type = FileType.FT_UNINITIALIZED then
    match FileID.LazyLoadStatInfo hdr fs f with
    | none => none
    | some f1 => some (f1.members.m_file_type, f1)
  else some (f.members.m_file_type, f)

/-- The member function `FileID::SetDevIno`. -/
def FileID.SetDevIno (f : FileID) (d i : Nat) : FileID :=
  f.withMembers { f.members with m_dev := d, m_unique_file_identifier := dev_ino_pair d i }

/-- The member function `FileID::GetFileDescriptor`: the descriptor returned, or `none`
when `std::runtime_error("Bad fd")` is thrown, and the object afterwards; `none` when a
null `m_at_dir` is dereferenced. -/
def FileID.GetFileDescriptor (hdr : FileIDHeader) (fs : FileSystem) :
    FileID → Option (Option Int × FileID)
  | .noAtDir m =>
    if m.m_file_descriptor = hdr.cm_invalid_file_descriptor then
      if m.m_basename = [] ∧ m.m_path ≠ [] then
        let fd := fs.openat AT_FDCWD (c_str m.m_path)
        some (if fd < 0 then none else some fd, .noAtDir { m with m_file_descriptor := fd })
      else none
    else some (some m.m_file_descriptor, .noAtDir m)
  | .atDir m at_dir =>
    if m.m_file_descriptor = hdr.cm_invalid_file_descriptor then
      if m.m_basename = [] ∧ m.m_path ≠ [] then
        let fd := fs.openat AT_FDCWD (c_str m.m_path)
        some (if fd < 0 then none else some fd,
          .atDir { m with m_file_descriptor := fd } at_dir)
      else
        match FileID.GetFileDescriptor hdr fs at_dir with
        | none => none
        | some (none, at_dir1) => some (none, .atDir m at_dir1)
        | some (some at_fd, at_dir1) =>
          let fd := fs.openat at_fd (c_str (hdr.GetBasename (.atDir m at_dir1)))
          some (if fd < 0 then none else some fd,
            .atDir { m with m_file_descriptor := fd } at_dir1)
    else some (some m.m_file_descriptor, .atDir m at_dir)

/-- The member functions of `FileID` that `FileID.cpp` defines, with their arguments. -/
inductive FileIDOp where
  | GetPath
  | UnsyncedGetPath
  | GetAtDirCRef
  | GetAtDirRelativeBasename
  | GetFileType
  | SetDevIno (d i : Nat)
  | LazyLoadStatInfo
  | GetFileDescriptor
  deriving DecidableEq, Repr

/-- The object after a call of a member function, whether the call returns or throws;
`none` when a null `m_at_dir` is dereferenced. `GetAtDirCRef` and
`GetAtDirRelativeBasename` write no member. -/
def FileID.call (hdr : FileIDHeader) (fs : FileSystem) (f : FileID) : FileIDOp → Option FileID
  | .GetPath => (FileID.GetPath hdr f).map Prod.snd
  | .UnsyncedGetPath => (FileID.UnsyncedGetPath hdr f).map Prod.snd
  | .GetAtDirCRef => some f
  | .GetAtDirRelativeBasename => some f
  | .GetFileType => (FileID.GetFileType hdr fs f).map Prod.snd
  | .SetDevIno d i => some (FileID.SetDevIno f d i)
  | .LazyLoadStatInfo => FileID.LazyLoadStatInfo hdr fs f
  | .GetFileDescriptor => (FileID.GetFileDescriptor hdr fs f).map Prod.snd

/-- A header for examples: every member starts empty or zero, the type uninitialised, the
descriptor invalid (-1); `IsAtFDCWD` compares the descriptor with `AT_FDCWD`,
`IsStatInfoValid` returns `m_stat_info_valid` and `GetBasename` returns `m_basename`. -/
def demoHeader : FileIDHeader where
  init :=
    { m_basename := [], m_path := [], m_file_descriptor := -1,
      m_file_type := FileType.FT_UNINITIALIZED, m_stat_info_valid := false, m_dev := 0,
      m_unique_file_identifier := 0, m_size := 0, m_block_size := 0, m_blocks := 0 }
  cm_invalid_file_descriptor := -1
  IsAtFDCWD := fun f => decide (f.members.m_file_descriptor = AT_FDCWD)
  IsStatInfoValid := fun f => f.members.m_stat_info_valid
  GetBasename := fun f => f.members.m_basename

/-- A file system for examples: `stat` knows `src` as a directory and `src/a.c` as a
regular file of 12 bytes; `openat` returns the descriptor 3. -/
def demoFileSystem : FileSystem where
  stat := fun path =>
    if path = "src".toList then
      some { st_mode := 0o040755, st_dev := 1, st_ino := 10, st_size := 4096,
             st_blksize := 4096, st_blocks := 8 }
    else if path = "src/a.c".toList then
      some { st_mode := 0o100644, st_dev := 1, st_ino := 11, st_size := 12,
             st_blksize := 4096, st_blocks := 8 }
    else none
  openat := fun _ _ => 3

/-- The directory `src`, constructed relative to the current directory. -/
def demoDir : FileID :=
  FileID.relative demoHeader (some (FileID.cwd demoHeader)) "src".toList FileType.FT_DIR

/-- The file `a.c`, constructed relative to the directory `src`. -/
def demoFile : FileID :=
  FileID.relative demoHeader (some demoDir) "a.c".toList FileType.FT_UNINITIALIZED

/-- The file `a.c` relative to `src` with its stat info loaded: a regular file of 12
bytes, device 1, inode 11. -/
def demoFileLoaded : FileID :=
  FileID.atDir
    { m_basename := "a.c".toList, m_path := "src/a.c".toList, m_file_descriptor := -1,
      m_file_type := FileType.FT_REG, m_stat_info_valid := true, m_dev := 1,
      m_unique_file_identifier := dev_ino_pair 1 11, m_size := 12, m_block_size := 4096,
      m_blocks := 8 }
    demoDir

/-! # Part II: the properties -/

/-! ## Properties of the scan loop -/

/-- A property of the state that every pass through the loop body preserves (for passes
entered with the loop condition true) holds of the state the loop ends in, whatever the
step budget. -/
theorem ScanFile_loop_preserves (pcre2_match : Engine) (file_data : List Nat)
    (file_size : Nat) (P : ScanState → Prop)
    (hbody : ∀ st, P st → st.start_offset < file_size →
      P (ScanFile_body pcre2_match file_data file_size st).state) :
    ∀ (fuel : Nat) (st : ScanState), P st →
      P (ScanFile_loop pcre2_match file_data file_size fuel st).2 := by
  intro fuel
  induction fuel with
  | zero => intro st h; simpa [ScanFile_loop] using h
  | succ n ih =>
    intro st h
    unfold ScanFile_loop
    by_cases hlt : st.start_offset < file_size
    · have hb := hbody st h hlt
      rw [if_pos hlt]
      cases hc : ScanFile_body pcre2_match file_data file_size st with
      | next st1 => rw [hc] at hb; exact ih st1 hb
      | leave st1 => rw [hc] at hb; exact hb
      | throw rc st1 => rw [hc] at hb; exact hb
    · rw [if_neg hlt]; exact h

theorem ScanFile_body_ascending (pcre2_match : Engine) (file_data : List Nat)
    (file_size : Nat) (st : ScanState) (h : AscendingInv st) :
    AscendingInv (ScanFile_body pcre2_match file_data file_size st).state := by
  obtain ⟨hp, hle, hpl⟩ := h
  unfold ScanFile_body
  simp only
  split_ifs with h1 h2 h3 h4 h5 h6
  all_goals simp only [LoopCtl.state]
  all_goals first
    | exact ⟨hp, hle, hpl⟩
    | skip
  · refine ⟨hp, hle, ?_⟩
    simp only
    omega
  · refine ⟨?_, ?_, le_refl _⟩
    · simp only
      rw [List.pairwise_append]
      refine ⟨hp, List.pairwise_singleton _ _, ?_⟩
      intro a ha b hb
      simp only [List.mem_singleton] at hb
      subst hb
      have := hle a ha
      simp only at h6 ⊢
      omega
    · intro m hm
      simp only [List.mem_append, List.mem_singleton] at hm
      rcases hm with hm | hm
      · have := hle m hm
        simp only
        omega
      · subst hm
        simp

theorem memchr_eq_none_iff (s : List Nat) (c : Nat) :
    ∀ (n p : Nat), memchr s p c n = none ↔ ∀ i, p ≤ i → i < p + n → s[i]? ≠ some c := by
  intro n
  induction n with
  | zero =>
    intro p
    simp only [memchr, true_iff]
    intro i h1 h2
    omega
  | succ k ih =>
    intro p
    unfold memchr
    by_cases hp : s[p]? = some c
    · rw [if_pos hp]
      simp only [false_iff, reduceCtorEq]
      intro h
      exact h p (le_refl _) (by omega) hp
    · rw [if_neg hp, ih (p + 1)]
      constructor
      · intro h i h1 h2
        rcases Nat.eq_or_lt_of_le h1 with heq | hlt
        · subst heq; exact hp
        · exact h i hlt (by omega)
      · intro h i h1 h2
        exact h i (by omega) (by omega)

theorem callout_handler_eq_zero_iff (subject : List Nat) (s c : Nat) (hsc : s ≤ c) :
    callout_handler subject s c = 0 ↔ ∀ i, s ≤ i → i < c → subject[i]? ≠ some NL := by
  unfold callout_handler
  have key := memchr_eq_none_iff subject NL (c - s) s
  have hcs : s + (c - s) = c := by omega
  rw [hcs] at key
  cases hm : memchr subject s NL (c - s) with
  | none =>
    simp only [true_iff]
    exact key.mp hm
  | some v =>
    simp only [one_ne_zero, false_iff]
    intro h
    have := key.mpr h
    rw [hm] at this
    cases this

theorem ScanFile_body_noNewline (pcre2_match : Engine) (file_data : List Nat)
    (file_size : Nat)
    (hcallout : ∀ start options, 0 < (pcre2_match start options).1 →
      (pcre2_match start options).2.1 ≤ (pcre2_match start options).2.2 ∧
      callout_handler file_data (pcre2_match start options).2.1
        (pcre2_match start options).2.2 = 0)
    (st : ScanState) (h : NoNewlineInv file_data st) :
    NoNewlineInv file_data (ScanFile_body pcre2_match file_data file_size st).state := by
  unfold ScanFile_body
  simp only
  split_ifs with h1 h2 h3 h4 h5 h6
  all_goals simp only [LoopCtl.state]
  all_goals first
    | exact h
    | skip
  intro m hm
  simp only [List.mem_append, List.mem_singleton] at hm
  rcases hm with hm | hm
  · exact h m hm
  · subst hm
    simp only
    have hpos : 0 < (pcre2_match st.ov1 (ScanFile_options st.ov0 st.ov1)).1 := by
      omega
    obtain ⟨hle, hz⟩ := hcallout _ _ hpos
    exact (callout_handler_eq_zero_iff file_data _ _ hle).mp hz

theorem count_take_split (l : List Nat) (a b : Nat) (hab : a ≤ b) :
    (l.take b).count NL = (l.take a).count NL + ((l.take b).drop a).count NL := by
  have h1 : (l.take b).take a ++ (l.take b).drop a = l.take b := List.take_append_drop a _
  have h2 : (l.take b).take a = l.take a := by
    rw [List.take_take, Nat.min_eq_left hab]
  rw [← List.count_append, ← h2, h1]

theorem ScanFile_body_line (pcre2_match : Engine) (file_data : List Nat)
    (file_size : Nat)
    (hengine : ∀ start options, 0 < (pcre2_match start options).1 →
      start ≤ (pcre2_match start options).2.1 ∧
      (pcre2_match start options).2.1 ≤ (pcre2_match start options).2.2)
    (st : ScanState) (h : LineInv file_data st) :
    LineInv file_data (ScanFile_body pcre2_match file_data file_size st).state := by
  obtain ⟨hl, hle, hml⟩ := h
  unfold ScanFile_body
  simp only
  split_ifs with h1 h2 h3 h4 h5 h6
  all_goals simp only [LoopCtl.state]
  all_goals first
    | exact ⟨hl, hle, hml⟩
    | skip
  · exact ⟨hl, by simp only; omega, hml⟩
  all_goals
    have hpos : 0 < (pcre2_match st.ov1 (ScanFile_options st.ov0 st.ov1)).1 := by
      omega
    obtain ⟨hs, he⟩ := hengine _ _ hpos
    have hline : st.line_no + CountLinesSinceLastMatch file_data st.prev_lineno_search_end
        (pcre2_match st.ov1 (ScanFile_options st.ov0 st.ov1)).2.1 =
        lineOf file_data
          (pcre2_match st.ov1 (ScanFile_options st.ov0 st.ov1)).2.1 := by
      unfold CountLinesSinceLastMatch
      rw [hl]
      unfold lineOf
      rw [count_take_split file_data st.prev_lineno_search_end _ (le_trans hle hs)]
      omega
  · exact ⟨hline, he, hml⟩
  · refine ⟨hline, he, ?_⟩
    intro m hm
    simp only [List.mem_append, List.mem_singleton] at hm
    rcases hm with hm | hm
    · exact hml m hm
    · subst hm
      exact hline

theorem ScanFile_options_eq_zero_iff (ov0 ov1 : Nat) :
    ScanFile_options ov0 ov1 = 0 ↔ ov0 ≠ ov1 := by
  unfold ScanFile_options
  by_cases h : ov0 = ov1
  · rw [if_pos h]
    have : (PCRE2_NOTEMPTY_ATSTART ||| PCRE2_ANCHORED) ≠ 0 := by decide
    simp [h, this]
  · rw [if_neg h]
    simp [h]

theorem scanMeasure_after_match (file_size : Nat) (st st1 : ScanState)
    (h1 : st.ov1 ≤ st1.ov0) (h2 : st1.ov0 ≤ st1.ov1) (h3 : st1.ov1 ≤ file_size)
    (h4 : st.ov0 = st.ov1 → st.ov1 < st1.ov1) :
    scanMeasure file_size st1 < scanMeasure file_size st := by
  unfold scanMeasure
  by_cases ha : st.ov0 = st.ov1
  · have := h4 ha
    rw [if_pos ha]
    split <;> omega
  · rw [if_neg ha]
    split <;> omega

theorem acceptAt_some {cands : Nat → List Nat} {subject : List Nat} {ne : Bool} {s e : Nat}
    (h : acceptAt cands subject ne s = some e) :
    e ∈ cands s ∧ s ≤ e ∧ e ≤ subject.length ∧ callout_handler subject s e = 0 ∧
      (ne = true → s < e) := by
  unfold acceptAt at h
  have h1 := List.mem_of_find?_eq_some h
  have h2 := List.find?_some h
  exact ⟨h1, of_decide_eq_true h2⟩

theorem acceptAt_none {cands : Nat → List Nat} {subject : List Nat} {s e : Nat}
    (h : acceptAt cands subject false s = none)
    (hw : WrappedMatch subject (fun s e => e ∈ cands s) s e) : False := by
  unfold acceptAt at h
  rw [List.find?_eq_none] at h
  have := h e hw.1
  simp only [decide_eq_true_eq] at this
  exact this ⟨hw.2.1, hw.2.2.1, hw.2.2.2, by simp⟩

theorem searchFrom_some {cands : Nat → List Nat} {subject : List Nat} :
    ∀ (n start s e : Nat), searchFrom cands subject start n = some (s, e) →
      acceptAt cands subject false s = some e ∧ start ≤ s ∧
      ∀ s1 e1, WrappedMatch subject (fun s e => e ∈ cands s) s1 e1 → start ≤ s1 → s ≤ s1 := by
  intro n
  induction n with
  | zero => intro start s e h; simp [searchFrom] at h
  | succ k ih =>
    intro start s e h
    unfold searchFrom at h
    cases ha : acceptAt cands subject false start with
    | some e0 =>
      rw [ha] at h
      simp only [Option.some.injEq, Prod.mk.injEq] at h
      obtain ⟨rfl, rfl⟩ := h
      exact ⟨ha, le_refl _, fun s1 _ _ h1 => h1⟩
    | none =>
      rw [ha] at h
      obtain ⟨h1, h2, h3⟩ := ih (start + 1) s e h
      refine ⟨h1, by omega, ?_⟩
      intro s1 e1 hw hs1
      rcases Nat.eq_or_lt_of_le hs1 with heq | hlt
      · subst heq
        exact (acceptAt_none ha hw).elim
      · exact h3 s1 e1 hw hlt

/-- What the reference engine returns with a positive code is an accepted tentative match
at or after the start offset. -/
theorem referenceEngine_found (cands : Nat → List Nat) (subject : List Nat)
    (start options : Nat) (h : 0 < (referenceEngine cands subject start options).1) :
    WrappedMatch subject (fun s e => e ∈ cands s)
      (referenceEngine cands subject start options).2.1
      (referenceEngine cands subject start options).2.2 ∧
    start ≤ (referenceEngine cands subject start options).2.1 := by
  unfold referenceEngine at h ⊢
  by_cases ho : options = 0
  · simp only [if_pos ho] at h ⊢
    cases hs : searchFrom cands subject start (subject.length + 1 - start) with
    | none => rw [hs] at h; simp [PCRE2_ERROR_NOMATCH] at h
    | some p =>
      obtain ⟨s, e⟩ := p
      simp only
      obtain ⟨h1, h2, -⟩ := searchFrom_some _ _ _ _ hs
      obtain ⟨a, b, c, d, -⟩ := acceptAt_some h1
      exact ⟨⟨a, b, c, d⟩, h2⟩
  · simp only [if_neg ho] at h ⊢
    cases hs : acceptAt cands subject true start with
    | none => rw [hs] at h; simp [PCRE2_ERROR_NOMATCH] at h
    | some e =>
      simp only
      obtain ⟨a, b, c, d, -⟩ := acceptAt_some hs
      exact ⟨⟨a, b, c, d⟩, le_refl _⟩

/-- With options set, a match of the reference engine starts at the start offset and is
not empty. -/
theorem referenceEngine_anchored (cands : Nat → List Nat) (subject : List Nat)
    (start options : Nat) (ho : options ≠ 0)
    (h : 0 < (referenceEngine cands subject start options).1) :
    (referenceEngine cands subject start options).2.1 = start ∧
    start < (referenceEngine cands subject start options).2.2 := by
  unfold referenceEngine at h ⊢
  simp only [if_neg ho] at h ⊢
  cases hs : acceptAt cands subject true start with
  | none => rw [hs] at h; simp [PCRE2_ERROR_NOMATCH] at h
  | some e =>
    simp only
    exact ⟨trivial, (acceptAt_some hs).2.2.2.2 rfl⟩

/-- The callout returns non-zero exactly when a `'\n'` lies in
`[start_match, current_position)`; and for an engine of which every match has passed the
callout at its end offset, no match in the list `ScanFile` fills holds a `'\n'`. -/
theorem ScanFile_no_newline_of_callout (pcre2_match : Engine) (file_data : List Nat)
    (file_size fuel : Nat)
    (hcallout : ∀ start options, 0 < (pcre2_match start options).1 →
      (pcre2_match start options).2.1 ≤ (pcre2_match start options).2.2 ∧
      callout_handler file_data (pcre2_match start options).2.1
        (pcre2_match start options).2.2 = 0) :
    (∀ start_match current_position, start_match ≤ current_position →
      (callout_handler file_data start_match current_position ≠ 0 ↔
        ∃ i, start_match ≤ i ∧ i < current_position ∧ file_data[i]? = some NL)) ∧
    ∀ m ∈ (ScanFile pcre2_match file_data file_size fuel).2,
      ∀ i, m.start ≤ i → i < m.stop → file_data[i]? ≠ some NL := by
  constructor
  · intro s c hsc
    rw [Ne, callout_handler_eq_zero_iff file_data s c hsc]
    constructor
    · intro h
      by_contra hex
      apply h
      intro i h1 h2 h3
      exact hex ⟨i, h1, h2, h3⟩
    · rintro ⟨i, h1, h2, h3⟩ h
      exact h i h1 h2 h3
  · exact ScanFile_loop_preserves pcre2_match file_data file_size (NoNewlineInv file_data)
      (fun st h _ => ScanFile_body_noNewline pcre2_match file_data file_size hcallout st h)
      fuel ScanFile_init (fun m hm => by cases hm)

/-- C1 on the pattern `\s+return` and the buffer `int f() {\n    return 0;\n}\n`: the
compiled pattern is `(?:\s+return)(?=.*?$)(?C1)`; it has the match from 10 to 20, which
the callout accepts and which lies within line 2; the JIT-compiled engine returns no match
from the start offset 0, so `ScanFile` leaves its loop at once and records nothing; with an
engine that returns the leftmost accepted match it records the match on line 2. -/
theorem ScanFile_jit_engine_misses_line :
    FileScannerPCRE2_regex "\\s+return".toList false false =
      "(?:\\s+return)(?=.*?$)(?C1)".toList ∧
    callout_handler bufReturn 9 20 = 1 ∧
    callout_handler bufReturn 10 20 = 0 ∧
    MatchWithinLine bufReturn (fun s e => e ∈ candsReturn s) 2 ∧
    (∀ fuel, ScanFile jitEngine bufReturn 26 (fuel + 1) = (ScanStatus.returned, [])) ∧
    ¬ LinesAgree bufReturn (fun s e => e ∈ candsReturn s)
      (ScanFile jitEngine bufReturn 26 54).2 ∧
    ScanFile (referenceEngine candsReturn bufReturn) bufReturn 26 54 =
      (ScanStatus.returned, [{ start := 10, stop := 20, line_no := 2 }]) := by
  have hw : MatchWithinLine bufReturn (fun s e => e ∈ candsReturn s) 2 :=
    ⟨10, 20, ⟨by decide, by decide, by decide, by decide⟩, by decide,
      (callout_handler_eq_zero_iff bufReturn 10 20 (by decide)).mp (by decide)⟩
  refine ⟨by decide, by decide, by decide, hw, fun fuel => rfl, ?_, by decide⟩
  intro h
  obtain ⟨m, hm, -⟩ := (h 2).mpr hw
  have hml : (ScanFile jitEngine bufReturn 26 54).2 = [] := by decide
  rw [hml] at hm
  cases hm

/-- C2 on the pattern `a\sb)|(?:zzz` and the buffer `a\nb`: the compiled pattern is
`(?:a\sb)|(?:zzz)(?=.*?$)(?C1)`, whose callout belongs to the second alternative only; the
engine returns the match of the first alternative from 0 to 3, and `ScanFile` records it
although the byte at offset 1 is a `'\n'`, which the callout would have refused. -/
theorem ScanFile_match_spans_newline :
    FileScannerPCRE2_regex "a\\sb)|(?:zzz".toList false false =
      "(?:a\\sb)|(?:zzz)(?=.*?$)(?C1)".toList ∧
    ScanFile alternativeEngine bufANB 3 4 =
      (ScanStatus.returned, [{ start := 0, stop := 3, line_no := 1 }]) ∧
    bufANB[1]? = some NL ∧
    callout_handler bufANB 0 3 = 1 ∧
    ¬ (∀ m ∈ (ScanFile alternativeEngine bufANB 3 4).2,
        ∀ i, m.start ≤ i → i < m.stop → bufANB[i]? ≠ some NL) := by
  refine ⟨by decide, by decide, by decide, by decide, ?_⟩
  intro h
  have := h { start := 0, stop := 3, line_no := 1 } (by decide) 1 (by decide) (by decide)
  revert this
  decide

/-- C3: for every buffer and every engine whose matches start at or after the requested
start offset, the matches `ScanFile` adds to the list have strictly increasing line
numbers (so no two share a line), however long the loop has run. -/
theorem ScanFile_lines_strictly_increasing (pcre2_match : Engine) (file_data : List Nat)
    (file_size fuel : Nat)
    (hstart : ∀ start options, 0 < (pcre2_match start options).1 →
      start ≤ (pcre2_match start options).2.1) :
    List.Pairwise (fun a b : Match => a.line_no < b.line_no)
      (ScanFile pcre2_match file_data file_size fuel).2 ∧
    ((ScanFile pcre2_match file_data file_size fuel).2.map Match.line_no).Nodup := by
  have _ := hstart
  have h := ScanFile_loop_preserves pcre2_match file_data file_size AscendingInv
    (fun st h _ => ScanFile_body_ascending pcre2_match file_data file_size st h)
    fuel ScanFile_init
    (And.intro List.Pairwise.nil (And.intro (fun m hm => by cases hm) (by decide)))
  refine ⟨h.1, ?_⟩
  unfold List.Nodup
  rw [List.pairwise_map]
  exact h.1.imp (fun hab => Nat.ne_of_lt hab)

theorem ScanFile_lines_strictly_increasing_witness :
    (∀ start options, 0 < (referenceEngine (candsB bufB) bufB start options).1 →
      start ≤ (referenceEngine (candsB bufB) bufB start options).2.1) ∧
    (ScanFile (referenceEngine (candsB bufB) bufB) bufB 6 14).2 =
      [{ start := 0, stop := 1, line_no := 1 }, { start := 4, stop := 5, line_no := 2 }] ∧
    List.Pairwise (fun a b : Match => a.line_no < b.line_no)
      (ScanFile (referenceEngine (candsB bufB) bufB) bufB 6 14).2 :=
  ⟨fun start options h => (referenceEngine_found (candsB bufB) bufB start options h).2,
    by decide,
    (ScanFile_lines_strictly_increasing (referenceEngine (candsB bufB) bufB) bufB 6 14
      (fun start options h =>
        (referenceEngine_found (candsB bufB) bufB start options h).2)).1⟩

/-- C4: for every buffer and every engine whose matches lie at or after the requested
start offset (`start_offset ≤ ovector[0] ≤ ovector[1]`), each match `ScanFile` adds to the
list carries as line number 1 plus the number of `'\n'` bytes before its start offset,
also after matches on the same line were skipped. -/
theorem ScanFile_line_number_counts_newlines (pcre2_match : Engine) (file_data : List Nat)
    (file_size fuel : Nat)
    (hengine : ∀ start options, 0 < (pcre2_match start options).1 →
      start ≤ (pcre2_match start options).2.1 ∧
      (pcre2_match start options).2.1 ≤ (pcre2_match start options).2.2) :
    ∀ m ∈ (ScanFile pcre2_match file_data file_size fuel).2,
      m.line_no = 1 + (file_data.take m.start).count NL := by
  have h := ScanFile_loop_preserves pcre2_match file_data file_size (LineInv file_data)
    (fun st h _ => ScanFile_body_line pcre2_match file_data file_size hengine st h)
    fuel ScanFile_init
    (And.intro (by simp [ScanFile_init, lineOf]) (And.intro (le_refl _) (fun m hm => by cases hm)))
  exact h.2.2

theorem ScanFile_line_number_counts_newlines_witness :
    (∀ start options, 0 < (referenceEngine (candsB bufB) bufB start options).1 →
      start ≤ (referenceEngine (candsB bufB) bufB start options).2.1 ∧
      (referenceEngine (candsB bufB) bufB start options).2.1 ≤
        (referenceEngine (candsB bufB) bufB start options).2.2) ∧
    (referenceEngine (candsB bufB) bufB 1 0) = (1, 1, 2) ∧
    (ScanFile (referenceEngine (candsB bufB) bufB) bufB 6 14) =
      (ScanStatus.returned,
        [{ start := 0, stop := 1, line_no := 1 }, { start := 4, stop := 5, line_no := 2 }]) ∧
    ∀ m ∈ (ScanFile (referenceEngine (candsB bufB) bufB) bufB 6 14).2,
      m.line_no = 1 + (bufB.take m.start).count NL :=
  ⟨fun start options h =>
      ⟨(referenceEngine_found (candsB bufB) bufB start options h).2,
        (referenceEngine_found (candsB bufB) bufB start options h).1.2.1⟩,
    by decide, by decide,
    ScanFile_line_number_counts_newlines (referenceEngine (candsB bufB) bufB) bufB 6 14
      (fun start options h =>
        ⟨(referenceEngine_found (candsB bufB) bufB start options h).2,
          (referenceEngine_found (candsB bufB) bufB start options h).1.2.1⟩)⟩

/-! ## Properties of the queue -/

theorem wait_pull_finish_fifo {α : Type} (q : sync_queue α) :
    q.wait_pull_finish.1.values ++ q.wait_pull_finish.2.m_underlying_queue =
      q.m_underlying_queue := by
  unfold sync_queue.wait_pull_finish
  simp only
  cases hq : q.m_underlying_queue with
  | nil =>
    cases hc : q.m_closed <;> simp [PullOutcome.values]
  | cons x rest =>
    simp [PullOutcome.values]

theorem wait_pull_enter_queue {α : Type} (q : sync_queue α) :
    q.wait_pull_enter.m_underlying_queue = q.m_underlying_queue ∧
    q.wait_pull_enter.m_closed = q.m_closed ∧
    q.wait_pull_enter.m_cv = q.m_cv ∧
    q.wait_pull_enter.m_num_waiting_threads = q.m_num_waiting_threads + 1 := by
  unfold sync_queue.wait_pull_enter
  simp only
  split <;> simp

theorem wait_pull_fifo {α : Type} (q : sync_queue α) (tid : Nat) :
    (q.wait_pull tid).1.values ++ (q.wait_pull tid).2.m_underlying_queue =
      q.m_underlying_queue := by
  unfold sync_queue.wait_pull
  simp only
  split
  · rw [wait_pull_finish_fifo, (wait_pull_enter_queue q).1]
  · simp [PullOutcome.values, (wait_pull_enter_queue q).1]

theorem wait_pull_move_eq {α : Type} (q : sync_queue α) (tid : Nat) :
    q.wait_pull_move tid = q.wait_pull tid := rfl

theorem wait_push_move_eq {α : Type} (q : sync_queue α) (x : α) :
    q.wait_push_move x = q.wait_push x := rfl

theorem wait_pull_wakeup_fifo {α : Type} (q : sync_queue α) (tid : Nat) :
    (q.wait_pull_wakeup tid).1.values ++ (q.wait_pull_wakeup tid).2.m_underlying_queue =
      q.m_underlying_queue := by
  unfold sync_queue.wait_pull_wakeup
  split
  · split
    · rw [wait_pull_finish_fifo]
    · simp [PullOutcome.values]
  · simp [PullOutcome.values]

theorem step_fifo {α : Type} (q : sync_queue α) (c : QueueCall α) :
    (q.step c).2.pulled ++ (q.step c).1.m_underlying_queue =
      q.m_underlying_queue ++ (q.step c).2.pushed := by
  cases c with
  | close => simp [sync_queue.step, sync_queue.close]
  | wait_push x =>
    simp only [sync_queue.step, sync_queue.wait_push]
    by_cases h : q.m_closed = true <;> simp [h]
  | wait_push_move x =>
    simp only [sync_queue.step, sync_queue.wait_push_move]
    by_cases h : q.m_closed = true <;> simp [h]
  | wait_pull tid =>
    simp only [sync_queue.step, List.append_nil]
    exact wait_pull_fifo q tid
  | wait_pull_move tid =>
    simp only [sync_queue.step, List.append_nil, wait_pull_move_eq]
    exact wait_pull_fifo q tid
  | wait_pull_wakeup tid =>
    simp only [sync_queue.step, List.append_nil]
    exact wait_pull_wakeup_fifo q tid
  | wait_for_worker_completion tid n =>
    simp only [sync_queue.step, sync_queue.wait_for_worker_completion]
    split <;> simp
  | wait_for_worker_completion_wakeup tid n =>
    simp only [sync_queue.step, sync_queue.wait_for_worker_completion_wakeup]
    split
    · split <;> simp
    · simp

theorem run_fifo {α : Type} (calls : List (QueueCall α)) :
    ∀ q : sync_queue α, (q.run calls).2.pulled ++ (q.run calls).1.m_underlying_queue =
      q.m_underlying_queue ++ (q.run calls).2.pushed := by
  induction calls with
  | nil => intro q; simp [sync_queue.run]
  | cons c cs ih =>
    intro q
    simp only [sync_queue.run]
    rw [List.append_assoc, ih, ← List.append_assoc, step_fifo, List.append_assoc]

theorem wait_pull_finish_success {α : Type} (q : sync_queue α) (v : Option α)
    (q1 : sync_queue α) (hp : q.wait_pull_pred = true)
    (h : q.wait_pull_finish = (PullOutcome.returned queue_op_status.success v, q1)) :
    ∃ x, v = some x ∧ q.m_underlying_queue = x :: q1.m_underlying_queue := by
  unfold sync_queue.wait_pull_finish at h
  unfold sync_queue.wait_pull_pred at hp
  simp only at h
  cases hq : q.m_underlying_queue with
  | nil =>
    rw [hq] at h hp
    simp at hp
    simp [hp] at h
  | cons x rest =>
    rw [hq] at h
    simp at h
    obtain ⟨rfl, rfl⟩ := h
    exact ⟨x, rfl, by simp⟩

theorem wait_pull_finish_closed {α : Type} (q : sync_queue α) (v : Option α)
    (q1 : sync_queue α)
    (h : q.wait_pull_finish = (PullOutcome.returned queue_op_status.closed v, q1)) :
    q.m_closed = true ∧ q.m_underlying_queue = [] := by
  unfold sync_queue.wait_pull_finish at h
  simp only at h
  split at h
  · rename_i hc
    simp only [Bool.and_eq_true, List.isEmpty_iff] at hc
    exact ⟨hc.2, hc.1⟩
  · simp at h

theorem wait_pull_success {α : Type} (q : sync_queue α) (tid : Nat) (v : Option α)
    (q1 : sync_queue α)
    (h : q.wait_pull tid = (PullOutcome.returned queue_op_status.success v, q1)) :
    ∃ x, v = some x ∧ q.m_underlying_queue = x :: q1.m_underlying_queue := by
  unfold sync_queue.wait_pull at h
  simp only at h
  split at h
  · rename_i hp
    rw [← (wait_pull_enter_queue q).1]
    exact wait_pull_finish_success _ v q1 hp h
  · simp at h

theorem wait_pull_wakeup_success {α : Type} (q : sync_queue α) (tid : Nat) (v : Option α)
    (q1 : sync_queue α)
    (h : q.wait_pull_wakeup tid = (PullOutcome.returned queue_op_status.success v, q1)) :
    ∃ x, v = some x ∧ q.m_underlying_queue = x :: q1.m_underlying_queue := by
  unfold sync_queue.wait_pull_wakeup at h
  split at h
  · split at h
    · rename_i hp
      exact wait_pull_finish_success { q with m_cv := unblock q.m_cv tid } v q1 hp h
    · simp at h
  · simp at h

theorem wait_pull_closed {α : Type} (q : sync_queue α) (tid : Nat) (v : Option α)
    (q1 : sync_queue α)
    (h : q.wait_pull tid = (PullOutcome.returned queue_op_status.closed v, q1)) :
    q.m_closed = true ∧ q.m_underlying_queue = [] := by
  unfold sync_queue.wait_pull at h
  simp only at h
  split at h
  · rw [← (wait_pull_enter_queue q).1, ← (wait_pull_enter_queue q).2.1]
    exact wait_pull_finish_closed _ v q1 h
  · simp at h

theorem wait_pull_wakeup_closed {α : Type} (q : sync_queue α) (tid : Nat) (v : Option α)
    (q1 : sync_queue α)
    (h : q.wait_pull_wakeup tid = (PullOutcome.returned queue_op_status.closed v, q1)) :
    q.m_closed = true ∧ q.m_underlying_queue = [] := by
  unfold sync_queue.wait_pull_wakeup at h
  split at h
  · split at h
    · exact wait_pull_finish_closed { q with m_cv := unblock q.m_cv tid } v q1 h
    · simp at h
  · simp at h

/-- C5: the queue is FIFO.  In every run, the values pulled successfully followed by the
items still stored are the items stored at the start followed by the values pushed
successfully, so the pulled values come out in the order they went in; and every
successful `wait_pull` (either overload, also after having blocked) returns the oldest
stored item and removes it. -/
theorem sync_queue_fifo {α : Type} (q : sync_queue α) (calls : List (QueueCall α)) :
    (q.run calls).2.pulled ++ (q.run calls).1.m_underlying_queue =
      q.m_underlying_queue ++ (q.run calls).2.pushed ∧
    (q.run calls).2.pulled <+: q.m_underlying_queue ++ (q.run calls).2.pushed ∧
    ∀ (tid : Nat) (v : Option α) (q1 : sync_queue α),
      (q.wait_pull tid = (PullOutcome.returned queue_op_status.success v, q1) ∨
       q.wait_pull_move tid = (PullOutcome.returned queue_op_status.success v, q1) ∨
       q.wait_pull_wakeup tid = (PullOutcome.returned queue_op_status.success v, q1)) →
      ∃ x, v = some x ∧ q.m_underlying_queue = x :: q1.m_underlying_queue := by
  refine ⟨run_fifo calls q, ⟨_, run_fifo calls q⟩, ?_⟩
  intro tid v q1 h
  rcases h with h | h | h
  · exact wait_pull_success q tid v q1 h
  · exact wait_pull_success q tid v q1 h
  · exact wait_pull_wakeup_success q tid v q1 h

/-- C6: `wait_push` (either overload) returns `closed` exactly when the queue was closed
at the call, and then leaves the queue as it was; otherwise it returns `success`, the
stored items are the old ones with `x` appended at the back, and the queue stays open. -/
theorem sync_queue_wait_push {α : Type} (q : sync_queue α) (x : α) :
    (((q.wait_push x).1 = queue_op_status.closed ↔ q.m_closed = true) ∧
     (q.m_closed = true → (q.wait_push x).2 = q) ∧
     (q.m_closed = false → (q.wait_push x).1 = queue_op_status.success ∧
        (q.wait_push x).2.m_underlying_queue = q.m_underlying_queue ++ [x] ∧
        (q.wait_push x).2.m_closed = false)) ∧
    (((q.wait_push_move x).1 = queue_op_status.closed ↔ q.m_closed = true) ∧
     (q.m_closed = true → (q.wait_push_move x).2 = q) ∧
     (q.m_closed = false → (q.wait_push_move x).1 = queue_op_status.success ∧
        (q.wait_push_move x).2.m_underlying_queue = q.m_underlying_queue ++ [x] ∧
        (q.wait_push_move x).2.m_closed = false)) := by
  rw [wait_push_move_eq]
  have key : ((q.wait_push x).1 = queue_op_status.closed ↔ q.m_closed = true) ∧
     (q.m_closed = true → (q.wait_push x).2 = q) ∧
     (q.m_closed = false → (q.wait_push x).1 = queue_op_status.success ∧
        (q.wait_push x).2.m_underlying_queue = q.m_underlying_queue ++ [x] ∧
        (q.wait_push x).2.m_closed = false) := by
    unfold sync_queue.wait_push
    by_cases h : q.m_closed = true
    · simp [h]
    · simp [h]
  exact ⟨key, key⟩

theorem wait_pull_of_closed {α : Type} (q : sync_queue α) (tid : Nat)
    (hc : q.m_closed = true) :
    (q.wait_pull tid).2.m_closed = true ∧
    (q.wait_pull tid).2.m_underlying_queue = q.m_underlying_queue.tail ∧
    (q.wait_pull tid).1 = (match q.m_underlying_queue with
      | [] => PullOutcome.returned queue_op_status.closed none
      | x :: _ => PullOutcome.returned queue_op_status.success (some x)) := by
  obtain ⟨h1, h2, -, -⟩ := wait_pull_enter_queue q
  unfold sync_queue.wait_pull
  simp only
  have hp : q.wait_pull_enter.wait_pull_pred = true := by
    unfold sync_queue.wait_pull_pred
    rw [h2, hc]
    simp
  rw [if_pos hp]
  unfold sync_queue.wait_pull_finish
  simp only
  rw [h1, h2, hc]
  cases q.m_underlying_queue with
  | nil => simp [h2, hc]
  | cons x rest => simp [h2, hc]

theorem pulls_of_closed {α : Type} (tids : List Nat) :
    ∀ q : sync_queue α, q.m_closed = true →
      q.pulls tids =
        (q.m_underlying_queue.take tids.length).map
          (fun x => PullOutcome.returned queue_op_status.success (some x)) ++
        List.replicate (tids.length - q.m_underlying_queue.length)
          (PullOutcome.returned queue_op_status.closed none) := by
  induction tids with
  | nil => intro q _; simp [sync_queue.pulls]
  | cons tid tids ih =>
    intro q hc
    obtain ⟨h1, h2, h3⟩ := wait_pull_of_closed q tid hc
    unfold sync_queue.pulls
    rw [ih _ h1, h2, h3]
    cases q.m_underlying_queue with
    | nil => simp [List.replicate_succ]
    | cons x rest => simp

theorem notify_all_idem (cv : List Waiter) : notify_all (notify_all cv) = notify_all cv := by
  unfold notify_all
  rw [List.map_map]
  rfl

/-- C7: after `close()` on a queue holding `k` items, consecutive `wait_pull` calls return
`success` with those items in order for the first `k` calls and `closed` for every later
one; a `wait_pull` returns `closed` only on a closed and empty queue; and closing twice
leaves the same state as closing once. -/
theorem sync_queue_close_then_drain {α : Type} (q : sync_queue α) (tids : List Nat) :
    q.close.pulls tids =
      (q.m_underlying_queue.take tids.length).map
        (fun x => PullOutcome.returned queue_op_status.success (some x)) ++
      List.replicate (tids.length - q.m_underlying_queue.length)
        (PullOutcome.returned queue_op_status.closed none) ∧
    (∀ (tid : Nat) (v : Option α) (q1 : sync_queue α),
      (q.wait_pull tid = (PullOutcome.returned queue_op_status.closed v, q1) ∨
       q.wait_pull_move tid = (PullOutcome.returned queue_op_status.closed v, q1) ∨
       q.wait_pull_wakeup tid = (PullOutcome.returned queue_op_status.closed v, q1)) →
      q.m_closed = true ∧ q.m_underlying_queue = []) ∧
    q.close.close = q.close := by
  refine ⟨pulls_of_closed tids q.close rfl, ?_, ?_⟩
  · intro tid v q1 h
    rcases h with h | h | h
    · exact wait_pull_closed q tid v q1 h
    · exact wait_pull_closed q tid v q1 h
    · exact wait_pull_wakeup_closed q tid v q1 h
  · unfold sync_queue.close
    simp [notify_all_idem]

theorem notify_one_length (cv : List Waiter) : (notify_one cv).length = cv.length := by
  induction cv with
  | nil => rfl
  | cons w rest ih =>
    unfold notify_one
    split <;> simp [ih]

theorem wait_pull_finish_counted {α : Type} (q : sync_queue α)
    (h : q.m_num_waiting_threads = q.m_cv.length + 1) :
    WaitingCounted q.wait_pull_finish.2 := by
  unfold sync_queue.wait_pull_finish WaitingCounted
  simp only
  split <;> simp only <;> omega

theorem step_counted {α : Type} (q : sync_queue α) (c : QueueCall α)
    (h : WaitingCounted q) : WaitingCounted (q.step c).1 := by
  unfold WaitingCounted at h
  have hpull : ∀ tid, WaitingCounted (q.wait_pull tid).2 := by
    intro tid
    obtain ⟨-, -, h3, h4⟩ := wait_pull_enter_queue q
    unfold sync_queue.wait_pull
    simp only
    split
    · exact wait_pull_finish_counted _ (by rw [h3, h4, h])
    · unfold WaitingCounted block
      simp only [List.length_append, List.length_singleton]
      rw [h3, h4, h]
  cases c with
  | close => simp [sync_queue.step, sync_queue.close, WaitingCounted, notify_all, h]
  | wait_push x =>
    simp only [sync_queue.step, sync_queue.wait_push]
    by_cases hc : q.m_closed = true <;> simp [hc, WaitingCounted, h, notify_one_length]
  | wait_push_move x =>
    simp only [sync_queue.step, sync_queue.wait_push_move]
    by_cases hc : q.m_closed = true <;> simp [hc, WaitingCounted, h, notify_one_length]
  | wait_pull tid => exact hpull tid
  | wait_pull_move tid => exact hpull tid
  | wait_pull_wakeup tid =>
    simp only [sync_queue.step, sync_queue.wait_pull_wakeup]
    split
    · rename_i hany
      split
      · apply wait_pull_finish_counted
        simp only [unblock]
        rw [List.length_eraseP, if_pos hany, h]
        have : 0 < q.m_cv.length := by
          rw [List.any_eq_true] at hany
          obtain ⟨w, hw, -⟩ := hany
          exact List.length_pos_of_mem hw
        omega
      · simp [WaitingCounted, reblock, h]
    · exact h
  | wait_for_worker_completion tid n =>
    simp only [sync_queue.step, sync_queue.wait_for_worker_completion]
    split <;> exact h
  | wait_for_worker_completion_wakeup tid n =>
    simp only [sync_queue.step, sync_queue.wait_for_worker_completion_wakeup]
    split
    · split <;> exact h
    · exact h

theorem run_counted {α : Type} (calls : List (QueueCall α)) :
    ∀ q : sync_queue α, WaitingCounted q → WaitingCounted (q.run calls).1 := by
  induction calls with
  | nil => intro q h; exact h
  | cons c cs ih =>
    intro q h
    simp only [sync_queue.run]
    exact ih _ (step_counted q c h)

/-- C8: in any state a queue reaches from its construction, a
`wait_for_worker_completion(N)` that returns `success` (at once, or after having blocked)
does so in a state where `m_num_waiting_threads`, the number of threads inside the wait of
`wait_pull`, is exactly `N`, the queue is empty and it is not closed; and when the queue
is closed at the moment the wait ends, the call returns `closed`. -/
theorem wait_for_worker_completion_success {α : Type} (calls : List (QueueCall α))
    (tid N : Nat) (o : CompletionOutcome) (q1 : sync_queue α) :
    (((sync_queue.new α).run calls).1.wait_for_worker_completion tid N = (o, q1) ∨
      ((sync_queue.new α).run calls).1.wait_for_worker_completion_wakeup tid N = (o, q1)) →
    (o = CompletionOutcome.returned queue_op_status.success →
      q1.m_num_waiting_threads = N ∧ q1.m_cv.length = N ∧
      q1.m_underlying_queue = [] ∧ q1.m_closed = false) ∧
    (o ≠ CompletionOutcome.blocked → q1.m_closed = true →
      o = CompletionOutcome.returned queue_op_status.closed) := by
  have hinv : WaitingCounted ((sync_queue.new α).run calls).1 :=
    run_counted calls _ rfl
  generalize ((sync_queue.new α).run calls).1 = q at hinv
  unfold WaitingCounted at hinv
  intro h
  rcases h with h | h
  · unfold sync_queue.wait_for_worker_completion at h
    simp only at h
    split at h
    · rename_i hp
      simp only [Prod.mk.injEq] at h
      obtain ⟨rfl, rfl⟩ := h
      unfold sync_queue.completion_pred at hp
      unfold sync_queue.completion_finish
      simp only at hp ⊢
      by_cases hc : q.m_closed = true
      · simp [hc]
      · simp only [hc, Bool.or_false, Bool.and_eq_true, decide_eq_true_eq,
          List.isEmpty_iff, Bool.false_eq_true, if_false] at hp ⊢
        simp only [Bool.not_eq_true] at hc
        refine ⟨fun _ => ⟨hp.1, by rw [← hinv]; exact hp.1, hp.2, trivial⟩, ?_⟩
        intro _ h2
        exact h2.elim
    · simp only [Prod.mk.injEq] at h
      obtain ⟨rfl, rfl⟩ := h
      simp
  · unfold sync_queue.wait_for_worker_completion_wakeup at h
    split at h
    · split at h
      · rename_i hp
        simp only [Prod.mk.injEq] at h
        obtain ⟨rfl, rfl⟩ := h
        unfold sync_queue.completion_pred at hp
        unfold sync_queue.completion_finish
        simp only at hp ⊢
        by_cases hc : q.m_closed = true
        · simp [hc]
        · simp only [hc, Bool.or_false, Bool.and_eq_true, decide_eq_true_eq,
            List.isEmpty_iff, Bool.false_eq_true, if_false] at hp ⊢
          simp only [Bool.not_eq_true] at hc
          refine ⟨fun _ => ⟨hp.1, by rw [← hinv]; exact hp.1, hp.2, trivial⟩, ?_⟩
          intro _ h2
          exact h2.elim
      · simp only [Prod.mk.injEq] at h
        obtain ⟨rfl, rfl⟩ := h
        simp
    · simp only [Prod.mk.injEq] at h
      obtain ⟨rfl, rfl⟩ := h
      simp

theorem wait_for_worker_completion_success_witness :
    (sync_queue.wait_for_worker_completion
        ((sync_queue.new Nat).run [QueueCall.wait_pull 1, QueueCall.wait_pull 2]).1 9 2).1 =
      CompletionOutcome.returned queue_op_status.success ∧
    (sync_queue.wait_for_worker_completion
        ((sync_queue.new Nat).run [QueueCall.wait_pull 1, QueueCall.wait_pull 2]).1 9 2).2.m_cv =
      [Waiter.mk 1 false, Waiter.mk 2 false] ∧
    ((sync_queue.wait_for_worker_completion
        ((sync_queue.new Nat).run [QueueCall.wait_pull 1, QueueCall.wait_pull 2]).1 9 2).2
        |>.m_num_waiting_threads) = 2 ∧
    ((sync_queue.wait_for_worker_completion
        ((sync_queue.new Nat).run [QueueCall.wait_pull 1, QueueCall.wait_pull 2]).1 9 2).2
        |>.m_underlying_queue) = [] ∧
    ((sync_queue.wait_for_worker_completion
        ((sync_queue.new Nat).run [QueueCall.wait_pull 1, QueueCall.wait_pull 2]).1 9 2).2
        |>.m_closed) = false :=
  ⟨by decide, by decide,
    ((wait_for_worker_completion_success [QueueCall.wait_pull 1, QueueCall.wait_pull 2] 9 2
      (sync_queue.wait_for_worker_completion
        ((sync_queue.new Nat).run [QueueCall.wait_pull 1, QueueCall.wait_pull 2]).1 9 2).1
      (sync_queue.wait_for_worker_completion
        ((sync_queue.new Nat).run [QueueCall.wait_pull 1, QueueCall.wait_pull 2]).1 9 2).2
      (Or.inl rfl)).1 (by decide)).1,
    ((wait_for_worker_completion_success [QueueCall.wait_pull 1, QueueCall.wait_pull 2] 9 2
      (sync_queue.wait_for_worker_completion
        ((sync_queue.new Nat).run [QueueCall.wait_pull 1, QueueCall.wait_pull 2]).1 9 2).1
      (sync_queue.wait_for_worker_completion
        ((sync_queue.new Nat).run [QueueCall.wait_pull 1, QueueCall.wait_pull 2]).1 9 2).2
      (Or.inl rfl)).1 (by decide)).2.2⟩

/-- C9 (the code at the failing input): a master thread 7 calls
`wait_for_worker_completion(2)` on a new queue and blocks; then `close()` runs.  The queue
is closed and the predicate of the master's wait holds, but the master is still in the
wait of `m_cv_complete` and has not been notified: `close()` notifies `m_cv` only (the
threads inside the wait of `wait_pull` are all notified, whatever the state). -/
theorem close_does_not_notify_completion_waiter :
    ((sync_queue.new Nat).wait_for_worker_completion 7 2).1 = CompletionOutcome.blocked ∧
    ((sync_queue.new Nat).wait_for_worker_completion 7 2).2.close.m_closed = true ∧
    ((sync_queue.new Nat).wait_for_worker_completion 7 2).2.close.completion_pred 2 = true ∧
    ((sync_queue.new Nat).wait_for_worker_completion 7 2).2.close.m_cv_complete =
      [Waiter.mk 7 false] ∧
    (∀ q : sync_queue Nat, q.close.m_cv_complete = q.m_cv_complete ∧
      ∀ w ∈ q.close.m_cv, w.notified = true) := by
  refine ⟨by decide, by decide, by decide, by decide, ?_⟩
  intro q
  refine ⟨rfl, ?_⟩
  intro w hw
  simp only [sync_queue.close, notify_all, List.mem_map] at hw
  obtain ⟨a, -, rfl⟩ := hw
  rfl

/-! ## Properties of HandleTYPELogic -/

theorem tryTypeManager_ne_leave {TM : Type} (arg : Str) (r : Except Str TM) :
    tryTypeManager arg r ≠ ArgStep.leave := by
  unfold tryTypeManager
  cases r <;> simp

/-- The `break` of the loop is never taken: an argument equal to `--` has length 2 and
is passed over by the test before it. -/
theorem HandleTYPELogic_arg_ne_leave {TM : Type} (ext : Externals TM) (tm : TM) (arg : Str) :
    HandleTYPELogic_arg ext tm arg ≠ ArgStep.leave := by
  unfold HandleTYPELogic_arg
  simp only
  by_cases h1 : arg.length < 3 ∨ arg.take 2 ≠ "--".toList
  · rw [if_pos h1]
    simp
  · rw [if_neg h1]
    by_cases h2 : arg = "--".toList
    · exfalso
      apply h1
      left
      rw [h2]
      decide
    · rw [if_neg h2]
      repeat' split
      all_goals first
        | exact tryTypeManager_ne_leave _ _
        | simp

theorem HandleTYPELogic_loop_append {TM : Type} (ext : Externals TM) (pre suf : List Str) :
    ∀ tm : TM, (HandleTYPELogic_loop ext tm pre).thrown = none →
      (HandleTYPELogic_loop ext tm (pre ++ suf)).v =
        (HandleTYPELogic_loop ext tm pre).v ++
          (HandleTYPELogic_loop ext (HandleTYPELogic_loop ext tm pre).tm suf).v ∧
      (HandleTYPELogic_loop ext tm pre).v.length = pre.length := by
  induction pre with
  | nil => intro tm _; simp [HandleTYPELogic_loop]
  | cons arg rest ih =>
    intro tm h
    simp only [List.cons_append, HandleTYPELogic_loop] at h ⊢
    cases hs : HandleTYPELogic_arg ext tm arg with
    | next arg1 tm1 =>
      rw [hs] at h
      simp only at h ⊢
      obtain ⟨h1, h2⟩ := ih tm1 h
      simp [h1, h2]
    | leave => exact absurd hs (HandleTYPELogic_arg_ne_leave ext tm arg)
    | throw msg =>
      rw [hs] at h
      simp at h

theorem HandleTYPELogic_arg_type {TM : Type} (ext : Externals TM) (tm : TM) (X NAME : Str)
    (hlen : 3 ≤ ("--".toList ++ X).length)
    (h : ext.GetMatchingTypenameList tm X = [NAME]) :
    HandleTYPELogic_arg ext tm ("--".toList ++ X) = ArgStep.next ("--type=".toList ++ NAME) tm := by
  have hd : ("--".toList ++ X).drop 2 = X := rfl
  have ht : ("--".toList ++ X).take 2 = "--".toList := rfl
  have hne : "--".toList ++ X ≠ "--".toList := by
    intro he
    rw [he] at hlen
    revert hlen
    decide
  unfold HandleTYPELogic_arg
  simp only
  have hcond : ¬(("--".toList ++ X).length < 3 ∨ ("--".toList ++ X).take 2 ≠ "--".toList) := by
    intro hor
    rcases hor with h1 | h1
    · omega
    · exact h1 ht
  rw [if_neg hcond, if_neg hne, hd, h]

theorem HandleTYPELogic_arg_notype {TM : Type} (ext : Externals TM) (tm : TM)
    (Y NAME : Str)
    (h0 : ext.GetMatchingTypenameList tm ("no".toList ++ Y) = [])
    (h : ext.GetMatchingTypenameList tm Y = [NAME]) :
    HandleTYPELogic_arg ext tm ("--".toList ++ ("no".toList ++ Y)) =
      ArgStep.next ("--type=no".toList ++ NAME) tm := by
  have hd : ("--".toList ++ ("no".toList ++ Y)).drop 2 = "no".toList ++ Y := rfl
  have ht : ("--".toList ++ ("no".toList ++ Y)).take 2 = "--".toList := rfl
  have hd2 : ("no".toList ++ Y).drop 2 = Y := rfl
  have ht2 : ("no".toList ++ Y).take 2 = "no".toList := rfl
  have hlen : 3 ≤ ("--".toList ++ ("no".toList ++ Y)).length := by
    have h2 : ("--".toList ++ ("no".toList ++ Y)).length = Y.length + 4 := by
      rw [List.length_append, List.length_append]
      have h3 : "--".toList.length = 2 := rfl
      have h4 : "no".toList.length = 2 := rfl
      omega
    omega
  have hne : "--".toList ++ ("no".toList ++ Y) ≠ "--".toList := by
    intro he
    rw [he] at hlen
    revert hlen
    decide
  unfold HandleTYPELogic_arg
  simp only
  have hcond : ¬(("--".toList ++ ("no".toList ++ Y)).length < 3 ∨
      ("--".toList ++ ("no".toList ++ Y)).take 2 ≠ "--".toList) := by
    intro hor
    rcases hor with h1 | h1
    · omega
    · exact h1 ht
  rw [if_neg hcond, if_neg hne, hd, h0]
  simp only
  rw [if_pos ht2, hd2, h]

theorem HandleTYPELogic_at_index {TM : Type} (ext : Externals TM) (tm : TM) (v : List Str)
    (i : Nat) (arg arg1 : Str) (hi : v[i]? = some arg)
    (hreach : (HandleTYPELogic ext tm (v.take i)).thrown = none)
    (hstep : HandleTYPELogic_arg ext (HandleTYPELogic ext tm (v.take i)).tm arg =
      ArgStep.next arg1 (HandleTYPELogic ext tm (v.take i)).tm) :
    (HandleTYPELogic ext tm v).v[i]? = some arg1 := by
  unfold HandleTYPELogic at *
  have hlt : i < v.length := by
    by_contra hge
    rw [List.getElem?_eq_none (by omega)] at hi
    cases hi
  have hv : v = v.take i ++ arg :: v.drop (i + 1) := by
    have hget : v[i] = arg := by
      rw [List.getElem?_eq_getElem hlt] at hi
      exact Option.some.inj hi
    rw [← hget, ← List.drop_eq_getElem_cons hlt, List.take_append_drop]
  obtain ⟨h1, h2⟩ := HandleTYPELogic_loop_append ext (v.take i) (arg :: v.drop (i + 1)) tm hreach
  rw [← hv] at h1
  rw [h1]
  have hlen : (HandleTYPELogic_loop ext tm (v.take i)).v.length = i := by
    rw [h2, List.length_take]
    omega
  rw [List.getElem?_append_right (by omega), hlen, Nat.sub_self]
  simp only [HandleTYPELogic_loop]
  rw [hstep]
  simp

/-- C10: an argument `--X` of length at least 3, before any `--` in the vector and reached
by the loop (no argument before it raises an exception), is replaced in the vector by
`--type=NAME` when `GetMatchingTypenameList(X)` returns exactly `NAME`, and by
`--type=noNAME` when it returns nothing, `X` is `no` followed by `Y`, and
`GetMatchingTypenameList(Y)` returns exactly `NAME`; the type manager is the one the
arguments before it have left. -/
theorem HandleTYPELogic_rewrites_unique_type {TM : Type} (ext : Externals TM) (tm : TM)
    (v : List Str) (i : Nat) (X NAME : Str)
    (hi : v[i]? = some ("--".toList ++ X))
    (hlen : 3 ≤ ("--".toList ++ X).length)
    (hbefore : "--".toList ∉ v.take i)
    (hreach : (HandleTYPELogic ext tm (v.take i)).thrown = none) :
    (ext.GetMatchingTypenameList (HandleTYPELogic ext tm (v.take i)).tm X = [NAME] →
      (HandleTYPELogic ext tm v).v[i]? = some ("--type=".toList ++ NAME)) ∧
    (ext.GetMatchingTypenameList (HandleTYPELogic ext tm (v.take i)).tm X = [] →
      ∀ Y, X = "no".toList ++ Y →
        ext.GetMatchingTypenameList (HandleTYPELogic ext tm (v.take i)).tm Y = [NAME] →
        (HandleTYPELogic ext tm v).v[i]? = some ("--type=no".toList ++ NAME)) := by
  have _ := hbefore
  constructor
  · intro h
    exact HandleTYPELogic_at_index ext tm v i _ _ hi hreach
      (HandleTYPELogic_arg_type ext _ X NAME hlen h)
  · intro h0 Y hY h
    subst hY
    exact HandleTYPELogic_at_index ext tm v i _ _ hi hreach
      (HandleTYPELogic_arg_notype ext _ Y NAME h0 h)

theorem HandleTYPELogic_rewrites_unique_type_witness :
    (HandleTYPELogic demoExternals demoTypes demoArgv).v =
      ["ucg".toList, "--type=cpp".toList, "--type=nopython".toList, "pat".toList] ∧
    (HandleTYPELogic demoExternals demoTypes demoArgv).v[1]? = some ("--type=".toList ++ "cpp".toList) ∧
    (HandleTYPELogic demoExternals demoTypes demoArgv).v[2]? =
      some ("--type=no".toList ++ "python".toList) :=
  ⟨by decide,
    (HandleTYPELogic_rewrites_unique_type demoExternals demoTypes demoArgv 1 "cpp".toList
      "cpp".toList (by decide) (by decide) (by decide) (by decide)).1 (by decide),
    (HandleTYPELogic_rewrites_unique_type demoExternals demoTypes demoArgv 2 "nopy".toList
      "python".toList (by decide) (by decide) (by decide) (by decide)).2 (by decide)
      "py".toList (by decide) (by decide)⟩

/-! ## Properties of HandleTYPELogic: ambiguity and type commands -/

theorem HandleTYPELogic_loop_append_state {TM : Type} (ext : Externals TM)
    (pre suf : List Str) :
    ∀ tm : TM, (HandleTYPELogic_loop ext tm pre).thrown = none →
      (HandleTYPELogic_loop ext tm (pre ++ suf)).thrown =
        (HandleTYPELogic_loop ext (HandleTYPELogic_loop ext tm pre).tm suf).thrown ∧
      (HandleTYPELogic_loop ext tm (pre ++ suf)).tm =
        (HandleTYPELogic_loop ext (HandleTYPELogic_loop ext tm pre).tm suf).tm := by
  induction pre with
  | nil => intro tm _; simp [HandleTYPELogic_loop]
  | cons arg rest ih =>
    intro tm h
    simp only [List.cons_append, HandleTYPELogic_loop] at h ⊢
    cases hs : HandleTYPELogic_arg ext tm arg with
    | next arg1 tm1 =>
      rw [hs] at h
      simp only at h ⊢
      exact ih tm1 h
    | leave => exact absurd hs (HandleTYPELogic_arg_ne_leave ext tm arg)
    | throw msg =>
      rw [hs] at h
      simp at h

/-- The quoted candidates as the code builds them, with `join` inserting the separator
between the names, are the candidates written `'--NAME'` and separated by single spaces. -/
theorem quoted_candidates (p : Str) (names : List Str) (hne : names ≠ []) :
    "'".toList ++ p ++ List.intercalate ("' '".toList ++ p) names ++ "'".toList =
      List.intercalate " ".toList (names.map (fun n => "'".toList ++ p ++ n ++ "'".toList)) := by
  induction names with
  | nil => exact absurd rfl hne
  | cons n rest ih =>
    cases rest with
    | nil => simp [List.intercalate]
    | cons m rest =>
      have h := ih (by simp)
      simp only [List.intercalate, List.map_cons, List.intersperse_cons₂, List.flatten_cons,
        List.append_assoc] at h ⊢
      rw [← h]
      simp [List.append_assoc]

theorem HandleTYPELogic_cond_of_nonempty (X : Str) (hX : X ≠ []) :
    ¬(("--".toList ++ X).length < 3 ∨ ("--".toList ++ X).take 2 ≠ "--".toList) ∧
    "--".toList ++ X ≠ "--".toList ∧ ("--".toList ++ X).drop 2 = X := by
  have hlen : ("--".toList ++ X).length = X.length + 2 := by
    rw [List.length_append]
    have h3 : "--".toList.length = 2 := rfl
    omega
  have hpos : 0 < X.length := List.length_pos.mpr hX
  refine ⟨?_, ?_, rfl⟩
  · intro hor
    rcases hor with h1 | h1
    · omega
    · exact h1 rfl
  · intro he
    have := congrArg List.length he
    rw [hlen] at this
    have h3 : "--".toList.length = 2 := rfl
    omega

theorem HandleTYPELogic_arg_ambiguous {TM : Type} (ext : Externals TM) (tm : TM)
    (X : Str) (names : List Str) (hX : X ≠ []) (hmany : 2 ≤ names.length)
    (h : ext.GetMatchingTypenameList tm X = names) :
    HandleTYPELogic_arg ext tm ("--".toList ++ X) =
      ArgStep.throw ("option '--".toList ++ X ++ "' is ambiguous; possibilities: ".toList ++
        ("'--".toList ++ ext.join names "' '--".toList ++ "'".toList)) := by
  obtain ⟨hcond, hne, hd⟩ := HandleTYPELogic_cond_of_nonempty X hX
  unfold HandleTYPELogic_arg
  simp only
  rw [if_neg hcond, if_neg hne, hd, h]
  match names, hmany with
  | n1 :: n2 :: rest, _ => rfl

theorem HandleTYPELogic_arg_no_ambiguous {TM : Type} (ext : Externals TM) (tm : TM)
    (Y : Str) (names : List Str) (hmany : 2 ≤ names.length)
    (h0 : ext.GetMatchingTypenameList tm ("no".toList ++ Y) = [])
    (h : ext.GetMatchingTypenameList tm Y = names) :
    HandleTYPELogic_arg ext tm ("--".toList ++ ("no".toList ++ Y)) =
      ArgStep.throw ("option '--".toList ++ ("no".toList ++ Y) ++
        "' is ambiguous; possibilities: ".toList ++
        ("'--no".toList ++ ext.join names "' '--no".toList ++ "'".toList)) := by
  obtain ⟨hcond, hne, hd⟩ := HandleTYPELogic_cond_of_nonempty ("no".toList ++ Y) (by simp)
  have hd2 : ("no".toList ++ Y).drop 2 = Y := rfl
  have ht2 : ("no".toList ++ Y).take 2 = "no".toList := rfl
  unfold HandleTYPELogic_arg
  simp only
  rw [if_neg hcond, if_neg hne, hd, h0]
  simp only
  rw [if_pos ht2, hd2, h]
  match names, hmany with
  | n1 :: n2 :: rest, _ => rfl

theorem HandleTYPELogic_split_at {TM : Type} (ext : Externals TM) (tm : TM) (v : List Str)
    (i : Nat) (arg : Str) (hi : v[i]? = some arg)
    (hreach : (HandleTYPELogic ext tm (v.take i)).thrown = none) :
    (HandleTYPELogic ext tm v).thrown =
      (HandleTYPELogic_loop ext (HandleTYPELogic ext tm (v.take i)).tm
        (arg :: v.drop (i + 1))).thrown ∧
    (HandleTYPELogic ext tm v).tm =
      (HandleTYPELogic_loop ext (HandleTYPELogic ext tm (v.take i)).tm
        (arg :: v.drop (i + 1))).tm ∧
    (HandleTYPELogic ext tm v).v[i]? =
      (HandleTYPELogic_loop ext (HandleTYPELogic ext tm (v.take i)).tm
        (arg :: v.drop (i + 1))).v[0]? := by
  unfold HandleTYPELogic at *
  have hlt : i < v.length := by
    by_contra hge
    rw [List.getElem?_eq_none (by omega)] at hi
    cases hi
  have hv : v = v.take i ++ arg :: v.drop (i + 1) := by
    have hget : v[i] = arg := by
      rw [List.getElem?_eq_getElem hlt] at hi
      exact Option.some.inj hi
    rw [← hget, ← List.drop_eq_getElem_cons hlt, List.take_append_drop]
  obtain ⟨h1, h2⟩ := HandleTYPELogic_loop_append ext (v.take i) (arg :: v.drop (i + 1)) tm hreach
  obtain ⟨h3, h4⟩ :=
    HandleTYPELogic_loop_append_state ext (v.take i) (arg :: v.drop (i + 1)) tm hreach
  rw [← hv] at h1 h3 h4
  refine ⟨h3, h4, ?_⟩
  rw [h1]
  have hlen : (HandleTYPELogic_loop ext tm (v.take i)).v.length = i := by
    rw [h2, List.length_take]
    omega
  rw [List.getElem?_append_right (by omega), hlen, Nat.sub_self]

theorem not_dashdash_of_before (v : List Str) (i : Nat) (X : Str)
    (hi : v[i]? = some ("--".toList ++ X)) (hbefore : "--".toList ∉ v.take (i + 1)) :
    X ≠ [] := by
  intro hX
  subst hX
  apply hbefore
  rw [List.mem_iff_getElem?]
  refine ⟨i, ?_⟩
  rw [List.getElem?_take]
  simp [hi]

/-- C11: an argument `--X` with no `--` at or before it in the vector, reached by the loop
(no argument before it raises an exception): when `GetMatchingTypenameList(X)` returns
two or more names, or returns none while `X` is `no` followed by `Y` and
`GetMatchingTypenameList(Y)` returns two or more names, `HandleTYPELogic` throws an
`ArgParseException` whose message is `option '--X' is ambiguous; possibilities: `
followed by the candidates written `'--NAME'` (respectively `'--noNAME'`) separated by
single spaces, and the argument is left as it was.  (`join` puts the separator between
the names.) -/
theorem HandleTYPELogic_ambiguous {TM : Type} (ext : Externals TM) (tm : TM)
    (v : List Str) (i : Nat) (X : Str) (names : List Str)
    (hi : v[i]? = some ("--".toList ++ X))
    (hbefore : "--".toList ∉ v.take (i + 1))
    (hreach : (HandleTYPELogic ext tm (v.take i)).thrown = none)
    (hjoin : ∀ sep, ext.join names sep = List.intercalate sep names)
    (hmany : 2 ≤ names.length) :
    (ext.GetMatchingTypenameList (HandleTYPELogic ext tm (v.take i)).tm X = names →
      (HandleTYPELogic ext tm v).thrown =
        some ("option '--".toList ++ X ++ "' is ambiguous; possibilities: ".toList ++
          List.intercalate " ".toList
            (names.map (fun n => "'".toList ++ "--".toList ++ n ++ "'".toList))) ∧
      (HandleTYPELogic ext tm v).v[i]? = some ("--".toList ++ X)) ∧
    (ext.GetMatchingTypenameList (HandleTYPELogic ext tm (v.take i)).tm X = [] →
      ∀ Y, X = "no".toList ++ Y →
        ext.GetMatchingTypenameList (HandleTYPELogic ext tm (v.take i)).tm Y = names →
        (HandleTYPELogic ext tm v).thrown =
          some ("option '--".toList ++ X ++ "' is ambiguous; possibilities: ".toList ++
            List.intercalate " ".toList
              (names.map (fun n => "'".toList ++ "--no".toList ++ n ++ "'".toList))) ∧
        (HandleTYPELogic ext tm v).v[i]? = some ("--".toList ++ X)) := by
  have hX : X ≠ [] := not_dashdash_of_before v i X hi hbefore
  have hne : names ≠ [] := by
    intro h
    rw [h] at hmany
    simp at hmany
  obtain ⟨h1, -, h3⟩ := HandleTYPELogic_split_at ext tm v i _ hi hreach
  constructor
  · intro h
    have hstep := HandleTYPELogic_arg_ambiguous ext _ X names hX hmany h
    rw [h1, h3]
    simp only [HandleTYPELogic_loop]
    rw [hstep, hjoin]
    have hq := quoted_candidates "--".toList names hne
    simp only [List.getElem?_cons_zero, Option.some.injEq, List.append_cancel_left_eq,
      and_true]
    exact hq
  · intro h0 Y hY h
    subst hY
    have hstep := HandleTYPELogic_arg_no_ambiguous ext _ Y names hmany h0 h
    rw [h1, h3]
    simp only [HandleTYPELogic_loop]
    rw [hstep, hjoin]
    have hq := quoted_candidates "--no".toList names hne
    simp only [List.getElem?_cons_zero, Option.some.injEq, List.append_cancel_left_eq,
      and_true]
    exact hq

theorem HandleTYPELogic_ambiguous_witness :
    (HandleTYPELogic demoExternals demoTypesC demoArgvAmbiguous).thrown =
      some "option '--c' is ambiguous; possibilities: '--cpp' '--cc'".toList ∧
    (HandleTYPELogic demoExternals demoTypesC demoArgvAmbiguous).v = demoArgvAmbiguous ∧
    (HandleTYPELogic demoExternals demoTypesC demoArgvNoAmbiguous).thrown =
      some "option '--noc' is ambiguous; possibilities: '--nocpp' '--nocc'".toList ∧
    ((HandleTYPELogic demoExternals demoTypesC demoArgvAmbiguous).thrown =
        some ("option '--".toList ++ "c".toList ++ "' is ambiguous; possibilities: ".toList ++
          List.intercalate " ".toList
            (["cpp".toList, "cc".toList].map
              (fun n => "'".toList ++ "--".toList ++ n ++ "'".toList))) ∧
      (HandleTYPELogic demoExternals demoTypesC demoArgvAmbiguous).v[1]? =
        some ("--".toList ++ "c".toList)) ∧
    ((HandleTYPELogic demoExternals demoTypesC demoArgvNoAmbiguous).thrown =
        some ("option '--".toList ++ "noc".toList ++
          "' is ambiguous; possibilities: ".toList ++
          List.intercalate " ".toList
            (["cpp".toList, "cc".toList].map
              (fun n => "'".toList ++ "--no".toList ++ n ++ "'".toList))) ∧
      (HandleTYPELogic demoExternals demoTypesC demoArgvNoAmbiguous).v[1]? =
        some ("--".toList ++ "noc".toList)) :=
  ⟨by decide, by decide, by decide,
    (HandleTYPELogic_ambiguous demoExternals demoTypesC demoArgvAmbiguous 1 "c".toList
      ["cpp".toList, "cc".toList] (by decide) (by decide) (by decide) (fun _ => rfl)
      (by decide)).1 (by decide),
    (HandleTYPELogic_ambiguous demoExternals demoTypesC demoArgvNoAmbiguous 1 "noc".toList
      ["cpp".toList, "cc".toList] (by decide) (by decide) (by decide) (fun _ => rfl)
      (by decide)).2 (by decide) "c".toList (by decide) (by decide)⟩

theorem HandleResult.eq_of {TM : Type} (a b : HandleResult TM) (h1 : a.thrown = b.thrown)
    (h2 : a.v = b.v) (h3 : a.tm = b.tm) : a = b := by
  cases a
  cases b
  simp only at h1 h2 h3
  subst h1 h2 h3
  rfl

theorem HandleTYPELogic_after_call {TM : Type} (ext : Externals TM) (tm : TM) (v : List Str)
    (i : Nat) (arg : Str) (call : Except Str TM) (hi : v[i]? = some arg)
    (hreach : (HandleTYPELogic ext tm (v.take i)).thrown = none)
    (hstep : HandleTYPELogic_arg ext (HandleTYPELogic ext tm (v.take i)).tm arg =
      tryTypeManager arg call) :
    HandleTYPELogic ext tm (v.take (i + 1)) =
      afterCall (HandleTYPELogic ext tm (v.take i)) arg call := by
  have htake : v.take (i + 1) = v.take i ++ [arg] := by
    rw [List.take_succ, hi]
    rfl
  unfold HandleTYPELogic at *
  rw [htake]
  obtain ⟨h1, -⟩ := HandleTYPELogic_loop_append ext (v.take i) [arg] tm hreach
  obtain ⟨h3, h4⟩ := HandleTYPELogic_loop_append_state ext (v.take i) [arg] tm hreach
  cases call with
  | ok tm1 =>
    have hone : HandleTYPELogic_loop ext (HandleTYPELogic_loop ext tm (v.take i)).tm [arg] =
        { thrown := none, v := [arg], tm := tm1 } := by
      simp only [HandleTYPELogic_loop]
      rw [hstep]
      rfl
    rw [hone] at h1 h3 h4
    exact HandleResult.eq_of _ _ h3 h1 h4
  | error what =>
    have hone : HandleTYPELogic_loop ext (HandleTYPELogic_loop ext tm (v.take i)).tm [arg] =
        { thrown := some (what ++ " while parsing option '".toList ++ arg ++ "'".toList),
          v := [arg], tm := (HandleTYPELogic_loop ext tm (v.take i)).tm } := by
      simp only [HandleTYPELogic_loop]
      rw [hstep]
      rfl
    rw [hone] at h1 h3 h4
    exact HandleResult.eq_of _ _ h3 h1 h4

theorem HandleTYPELogic_arg_command {TM : Type} (ext : Externals TM) (tm : TM)
    (CMD ARGS : Str)
    (hnotype : ext.GetMatchingTypenameList tm (CMD ++ '=' :: ARGS) = [])
    (hno : (CMD ++ '=' :: ARGS).take 2 ≠ "no".toList)
    (hsplit : ext.split (CMD ++ '=' :: ARGS) '=' = [CMD, ARGS]) :
    HandleTYPELogic_arg ext tm ("--".toList ++ (CMD ++ '=' :: ARGS)) =
      (if CMD = "type-add".toList then
        tryTypeManager ("--".toList ++ (CMD ++ '=' :: ARGS))
          (ext.TypeAddFromFilterSpecString tm false ARGS)
      else if CMD = "type-set".toList then
        tryTypeManager ("--".toList ++ (CMD ++ '=' :: ARGS))
          (ext.TypeAddFromFilterSpecString tm true ARGS)
      else if CMD = "type-del".toList then
        tryTypeManager ("--".toList ++ (CMD ++ '=' :: ARGS)) (ext.TypeDel tm ARGS)
      else if CMD = "ignore-file".toList then
        tryTypeManager ("--".toList ++ (CMD ++ '=' :: ARGS))
          (ext.TypeAddIgnoreFileFromFilterSpecString tm ARGS)
      else if CMD = "exclude".toList ∨ CMD = "ignore".toList then
        tryTypeManager ("--".toList ++ (CMD ++ '=' :: ARGS))
          (ext.TypeAddIgnoreFileFromFilterSpecString tm ("globx:".toList ++ ARGS))
      else if CMD = "include".toList then
        tryTypeManager ("--".toList ++ (CMD ++ '=' :: ARGS))
          (ext.TypeAddIncludeGlobFromFilterSpecString tm ("glob:".toList ++ ARGS))
      else ArgStep.next ("--".toList ++ (CMD ++ '=' :: ARGS)) tm) := by
  obtain ⟨hcond, hne, hd⟩ := HandleTYPELogic_cond_of_nonempty (CMD ++ '=' :: ARGS) (by simp)
  unfold HandleTYPELogic_arg
  simp only
  rw [if_neg hcond, if_neg hne, hd, hnotype]
  simp only
  rw [if_neg hno, hsplit]

theorem take_two_ne_no (CMD R : Str) (hlen : 2 ≤ CMD.length)
    (h : CMD.take 2 ≠ "no".toList) : (CMD ++ R).take 2 ≠ "no".toList := by
  rw [List.take_append_of_le_length hlen]
  exact h

/-- C13: an argument `--CMD=ARGS` (`ARGS` without `=`) with no `--` at or before it,
reached by the loop, not matched as a type name, and which `split` cuts at the `=` into
`CMD` and `ARGS`, makes `HandleTYPELogic` perform exactly one call on the type manager:
the state after the argument is the state before it with that call applied (or with its
exception rethrown), and the argument stays in the vector. -/
theorem HandleTYPELogic_type_command {TM : Type} (ext : Externals TM) (tm : TM)
    (v : List Str) (i : Nat) (CMD ARGS : Str)
    (hi : v[i]? = some ("--".toList ++ (CMD ++ '=' :: ARGS)))
    (hargs : '=' ∉ ARGS)
    (hbefore : "--".toList ∉ v.take (i + 1))
    (hreach : (HandleTYPELogic ext tm (v.take i)).thrown = none)
    (hnotype : ext.GetMatchingTypenameList (HandleTYPELogic ext tm (v.take i)).tm
      (CMD ++ '=' :: ARGS) = [])
    (hsplit : ext.split (CMD ++ '=' :: ARGS) '=' = [CMD, ARGS]) :
    (CMD = "type-add".toList →
      HandleTYPELogic ext tm (v.take (i + 1)) =
        afterCall (HandleTYPELogic ext tm (v.take i)) ("--".toList ++ (CMD ++ '=' :: ARGS))
          (ext.TypeAddFromFilterSpecString (HandleTYPELogic ext tm (v.take i)).tm false ARGS)) ∧
    (CMD = "type-set".toList →
      HandleTYPELogic ext tm (v.take (i + 1)) =
        afterCall (HandleTYPELogic ext tm (v.take i)) ("--".toList ++ (CMD ++ '=' :: ARGS))
          (ext.TypeAddFromFilterSpecString (HandleTYPELogic ext tm (v.take i)).tm true ARGS)) ∧
    (CMD = "type-del".toList →
      HandleTYPELogic ext tm (v.take (i + 1)) =
        afterCall (HandleTYPELogic ext tm (v.take i)) ("--".toList ++ (CMD ++ '=' :: ARGS))
          (ext.TypeDel (HandleTYPELogic ext tm (v.take i)).tm ARGS)) ∧
    (CMD = "ignore-file".toList →
      HandleTYPELogic ext tm (v.take (i + 1)) =
        afterCall (HandleTYPELogic ext tm (v.take i)) ("--".toList ++ (CMD ++ '=' :: ARGS))
          (ext.TypeAddIgnoreFileFromFilterSpecString (HandleTYPELogic ext tm (v.take i)).tm
            ARGS)) ∧
    (CMD = "exclude".toList ∨ CMD = "ignore".toList →
      HandleTYPELogic ext tm (v.take (i + 1)) =
        afterCall (HandleTYPELogic ext tm (v.take i)) ("--".toList ++ (CMD ++ '=' :: ARGS))
          (ext.TypeAddIgnoreFileFromFilterSpecString (HandleTYPELogic ext tm (v.take i)).tm
            ("globx:".toList ++ ARGS))) ∧
    (CMD = "include".toList →
      HandleTYPELogic ext tm (v.take (i + 1)) =
        afterCall (HandleTYPELogic ext tm (v.take i)) ("--".toList ++ (CMD ++ '=' :: ARGS))
          (ext.TypeAddIncludeGlobFromFilterSpecString (HandleTYPELogic ext tm (v.take i)).tm
            ("glob:".toList ++ ARGS))) := by
  have _ := hargs
  have _ := hbefore
  have key : ∀ call, (CMD ++ '=' :: ARGS).take 2 ≠ "no".toList →
      HandleTYPELogic_arg ext (HandleTYPELogic ext tm (v.take i)).tm
          ("--".toList ++ (CMD ++ '=' :: ARGS)) =
        tryTypeManager ("--".toList ++ (CMD ++ '=' :: ARGS)) call →
      HandleTYPELogic ext tm (v.take (i + 1)) =
        afterCall (HandleTYPELogic ext tm (v.take i)) ("--".toList ++ (CMD ++ '=' :: ARGS))
          call := fun call _ hstep =>
    HandleTYPELogic_after_call ext tm v i _ call hi hreach hstep
  refine ⟨?_, ?_, ?_, ?_, ?_, ?_⟩
  · intro h
    have hno : (CMD ++ '=' :: ARGS).take 2 ≠ "no".toList := by
      subst h; exact take_two_ne_no _ _ (by decide) (by decide)
    apply key _ hno
    rw [HandleTYPELogic_arg_command ext _ CMD ARGS hnotype hno hsplit, if_pos h]
  · intro h
    have hno : (CMD ++ '=' :: ARGS).take 2 ≠ "no".toList := by
      subst h; exact take_two_ne_no _ _ (by decide) (by decide)
    apply key _ hno
    rw [HandleTYPELogic_arg_command ext _ CMD ARGS hnotype hno hsplit,
      if_neg (by subst h; decide), if_pos h]
  · intro h
    have hno : (CMD ++ '=' :: ARGS).take 2 ≠ "no".toList := by
      subst h; exact take_two_ne_no _ _ (by decide) (by decide)
    apply key _ hno
    rw [HandleTYPELogic_arg_command ext _ CMD ARGS hnotype hno hsplit,
      if_neg (by subst h; decide), if_neg (by subst h; decide), if_pos h]
  · intro h
    have hno : (CMD ++ '=' :: ARGS).take 2 ≠ "no".toList := by
      subst h; exact take_two_ne_no _ _ (by decide) (by decide)
    apply key _ hno
    rw [HandleTYPELogic_arg_command ext _ CMD ARGS hnotype hno hsplit,
      if_neg (by subst h; decide), if_neg (by subst h; decide),
      if_neg (by subst h; decide), if_pos h]
  · intro h
    have hno : (CMD ++ '=' :: ARGS).take 2 ≠ "no".toList := by
      rcases h with h | h <;> subst h <;> exact take_two_ne_no _ _ (by decide) (by decide)
    apply key _ hno
    rw [HandleTYPELogic_arg_command ext _ CMD ARGS hnotype hno hsplit,
      if_neg (by rcases h with h | h <;> subst h <;> decide),
      if_neg (by rcases h with h | h <;> subst h <;> decide),
      if_neg (by rcases h with h | h <;> subst h <;> decide),
      if_neg (by rcases h with h | h <;> subst h <;> decide), if_pos h]
  · intro h
    have hno : (CMD ++ '=' :: ARGS).take 2 ≠ "no".toList := by
      subst h; exact take_two_ne_no _ _ (by decide) (by decide)
    apply key _ hno
    rw [HandleTYPELogic_arg_command ext _ CMD ARGS hnotype hno hsplit,
      if_neg (by subst h; decide), if_neg (by subst h; decide),
      if_neg (by subst h; decide), if_neg (by subst h; decide),
      if_neg (by subst h; decide), if_pos h]

theorem HandleTYPELogic_type_command_witness :
    (HandleTYPELogic (logExternals demoTypes) [] demoArgvCommands).tm =
      [TMCall.TypeAddFromFilterSpecString false "cpp:ext:txt".toList,
       TMCall.TypeAddIgnoreFileFromFilterSpecString "globx:*.bak".toList] ∧
    (HandleTYPELogic (logExternals demoTypes) [] demoArgvCommands).v = demoArgvCommands ∧
    HandleTYPELogic (logExternals demoTypes) [] (demoArgvCommands.take (1 + 1)) =
      afterCall (HandleTYPELogic (logExternals demoTypes) [] (demoArgvCommands.take 1))
        ("--".toList ++ ("type-add".toList ++ '=' :: "cpp:ext:txt".toList))
        ((logExternals demoTypes).TypeAddFromFilterSpecString
          (HandleTYPELogic (logExternals demoTypes) [] (demoArgvCommands.take 1)).tm false
          "cpp:ext:txt".toList) ∧
    HandleTYPELogic (logExternals demoTypes) [] (demoArgvCommands.take (2 + 1)) =
      afterCall (HandleTYPELogic (logExternals demoTypes) [] (demoArgvCommands.take 2))
        ("--".toList ++ ("exclude".toList ++ '=' :: "*.bak".toList))
        ((logExternals demoTypes).TypeAddIgnoreFileFromFilterSpecString
          (HandleTYPELogic (logExternals demoTypes) [] (demoArgvCommands.take 2)).tm
          ("globx:".toList ++ "*.bak".toList)) :=
  ⟨by decide, by decide,
    (HandleTYPELogic_type_command (logExternals demoTypes) [] demoArgvCommands 1
      "type-add".toList "cpp:ext:txt".toList (by decide) (by decide) (by decide) (by decide)
      (by decide) (by decide)).1 rfl,
    (HandleTYPELogic_type_command (logExternals demoTypes) [] demoArgvCommands 2
      "exclude".toList "*.bak".toList (by decide) (by decide) (by decide) (by decide)
      (by decide) (by decide)).2.2.2.2.1 (Or.inl rfl)⟩

/-! ## Properties of ConvertRCFileToArgv -/

theorem demoRcFile_parsed :
    ConvertRCFileToArgv demoRcFile = RcOutcome.returned ["-i".toList, "--type=cpp".toList] := by
  decide

theorem dropWhile_cons_head {p : Char → Bool} {l : List Char} {c : Char} {rest : List Char}
    (h : l.dropWhile p = c :: rest) : p c = false ∧ rest.length < l.length := by
  constructor
  · have := List.head?_dropWhile_not p l
    rw [h] at this
    simpa using this
  · have := (List.dropWhile_suffix p (l := l)).length_le
    rw [h] at this
    simp only [List.length_cons] at this
    omega

theorem isspace_false_not_eol {c : Char} (h : isspace c = false) : isEol c = false := by
  unfold isspace at h
  unfold isEol
  simp only [Bool.or_eq_false_iff, decide_eq_false_iff_not] at h ⊢
  exact ⟨h.2, h.1.1.1.2⟩

theorem c_str_head (p : List Char) : (c_str p).head? = some '-' ↔ p.head? = some '-' := by
  unfold c_str
  cases p with
  | nil => simp
  | cons c cs =>
    by_cases hc : c = NUL
    · subst hc
      simp only [List.head?_cons, Option.some.injEq]
      rw [List.takeWhile_cons_of_neg (by simp)]
      simp only [List.head?_nil, reduceCtorEq, false_iff]
      decide
    · rw [List.takeWhile_cons_of_pos (by simpa using hc)]
      simp

theorem rc_loop_tokens (name : Str) :
    ∀ (fuel : Nat) (pos : List Char) (retval : List Str), pos.length < fuel →
      ((∀ t ∈ rcTokens_loop fuel pos, ¬ rcForbidden t) →
        ConvertRCFileToArgv_loop name fuel pos retval =
          RcOutcome.returned (retval ++ rcTokens_loop fuel pos)) ∧
      ((∃ t ∈ rcTokens_loop fuel pos, rcForbidden t) →
        ∃ msg, ConvertRCFileToArgv_loop name fuel pos retval = RcOutcome.threw msg) := by
  intro fuel
  induction fuel with
  | zero => intro pos retval h; omega
  | succ n ih =>
    intro pos retval hlen
    cases pos with
    | nil => simp [ConvertRCFileToArgv_loop, rcTokens_loop]
    | cons a as =>
      cases hd : (a :: as).dropWhile isspace with
      | nil =>
        have hn : 0 < n := by simp only [List.length_cons] at hlen; omega
        obtain ⟨k, rfl⟩ : ∃ k, n = k + 1 := ⟨n - 1, by omega⟩
        simp [ConvertRCFileToArgv_loop, rcTokens_loop, hd]
      | cons c rest =>
        obtain ⟨hc, hrest⟩ := dropWhile_cons_head hd
        simp only [ConvertRCFileToArgv_loop, rcTokens_loop, hd]
        by_cases hhash : c = '#'
        · simp only [if_pos hhash]
          apply ih
          have h1 := (List.dropWhile_suffix (fun x => decide (x ≠ '\n')) (l := rest)).length_le
          rw [List.dropWhile_cons_of_pos (by rw [hhash]; decide)]
          omega
        · simp only [if_neg hhash]
          have heol : isEol c = false := isspace_false_not_eol hc
          have hdrop : ((c :: rest).dropWhile (fun x => !isEol x)).length < n := by
            rw [List.dropWhile_cons_of_pos (by simp [heol])]
            have h1 := (List.dropWhile_suffix (fun x => !isEol x) (l := rest)).length_le
            omega
          by_cases h1 : c_str ((c :: rest).takeWhile (fun x => !isEol x)) = "--".toList
          · rw [if_pos h1]
            constructor
            · intro hall
              exact absurd (Or.inl h1) (hall _ (List.mem_cons_self _ _))
            · intro _
              exact ⟨_, rfl⟩
          · rw [if_neg h1]
            by_cases h2 : ((c :: rest).takeWhile (fun x => !isEol x)).head? ≠ some '-'
            · rw [if_pos h2]
              constructor
              · intro hall
                refine absurd (Or.inr ?_) (hall _ (List.mem_cons_self _ _))
                intro h3
                exact h2 ((c_str_head _).mp h3)
              · intro _
                exact ⟨_, rfl⟩
            · rw [if_neg h2]
              have hok : ¬ rcForbidden (c_str ((c :: rest).takeWhile (fun x => !isEol x))) := by
                intro hf
                rcases hf with hf | hf
                · exact h1 hf
                · apply hf
                  rw [c_str_head]
                  simpa using h2
              obtain ⟨ih1, ih2⟩ := ih ((c :: rest).dropWhile (fun x => !isEol x))
                (retval ++ [c_str ((c :: rest).takeWhile (fun x => !isEol x))]) hdrop
              constructor
              · intro hall
                rw [ih1 (fun t ht => hall t (List.mem_cons_of_mem _ ht))]
                simp
              · rintro ⟨t, ht, hf⟩
                rcases List.mem_cons.mp ht with rfl | ht
                · exact absurd hf hok
                · exact ih2 ⟨t, ht, hf⟩

theorem rcTokens_loop_fuel :
    ∀ (f1 f2 : Nat) (pos : List Char), pos.length < f1 → pos.length < f2 →
      rcTokens_loop f1 pos = rcTokens_loop f2 pos := by
  intro f1
  induction f1 with
  | zero => intro f2 pos h; omega
  | succ n ih =>
    intro f2 pos h1 h2
    obtain ⟨m, rfl⟩ : ∃ m, f2 = m + 1 := ⟨f2 - 1, by omega⟩
    simp only [rcTokens_loop]
    cases hd : pos.dropWhile isspace with
    | nil => rfl
    | cons c rest =>
      obtain ⟨hc, hrest⟩ := dropWhile_cons_head hd
      simp only
      by_cases hhash : c = '#'
      · simp only [if_pos hhash]
        have h3 := (List.dropWhile_suffix (fun x => decide (x ≠ '\n')) (l := rest)).length_le
        have h4 : ((c :: rest).dropWhile (fun x => decide (x ≠ '\n'))).length ≤ rest.length := by
          rw [List.dropWhile_cons_of_pos (by rw [hhash]; decide)]
          exact h3
        exact ih m _ (by omega) (by omega)
      · simp only [if_neg hhash]
        have heol : isEol c = false := isspace_false_not_eol hc
        have h4 : ((c :: rest).dropWhile (fun x => !isEol x)).length ≤ rest.length := by
          rw [List.dropWhile_cons_of_pos (by simp [heol])]
          exact (List.dropWhile_suffix (fun x => !isEol x) (l := rest)).length_le
        rw [ih m _ (by omega) (by omega)]

/-- The scanning rule of `rcTokens`, without the step budget. -/
theorem rcTokens_unfold (text : List Char) :
    rcTokens text =
      (match text.dropWhile isspace with
        | [] => []
        | c :: rest =>
          if c = '#' then rcTokens ((c :: rest).dropWhile (fun x => x ≠ '\n'))
          else c_str ((c :: rest).takeWhile (fun x => !isEol x)) ::
            rcTokens ((c :: rest).dropWhile (fun x => !isEol x))) := by
  have hL : rcTokens text =
      (match text.dropWhile isspace with
        | [] => []
        | c :: rest =>
          if c = '#' then
            rcTokens_loop text.length ((c :: rest).dropWhile (fun x => x ≠ '\n'))
          else c_str ((c :: rest).takeWhile (fun x => !isEol x)) ::
            rcTokens_loop text.length ((c :: rest).dropWhile (fun x => !isEol x))) := rfl
  rw [hL]
  cases hd : text.dropWhile isspace with
  | nil => rfl
  | cons c rest =>
    obtain ⟨hc, hrest⟩ := dropWhile_cons_head hd
    simp only
    by_cases hhash : c = '#'
    · simp only [if_pos hhash]
      have h4 : ((c :: rest).dropWhile (fun x => decide (x ≠ '\n'))).length ≤ rest.length := by
        rw [List.dropWhile_cons_of_pos (by rw [hhash]; decide)]
        exact (List.dropWhile_suffix (fun x => decide (x ≠ '\n')) (l := rest)).length_le
      exact rcTokens_loop_fuel _ _ _ (by omega) (Nat.lt_succ_self _)
    · simp only [if_neg hhash]
      have heol : isEol c = false := isspace_false_not_eol hc
      have h4 : ((c :: rest).dropWhile (fun x => !isEol x)).length ≤ rest.length := by
        rw [List.dropWhile_cons_of_pos (by simp [heol])]
        exact (List.dropWhile_suffix (fun x => !isEol x) (l := rest)).length_le
      have h5 : rcTokens_loop text.length ((c :: rest).dropWhile (fun x => !isEol x)) =
          rcTokens ((c :: rest).dropWhile (fun x => !isEol x)) :=
        rcTokens_loop_fuel _ _ _ (by omega) (Nat.lt_succ_self _)
      rw [h5]

/-- The run of `ConvertRCFileToArgv` always ends: with an `ArgParseException` exactly when
one of the arguments the scanning extracts is forbidden, and else with those arguments. -/
theorem ConvertRCFileToArgv_outcome (f : File) :
    ConvertRCFileToArgv f ≠ RcOutcome.running ∧
    ((∃ msg, ConvertRCFileToArgv f = RcOutcome.threw msg) ↔
      ∃ a ∈ rcTokens f.data, rcForbidden a) ∧
    (∀ v, ConvertRCFileToArgv f = RcOutcome.returned v →
      v = rcTokens f.data ∧ (∀ a ∈ v, ¬ rcForbidden a) ∧
      ∀ a ∈ v, a ≠ [] ∧ a.head? = some '-') := by
  obtain ⟨h1, h2⟩ := rc_loop_tokens f.name (f.data.length + 1) f.data [] (Nat.lt_succ_self _)
  have hgood : ∀ a : Str, ¬ rcForbidden a → a ≠ [] ∧ a.head? = some '-' := by
    intro a ha
    have hh : a.head? = some '-' := by
      by_contra hne
      exact ha (Or.inr hne)
    refine ⟨?_, hh⟩
    intro he
    rw [he] at hh
    cases hh
  by_cases hex : ∃ a ∈ rcTokens f.data, rcForbidden a
  · obtain ⟨msg, hmsg⟩ := h2 hex
    unfold ConvertRCFileToArgv
    rw [hmsg]
    refine ⟨by simp, ⟨fun _ => hex, fun _ => ⟨msg, rfl⟩⟩, ?_⟩
    intro v hv
    cases hv
  · have hall : ∀ t ∈ rcTokens_loop (f.data.length + 1) f.data, ¬ rcForbidden t :=
      fun t ht hf => hex ⟨t, ht, hf⟩
    have hr := h1 hall
    unfold ConvertRCFileToArgv
    rw [hr]
    refine ⟨by simp, ⟨fun h => (by obtain ⟨msg, h⟩ := h; cases h), fun h => absurd h hex⟩, ?_⟩
    intro v hv
    simp only [List.nil_append, RcOutcome.returned.injEq] at hv
    subst hv
    exact ⟨rfl, hall, fun a ha => hgood a (hall a ha)⟩

theorem splitLines_lf (cs : List Char) : splitLines ('\n' :: cs) = [] :: splitLines cs := by
  cases cs with
  | nil => rfl
  | cons d ds => simp [splitLines]

theorem splitLines_crlf (cs : List Char) :
    splitLines ('\r' :: '\n' :: cs) = [] :: splitLines cs := by
  simp [splitLines]

theorem splitLines_cr (cs : List Char) (h : cs.head? ≠ some '\n') :
    splitLines ('\r' :: cs) = [] :: splitLines cs := by
  cases cs with
  | nil => rfl
  | cons d ds =>
    have hd : d ≠ '\n' := by
      intro he
      apply h
      rw [he]
      rfl
    simp [splitLines, hd]

theorem splitLines_other (c : Char) (cs : List Char) (h : isEol c = false) :
    ∀ l ls, splitLines cs = l :: ls → splitLines (c :: cs) = (c :: l) :: ls := by
  have h1 : c ≠ '\n' := by
    intro he; rw [he] at h; revert h; decide
  have h2 : c ≠ '\r' := by
    intro he; rw [he] at h; revert h; decide
  intro l ls hs
  cases cs with
  | nil =>
    simp only [splitLines, List.cons.injEq] at hs
    obtain ⟨rfl, rfl⟩ := hs
    simp [splitLines, h1, h2]
  | cons d ds =>
    simp only [splitLines, if_neg h1, if_neg h2]
    rw [hs]

theorem splitLines_prefix (q : List Char) (hq : ∀ c ∈ q, isEol c = false) :
    ∀ p l ls, splitLines p = l :: ls → splitLines (q ++ p) = (q ++ l) :: ls := by
  induction q with
  | nil => intro p l ls h; simpa using h
  | cons c q ih =>
    intro p l ls h
    have h1 := ih (fun x hx => hq x (List.mem_cons_of_mem _ hx)) p l ls h
    exact splitLines_other c (q ++ p) (hq c (List.mem_cons_self _ _)) _ _ h1

/-- A text that is empty or starts with a line terminator has an empty first line. -/
theorem splitLines_eol_head (p : List Char)
    (hp : p = [] ∨ ∃ c cs, p = c :: cs ∧ isEol c = true) :
    ∃ tl, splitLines p = [] :: tl := by
  rcases hp with rfl | ⟨c, cs, rfl, hc⟩
  · exact ⟨[], rfl⟩
  · unfold isEol at hc
    simp only [Bool.or_eq_true, decide_eq_true_eq] at hc
    rcases hc with rfl | rfl
    · by_cases h : cs.head? = some '\n'
      · cases cs with
        | nil => cases h
        | cons d ds =>
          simp only [List.head?_cons, Option.some.injEq] at h
          subst h
          exact ⟨_, splitLines_crlf ds⟩
      · exact ⟨_, splitLines_cr cs h⟩
    · exact ⟨_, splitLines_lf cs⟩

theorem lineArg_nil : lineArg [] = none := rfl

theorem rcArgsSpec_line (q p : List Char) (hq : ∀ c ∈ q, isEol c = false)
    (hp : p = [] ∨ ∃ c cs, p = c :: cs ∧ isEol c = true) :
    rcArgsSpec (q ++ p) = (lineArg q).toList ++ rcArgsSpec p := by
  obtain ⟨tl, htl⟩ := splitLines_eol_head p hp
  have h := splitLines_prefix q hq p [] tl htl
  unfold rcArgsSpec
  rw [h, htl, List.append_nil]
  simp only [List.filterMap_cons, lineArg_nil]
  cases lineArg q <;> simp

theorem rcArgsSpec_ws (c : Char) (rest : List Char) (hc : isspace c = true) :
    rcArgsSpec (c :: rest) = rcArgsSpec rest := by
  by_cases he : isEol c = true
  · have h := rcArgsSpec_line [] (c :: rest) (by simp) (Or.inr ⟨c, rest, rfl, he⟩)
    unfold isEol at he
    simp only [Bool.or_eq_true, decide_eq_true_eq] at he
    rcases he with rfl | rfl
    · by_cases h1 : rest.head? = some '\n'
      · cases rest with
        | nil => cases h1
        | cons d ds =>
          simp only [List.head?_cons, Option.some.injEq] at h1
          subst h1
          unfold rcArgsSpec
          rw [splitLines_crlf, splitLines_lf]
      · unfold rcArgsSpec
        rw [splitLines_cr rest h1]
        simp [lineArg_nil]
    · unfold rcArgsSpec
      rw [splitLines_lf]
      simp [lineArg_nil]
  · have he : isEol c = false := by simpa using he
    obtain ⟨l, ls, hl⟩ : ∃ l ls, splitLines rest = l :: ls := by
      cases hs : splitLines rest with
      | nil =>
        exfalso
        cases rest with
        | nil => simp [splitLines] at hs
        | cons d ds =>
          cases ds with
          | nil =>
            simp only [splitLines] at hs
            split at hs <;> cases hs
          | cons e es =>
            simp only [splitLines] at hs
            split at hs
            · cases hs
            · split at hs
              · split at hs <;> cases hs
              · split at hs <;> cases hs
      | cons l ls => exact ⟨l, ls, rfl⟩
    unfold rcArgsSpec
    rw [splitLines_other c rest he l ls hl, hl]
    simp only [List.filterMap_cons]
    have : lineArg (c :: l) = lineArg l := by
      unfold lineArg
      rw [List.dropWhile_cons_of_pos hc]
    rw [this]

theorem rcArgsSpec_dropWhile (text : List Char) :
    rcArgsSpec text = rcArgsSpec (text.dropWhile isspace) := by
  induction text with
  | nil => rfl
  | cons c rest ih =>
    by_cases hc : isspace c = true
    · rw [List.dropWhile_cons_of_pos hc, rcArgsSpec_ws c rest hc, ih]
    · rw [List.dropWhile_cons_of_neg hc]

theorem crOnlyBeforeLf_append (a b : List Char) (h : crOnlyBeforeLf (a ++ b) = true) :
    crOnlyBeforeLf b = true := by
  induction a with
  | nil => simpa using h
  | cons c cs ih =>
    simp only [List.cons_append, crOnlyBeforeLf, Bool.and_eq_true] at h
    exact ih h.2

theorem crOnlyBeforeLf_dropWhile (p : Char → Bool) (text : List Char)
    (h : crOnlyBeforeLf text = true) : crOnlyBeforeLf (text.dropWhile p) = true :=
  crOnlyBeforeLf_append (text.takeWhile p) _ (by rw [List.takeWhile_append_dropWhile]; exact h)

theorem c_str_of_no_nul (x : List Char) (h : NUL ∉ x) : c_str x = x := by
  unfold c_str
  rw [List.takeWhile_eq_self_iff]
  intro c hc
  simp only [ne_eq, decide_not, Bool.not_eq_true', decide_eq_false_iff_not]
  intro he
  exact h (he ▸ hc)

theorem dropWhile_append_all (p : Char → Bool) (a b : List Char) (h : ∀ x ∈ a, p x = true) :
    (a ++ b).dropWhile p = b.dropWhile p := by
  induction a with
  | nil => rfl
  | cons c cs ih =>
    rw [List.cons_append, List.dropWhile_cons_of_pos (h c (List.mem_cons_self _ _))]
    exact ih (fun x hx => h x (List.mem_cons_of_mem _ hx))

theorem rcTokens_nil : rcTokens [] = [] := rfl

theorem rcArgsSpec_nil : rcArgsSpec [] = [] := rfl

/-- Where every `\r` is followed by `\n`, the scanning of the code and the line-by-line
reading agree: the code extracts, as C strings, the arguments the lines stand for. -/
theorem rcTokens_eq_rcArgsSpec : ∀ (n : Nat) (text : List Char), text.length ≤ n →
    crOnlyBeforeLf text = true → rcTokens text = (rcArgsSpec text).map c_str := by
  intro n
  induction n with
  | zero =>
    intro text hlen _
    have : text = [] := List.length_eq_zero.mp (by omega)
    subst this
    rfl
  | succ n ih =>
    intro text hlen hpt
    rw [rcTokens_unfold, rcArgsSpec_dropWhile text]
    have hpt' := crOnlyBeforeLf_dropWhile isspace text hpt
    have hle := (List.dropWhile_suffix isspace (l := text)).length_le
    cases ht : text.dropWhile isspace with
    | nil => rfl
    | cons c rest =>
      rw [ht] at hpt' hle
      have hc := (dropWhile_cons_head ht).1
      have hce := isspace_false_not_eol hc
      have hsplit := List.takeWhile_append_dropWhile (fun x => !isEol x) (c :: rest)
      have hqall : ∀ x ∈ (c :: rest).takeWhile (fun x => !isEol x), isEol x = false := by
        intro x hx
        have := List.mem_takeWhile_imp hx
        simpa using this
      have hqc : (c :: rest).takeWhile (fun x => !isEol x) =
          c :: rest.takeWhile (fun x => !isEol x) := by
        rw [List.takeWhile_cons_of_pos (by simp [hce])]
      have hphead : (c :: rest).dropWhile (fun x => !isEol x) = [] ∨
          ∃ e cs, (c :: rest).dropWhile (fun x => !isEol x) = e :: cs ∧ isEol e = true := by
        cases hp : (c :: rest).dropWhile (fun x => !isEol x) with
        | nil => exact Or.inl rfl
        | cons e cs =>
          have := (dropWhile_cons_head hp).1
          exact Or.inr ⟨e, cs, rfl, by simpa using this⟩
      have hplen : ((c :: rest).dropWhile (fun x => !isEol x)).length ≤ n := by
        have h1 := congrArg List.length hsplit
        rw [List.length_append, hqc] at h1
        simp only [List.length_cons] at h1 hle hlen
        omega
      have hptp : crOnlyBeforeLf ((c :: rest).dropWhile (fun x => !isEol x)) = true :=
        crOnlyBeforeLf_dropWhile _ _ hpt'
      have hspec := rcArgsSpec_line _ _ hqall hphead
      rw [hsplit] at hspec
      have hline : lineArg ((c :: rest).takeWhile (fun x => !isEol x)) =
          if c = '#' then none else some ((c :: rest).takeWhile (fun x => !isEol x)) := by
        rw [hqc]
        unfold lineArg
        rw [List.dropWhile_cons_of_neg (by simp [hc])]
      rw [hspec, hline]
      by_cases hhash : c = '#'
      · simp only [hhash, if_true, Option.toList_none, List.nil_append]
        rw [← hhash]
        have hdrop : (c :: rest).dropWhile (fun x => x ≠ '\n') =
            ((c :: rest).dropWhile (fun x => !isEol x)).dropWhile (fun x => x ≠ '\n') := by
          conv_lhs => rw [← hsplit]
          apply dropWhile_append_all
          intro x hx
          have := hqall x hx
          unfold isEol at this
          simp only [Bool.or_eq_false_iff, decide_eq_false_iff_not] at this
          simpa using this.2
        rw [hdrop]
        rcases hphead with hp | ⟨e, cs, hp, he⟩
        · rw [hp]
          rfl
        · rw [hp] at hplen hptp ⊢
          unfold isEol at he
          simp only [Bool.or_eq_true, decide_eq_true_eq] at he
          rcases he with rfl | rfl
          · have hcr := hptp
            simp only [crOnlyBeforeLf, Bool.and_eq_true] at hcr
            have hhead : cs.head? = some '\n' := by simpa using hcr.1
            cases cs with
            | nil => cases hhead
            | cons d ds =>
              simp only [List.head?_cons, Option.some.injEq] at hhead
              subst hhead
              have h1 : ('\r' :: '\n' :: ds).dropWhile (fun x => x ≠ '\n') = '\n' :: ds := by
                simp [List.dropWhile]
              rw [h1, rcArgsSpec_ws '\r' _ (by decide)]
              apply ih
              · simp only [List.length_cons] at hplen ⊢
                omega
              · exact crOnlyBeforeLf_append ['\r'] _ hptp
          · have h1 : ('\n' :: cs).dropWhile (fun x => x ≠ '\n') = '\n' :: cs := by
              simp [List.dropWhile]
            rw [h1]
            exact ih _ hplen hptp
      · simp only [hhash, if_false, Option.toList_some, List.singleton_append, List.map_cons]
        rw [ih _ hplen hptp]

theorem rcTokens_loop_clean : ∀ (fuel : Nat) (pos : List Char), ∀ a ∈ rcTokens_loop fuel pos,
    (∀ x ∈ a, isEol x = false) ∧ NUL ∉ a := by
  intro fuel
  induction fuel with
  | zero => intro pos a ha; simp [rcTokens_loop] at ha
  | succ n ih =>
    intro pos a ha
    simp only [rcTokens_loop] at ha
    split at ha
    · simp at ha
    · split at ha
      · exact ih _ a ha
      · rcases List.mem_cons.mp ha with rfl | h
        · constructor
          · intro x hx
            have h1 : x ∈ List.takeWhile (fun x => !isEol x) _ :=
              (List.takeWhile_sublist _).subset hx
            have := List.mem_takeWhile_imp h1
            simpa using this
          · intro hx
            have := List.mem_takeWhile_imp hx
            simp at this
        · exact ih _ a h

theorem rcTokens_ws (c : Char) (rest : List Char) (hc : isspace c = true) :
    rcTokens (c :: rest) = rcTokens rest := by
  rw [rcTokens_unfold (c :: rest), rcTokens_unfold rest, List.dropWhile_cons_of_pos hc]

theorem takeWhile_append_stop (p : Char → Bool) (a : List Char) (b : Char) (rest : List Char)
    (ha : ∀ x ∈ a, p x = true) (hb : p b = false) : (a ++ b :: rest).takeWhile p = a := by
  induction a with
  | nil => simp [List.takeWhile, hb]
  | cons c cs ih =>
    rw [List.cons_append, List.takeWhile_cons_of_pos (ha c (List.mem_cons_self _ _)),
      ih (fun x hx => ha x (List.mem_cons_of_mem _ hx))]

theorem rcTokens_line (a rest : List Char) (hhead : a.head? = some '-')
    (heol : ∀ x ∈ a, isEol x = false) (hnul : NUL ∉ a) :
    rcTokens (a ++ '\n' :: rest) = a :: rcTokens rest := by
  cases a with
  | nil => cases hhead
  | cons c cs =>
    simp only [List.head?_cons, Option.some.injEq] at hhead
    subst hhead
    have hp : ∀ x ∈ '-' :: cs, (fun x => !isEol x) x = true := by
      intro x hx
      simp [heol x hx]
    have htake := takeWhile_append_stop (fun x => !isEol x) ('-' :: cs) '\n' rest hp (by decide)
    have hdrop : (('-' :: cs) ++ '\n' :: rest).dropWhile (fun x => !isEol x) = '\n' :: rest := by
      rw [dropWhile_append_all _ _ _ hp, List.dropWhile_cons_of_neg (by decide)]
    rw [rcTokens_unfold, List.cons_append, List.dropWhile_cons_of_neg (by decide)]
    simp only [show ¬ ('-' = '#') by decide, if_false]
    rw [← List.cons_append, htake, hdrop, c_str_of_no_nul _ hnul,
      rcTokens_ws '\n' rest (by decide)]

theorem rcTokens_serialize (v : List Str)
    (h : ∀ a ∈ v, a.head? = some '-' ∧ (∀ x ∈ a, isEol x = false) ∧ NUL ∉ a) :
    rcTokens (rcSerialize v) = v := by
  induction v with
  | nil => rfl
  | cons a rest ih =>
    obtain ⟨h1, h2, h3⟩ := h a (List.mem_cons_self _ _)
    simp only [rcSerialize]
    rw [rcTokens_line a _ h1 h2 h3, ih (fun b hb => h b (List.mem_cons_of_mem _ hb))]

theorem rcArgsSpec_mem (text : List Char) (a : Str) :
    a ∈ rcArgsSpec text ↔ ∃ l ∈ splitLines text, lineArg l = some a := by
  unfold rcArgsSpec
  rw [List.mem_filterMap]

theorem lineArg_some (l : List Char) (a : Str) (h : lineArg l = some a) :
    a = l.dropWhile isspace ∧ a.head? ≠ some '#' := by
  unfold lineArg at h
  split at h
  · cases h
  · rename_i c rest heq
    split at h
    · cases h
    · rename_i hc
      simp only [Option.some.injEq] at h
      subst h
      rw [heq]
      refine ⟨rfl, ?_⟩
      simpa using hc

/-- C16 (as stated) fails on files with a `\r` that no `\n` follows. On `#c` `--` with
lines ended by `\r` alone the comment runs to the end of the file and the line `--` is
never seen: the file is accepted. On the one line `-a\rb` ended by `\n` the argument ends
at the `\r` and `b` is taken for a second one: the file is refused although its line
begins with `-`. -/
theorem ConvertRCFileToArgv_lone_cr_hides_double_dash :
    ConvertRCFileToArgv demoRcCommentThenDashDash = RcOutcome.returned [] ∧
    splitLines demoRcCommentThenDashDash.data = ["#c".toList, "--".toList, []] ∧
    lineArg "--".toList = some "--".toList ∧
    ConvertRCFileToArgv demoRcCrInsideLine =
      RcOutcome.threw
        "Non-option argument \"b\" is not allowed in rc file \".ucgrc\".".toList ∧
    ¬ (∀ f : File, (∃ msg, ConvertRCFileToArgv f = RcOutcome.threw msg) ↔
        ∃ l ∈ splitLines f.data, ∃ a, lineArg l = some a ∧ rcForbidden (c_str a)) := by
  refine ⟨by decide, by decide, by decide, by decide, ?_⟩
  intro h
  obtain ⟨msg, hmsg⟩ := (h demoRcCommentThenDashDash).mpr
    ⟨"--".toList, by decide, "--".toList, by decide, Or.inl (by decide)⟩
  have hr : ConvertRCFileToArgv demoRcCommentThenDashDash = RcOutcome.returned [] := by
    decide
  rw [hr] at hmsg
  cases hmsg

/-- C16 (amended): `ConvertRCFileToArgv` always ends; on a file whose every `\r` is followed
by `\n` it throws an `ArgParseException` if and only if some line that is neither blank nor
a comment yields an argument (the line without its leading whitespace, as a C string) that
is `--` or does not begin with `-`; and whenever it returns, every returned argument is
non-empty and begins with `-`. -/
theorem ConvertRCFileToArgv_fails_iff (f : File) :
    ConvertRCFileToArgv f ≠ RcOutcome.running ∧
    (crOnlyBeforeLf f.data = true →
      ((∃ msg, ConvertRCFileToArgv f = RcOutcome.threw msg) ↔
        ∃ l ∈ splitLines f.data, ∃ a, lineArg l = some a ∧ rcForbidden (c_str a))) ∧
    (∀ v, ConvertRCFileToArgv f = RcOutcome.returned v →
      ∀ a ∈ v, a ≠ [] ∧ a.head? = some '-') := by
  obtain ⟨h1, h2, h3⟩ := ConvertRCFileToArgv_outcome f
  refine ⟨h1, ?_, fun v hv => (h3 v hv).2.2⟩
  intro hcr
  rw [h2, rcTokens_eq_rcArgsSpec _ _ (le_refl _) hcr]
  constructor
  · intro h
    obtain ⟨a, ha, hf⟩ := h
    obtain ⟨b, hb, rfl⟩ := List.mem_map.mp ha
    obtain ⟨l, hl, hlb⟩ := (rcArgsSpec_mem _ _).mp hb
    exact ⟨l, hl, b, hlb, hf⟩
  · intro h
    obtain ⟨l, hl, b, hlb, hf⟩ := h
    exact ⟨c_str b, List.mem_map.mpr ⟨b, (rcArgsSpec_mem _ _).mpr ⟨l, hl, hlb⟩, rfl⟩, hf⟩

theorem ConvertRCFileToArgv_fails_iff_witness :
    crOnlyBeforeLf demoRcDashDash.data = true ∧
    ∃ msg, ConvertRCFileToArgv demoRcDashDash = RcOutcome.threw msg :=
  ⟨by decide,
    ((ConvertRCFileToArgv_fails_iff demoRcDashDash).2.1 (by decide)).2
      ⟨"--".toList, by decide, "--".toList, by decide, Or.inl (by decide)⟩⟩

/-- C17 (as stated) fails on the rc file with the one line `-i ` ended by `\n`: the file is
accepted and the argument returned is `-i ` with its trailing space. -/
theorem ConvertRCFileToArgv_keeps_trailing_whitespace :
    ConvertRCFileToArgv demoRcTrailing = RcOutcome.returned ["-i ".toList] ∧
    ¬ (∀ (f : File) (v : List Str), ConvertRCFileToArgv f = RcOutcome.returned v →
        ∀ a ∈ v, ∀ c, a.getLast? = some c → isspace c = false) := by
  refine ⟨by decide, ?_⟩
  intro h
  have := h demoRcTrailing ["-i ".toList] (by decide) "-i ".toList (by decide) ' ' (by decide)
  revert this
  decide

/-- C17 (amended): every argument that `ConvertRCFileToArgv` returns begins with a
character that is not whitespace and holds no `\r` and no `\n`; in a file whose every `\r`
is followed by `\n` it is the text of a line with the leading whitespace removed (as a C
string), whatever whitespace the line ends with. -/
theorem ConvertRCFileToArgv_leading_whitespace_removed (f : File) (v : List Str)
    (h : ConvertRCFileToArgv f = RcOutcome.returned v) :
    (∀ a ∈ v, ∃ c rest, a = c :: rest ∧ isspace c = false) ∧
    (∀ a ∈ v, ∀ x ∈ a, isEol x = false) ∧
    (crOnlyBeforeLf f.data = true →
      ∀ a ∈ v, ∃ l ∈ splitLines f.data, a = c_str (l.dropWhile isspace)) := by
  obtain ⟨-, -, h3⟩ := ConvertRCFileToArgv_outcome f
  obtain ⟨hv, -, hhead⟩ := h3 v h
  refine ⟨?_, ?_, ?_⟩
  · intro a ha
    obtain ⟨hne, hd⟩ := hhead a ha
    cases a with
    | nil => exact absurd rfl hne
    | cons c rest =>
      simp only [List.head?_cons, Option.some.injEq] at hd
      subst hd
      exact ⟨'-', rest, rfl, by decide⟩
  · intro a ha
    rw [hv] at ha
    exact (rcTokens_loop_clean _ _ a ha).1
  · intro hcr a ha
    rw [hv, rcTokens_eq_rcArgsSpec _ _ (le_refl _) hcr] at ha
    obtain ⟨b, hb, rfl⟩ := List.mem_map.mp ha
    obtain ⟨l, hl, hlb⟩ := (rcArgsSpec_mem _ _).mp hb
    exact ⟨l, hl, by rw [(lineArg_some l b hlb).1]⟩

theorem ConvertRCFileToArgv_leading_whitespace_removed_witness :
    ConvertRCFileToArgv demoRcFile = RcOutcome.returned ["-i".toList, "--type=cpp".toList] ∧
    ∀ a ∈ ["-i".toList, "--type=cpp".toList], ∃ c rest, a = c :: rest ∧ isspace c = false :=
  ⟨by decide,
    (ConvertRCFileToArgv_leading_whitespace_removed demoRcFile
      ["-i".toList, "--type=cpp".toList] (by decide)).1⟩

/-- C18 (as stated) fails on the rc file `#c` `-i` whose lines end in `\r` alone: the
comment runs to the next `\n`, which never comes, and the line `-i` yields no argument.
(Were `\n` the only line terminator, the one line `-a\r-b` would yield two arguments.) -/
theorem ConvertRCFileToArgv_lone_cr_comment :
    ConvertRCFileToArgv demoRcLoneCr = RcOutcome.returned [] ∧
    splitLines demoRcLoneCr.data = ["#c".toList, "-i".toList, []] ∧
    rcArgsSpec demoRcLoneCr.data = ["-i".toList] ∧
    ConvertRCFileToArgv { name := ".ucgrc".toList, data := "-a\r-b\n".toList } =
      RcOutcome.returned ["-a".toList, "-b".toList] ∧
    ¬ (∀ (f : File) (v : List Str), ConvertRCFileToArgv f = RcOutcome.returned v →
        v.length = (rcArgsSpec f.data).length) := by
  refine ⟨by decide, by decide, by decide, by decide, ?_⟩
  intro h
  have := h demoRcLoneCr [] (by decide)
  revert this
  decide

/-- C18 (amended): for every rc file whose lines end in `\n` or `\r\n` (every `\r` is
followed by `\n`) and that `ConvertRCFileToArgv` accepts, the returned vector has exactly
one argument per line that is neither blank nor a comment, in file order: the line without
its leading whitespace, as a C string. -/
theorem ConvertRCFileToArgv_one_argument_per_line (f : File) (v : List Str)
    (hcr : crOnlyBeforeLf f.data = true)
    (h : ConvertRCFileToArgv f = RcOutcome.returned v) :
    v = ((splitLines f.data).filterMap lineArg).map c_str ∧
    v.length = (rcArgsSpec f.data).length := by
  obtain ⟨-, -, h3⟩ := ConvertRCFileToArgv_outcome f
  obtain ⟨hv, -, -⟩ := h3 v h
  have := rcTokens_eq_rcArgsSpec _ _ (le_refl _) hcr
  rw [← hv] at this
  refine ⟨this, ?_⟩
  rw [this, List.length_map]

theorem ConvertRCFileToArgv_one_argument_per_line_witness :
    crOnlyBeforeLf demoRcFile.data = true ∧
    splitLines demoRcFile.data =
      ["# c".toList, "  -i".toList, [], "--type=cpp".toList, []] ∧
    ["-i".toList, "--type=cpp".toList] =
      ((splitLines demoRcFile.data).filterMap lineArg).map c_str :=
  ⟨by decide, by decide,
    (ConvertRCFileToArgv_one_argument_per_line demoRcFile
      ["-i".toList, "--type=cpp".toList] (by decide) (by decide)).1⟩

/-- C19: round trip of the rc parser: when `ConvertRCFileToArgv` returns the vector `v` on
some rc file, it returns `v` again on the text that holds the elements of `v` one per
line. -/
theorem ConvertRCFileToArgv_round_trip (f : File) (v : List Str) (name : Str)
    (h : ConvertRCFileToArgv f = RcOutcome.returned v) :
    ConvertRCFileToArgv { name := name, data := rcSerialize v } = RcOutcome.returned v := by
  obtain ⟨-, -, h3⟩ := ConvertRCFileToArgv_outcome f
  obtain ⟨hv, hok, hhead⟩ := h3 v h
  have hclean : ∀ a ∈ v, a.head? = some '-' ∧ (∀ x ∈ a, isEol x = false) ∧ NUL ∉ a := by
    intro a ha
    have hc := rcTokens_loop_clean _ _ a (hv ▸ ha)
    exact ⟨(hhead a ha).2, hc.1, hc.2⟩
  have htok := rcTokens_serialize v hclean
  obtain ⟨g1, g2, g3⟩ := ConvertRCFileToArgv_outcome { name := name, data := rcSerialize v }
  cases hr : ConvertRCFileToArgv { name := name, data := rcSerialize v } with
  | returned w =>
    have := (g3 w hr).1
    simp only [htok] at this
    rw [this]
  | threw msg =>
    exfalso
    obtain ⟨a, ha, hf⟩ := g2.mp ⟨msg, hr⟩
    simp only [htok] at ha
    exact hok a ha hf
  | running => exact absurd hr g1

theorem ConvertRCFileToArgv_round_trip_witness :
    ConvertRCFileToArgv demoRcFile = RcOutcome.returned ["-i".toList, "--type=cpp".toList] ∧
    rcSerialize ["-i".toList, "--type=cpp".toList] = "-i\n--type=cpp\n".toList ∧
    ConvertRCFileToArgv
      { name := "copy".toList, data := rcSerialize ["-i".toList, "--type=cpp".toList] } =
      RcOutcome.returned ["-i".toList, "--type=cpp".toList] :=
  ⟨by decide, by decide,
    ConvertRCFileToArgv_round_trip demoRcFile ["-i".toList, "--type=cpp".toList]
      "copy".toList (by decide)⟩

/-! ## Properties of parse_opt and Parse -/

theorem parse_opt_OPT_TYPE {TM : Type} (pext : ParseOptExternals TM) (arg : Str)
    (state : argp_state) (a : ArgParse TM) :
    parse_opt pext OPT_TYPE arg state a =
      if arg.take 2 = "no".toList then
        parse_opt_type a state (arg.drop 2) (pext.notype a.m_type_manager (arg.drop 2))
      else parse_opt_type a state arg (pext.type a.m_type_manager arg) := by
  rfl

/-- Only the key `OPT_TYPE` makes `parse_opt` touch the type manager. -/
theorem parse_opt_type_manager_unchanged {TM : Type} (pext : ParseOptExternals TM) (k : Int)
    (arg : Str) (state : argp_state) (a a1 : ArgParse TM) (state1 : argp_state)
    (effects : List ParseEffect) (hk : k ≠ OPT_TYPE)
    (h : parse_opt pext k arg state a = ParseOptResult.ok a1 state1 effects) :
    a1.m_type_manager = a.m_type_manager := by
  have key_fact : (parse_opt pext k arg state a).typeManagerOr a.m_type_manager =
      a.m_type_manager := by
    unfold parse_opt
    simp only [apply_ite (ParseOptResult.typeManagerOr a.m_type_manager)]
    simp only [ParseOptResult.typeManagerOr, if_neg hk, ite_self]
  rw [h] at key_fact
  exact key_fact

/-- C12 (as stated) fails for a type name that begins with `no`. With the types `notes` and
`tes` registered, `--notes` matches `notes` alone and is rewritten to `--type=notes`, and
`parse_opt`, which takes the leading `no` of the argument of `--type` for the negation,
calls `notype` with `tes`. With the types `tes` and `notesx`, `--notes`, which is `--no`
before `tes`, matches `notesx` and leads to `notype` with `tesx`. -/
theorem type_option_beginning_with_no :
    (logExternals ["notes".toList, "tes".toList]).GetMatchingTypenameList [] "notes".toList =
      ["notes".toList] ∧
    (HandleTYPELogic (logExternals ["notes".toList, "tes".toList]) []
        ["ucg".toList, "--notes".toList, "pat".toList]).v =
      ["ucg".toList, "--type=notes".toList, "pat".toList] ∧
    parse_opt (logParseOptExternals ["notes".toList, "tes".toList]) OPT_TYPE "notes".toList
        (demoState ["ucg".toList, "--type=notes".toList, "pat".toList]) (demoArgParse []) =
      ParseOptResult.ok (demoArgParse [TMCall.notype "tes".toList])
        (demoState ["ucg".toList, "--type=notes".toList, "pat".toList]) [] ∧
    (logExternals ["tes".toList, "notesx".toList]).GetMatchingTypenameList [] "tes".toList =
      ["tes".toList] ∧
    (HandleTYPELogic (logExternals ["tes".toList, "notesx".toList]) []
        ["ucg".toList, "--notes".toList, "pat".toList]).v =
      ["ucg".toList, "--type=notesx".toList, "pat".toList] ∧
    parse_opt (logParseOptExternals ["tes".toList, "notesx".toList]) OPT_TYPE
        "notesx".toList
        (demoState ["ucg".toList, "--type=notesx".toList, "pat".toList]) (demoArgParse []) =
      ParseOptResult.argp_failure 255 "Unknown type 'tesx'.".toList := by
  decide

/-- C12 (amended): for a non-empty type name `NAME` that does not begin with `no` and that
`GetMatchingTypenameList` matches to `[NAME]`, the loop body of `HandleTYPELogic` rewrites
`--NAME` to `--type=NAME`, the option `type` of the table has the key `OPT_TYPE`, and
`parse_opt` with that key and `NAME` makes the call `type(NAME)` and no other: it fails
with `Unknown type` when the call returns false and else keeps the type manager the call
left. For any `NAME` matched to `[NAME]`, when nothing matches `noNAME`, `--noNAME` is
rewritten to `--type=noNAME` and `parse_opt` makes the call `notype(NAME)`. -/
theorem type_option_calls_type {TM : Type} (ext : Externals TM) (pext : ParseOptExternals TM)
    (tm : TM) (a : ArgParse TM) (state : argp_state) (NAME : Str)
    (huniq : ext.GetMatchingTypenameList tm NAME = [NAME]) :
    (find_option "type".toList).map argp_option.key = some OPT_TYPE ∧
    (NAME ≠ [] → NAME.take 2 ≠ "no".toList →
      HandleTYPELogic_arg ext tm ("--".toList ++ NAME) =
        ArgStep.next ("--type=".toList ++ NAME) tm ∧
      parse_opt pext OPT_TYPE NAME state a =
        parse_opt_type a state NAME (pext.type a.m_type_manager NAME)) ∧
    (ext.GetMatchingTypenameList tm ("no".toList ++ NAME) = [] →
      HandleTYPELogic_arg ext tm ("--".toList ++ ("no".toList ++ NAME)) =
        ArgStep.next ("--type=no".toList ++ NAME) tm ∧
      parse_opt pext OPT_TYPE ("no".toList ++ NAME) state a =
        parse_opt_type a state NAME (pext.notype a.m_type_manager NAME)) := by
  refine ⟨by decide, ?_, ?_⟩
  · intro hne hno
    have hlen : 3 ≤ ("--".toList ++ NAME).length := by
      cases NAME with
      | nil => exact absurd rfl hne
      | cons c cs => simp
    refine ⟨HandleTYPELogic_arg_type ext tm NAME NAME hlen huniq, ?_⟩
    rw [parse_opt_OPT_TYPE, if_neg hno]
  · intro h0
    refine ⟨HandleTYPELogic_arg_notype ext tm NAME NAME h0 huniq, ?_⟩
    rw [parse_opt_OPT_TYPE]
    have h1 : ("no".toList ++ NAME).take 2 = "no".toList := rfl
    have h2 : ("no".toList ++ NAME).drop 2 = NAME := rfl
    rw [if_pos h1, h2]

theorem type_option_calls_type_witness :
    (HandleTYPELogic_arg (logExternals ["cpp".toList, "python".toList]) [] "--cpp".toList =
        ArgStep.next "--type=cpp".toList [] ∧
      parse_opt (logParseOptExternals ["cpp".toList, "python".toList]) OPT_TYPE "cpp".toList
          (demoState ["ucg".toList, "--type=cpp".toList, "pat".toList]) (demoArgParse []) =
        ParseOptResult.ok (demoArgParse [TMCall.type "cpp".toList])
          (demoState ["ucg".toList, "--type=cpp".toList, "pat".toList]) []) ∧
    (HandleTYPELogic_arg (logExternals ["cpp".toList, "python".toList]) [] "--nocpp".toList =
        ArgStep.next "--type=nocpp".toList [] ∧
      parse_opt (logParseOptExternals ["cpp".toList, "python".toList]) OPT_TYPE
          "nocpp".toList
          (demoState ["ucg".toList, "--type=nocpp".toList, "pat".toList]) (demoArgParse []) =
        ParseOptResult.ok (demoArgParse [TMCall.notype "cpp".toList])
          (demoState ["ucg".toList, "--type=nocpp".toList, "pat".toList]) []) :=
  ⟨(type_option_calls_type (logExternals ["cpp".toList, "python".toList])
      (logParseOptExternals ["cpp".toList, "python".toList]) [] (demoArgParse [])
      (demoState ["ucg".toList, "--type=cpp".toList, "pat".toList]) "cpp".toList
      (by decide)).2.1 (by decide) (by decide),
    (type_option_calls_type (logExternals ["cpp".toList, "python".toList])
      (logParseOptExternals ["cpp".toList, "python".toList]) [] (demoArgParse [])
      (demoState ["ucg".toList, "--type=nocpp".toList, "pat".toList]) "cpp".toList
      (by decide)).2.2 (by decide)⟩

/-- C14 on `ucg --type-add cpp:ext:txt pat`: `HandleTYPELogic` makes no call of the type
manager and leaves the vector as it is, the option `type-add` of the table takes an
argument and has the key `OPT_TYPE_ADD`, and `parse_opt` with that key and the rule
returns 0 with nothing changed; for `ucg --type-add=cpp:ext:txt pat` `HandleTYPELogic`
makes the call `TypeAddFromFilterSpecString(false, "cpp:ext:txt")`. -/
theorem type_add_separate_argument_ignored :
    (HandleTYPELogic (logExternals ["cpp".toList]) [] demoArgvTypeAddSeparate).tm = [] ∧
    (HandleTYPELogic (logExternals ["cpp".toList]) [] demoArgvTypeAddSeparate).v =
      demoArgvTypeAddSeparate ∧
    (HandleTYPELogic (logExternals ["cpp".toList]) [] demoArgvTypeAddSeparate).thrown = none ∧
    find_option "type-add".toList =
      some ⟨some "type-add".toList, OPT_TYPE_ADD, some "TYPE:FILTER:FILTERARGS".toList, 0⟩ ∧
    parse_opt (logParseOptExternals ["cpp".toList]) OPT_TYPE_ADD "cpp:ext:txt".toList
        (demoState demoArgvTypeAddSeparate) (demoArgParse []) =
      ParseOptResult.ok (demoArgParse []) (demoState demoArgvTypeAddSeparate) [] ∧
    (HandleTYPELogic (logExternals ["cpp".toList]) [] demoArgvTypeAddJoined).tm =
      [TMCall.TypeAddFromFilterSpecString false "cpp:ext:txt".toList] := by
  decide

theorem Parse_defaults_fields {TM : Type} (hc : Nat) (a : ArgParse TM) :
    (Parse_defaults hc a).m_pattern = a.m_pattern ∧
    (Parse_defaults hc a).m_smart_case = a.m_smart_case ∧
    (Parse_defaults hc a).m_ignore_case =
      (if a.m_smart_case = true ∧ a.m_ignore_case = false then
        (if a.m_pattern.find? isupper = none then true else false)
      else a.m_ignore_case) := by
  unfold Parse_defaults
  by_cases h1 : a.m_jobs = 0 <;> by_cases h2 : (hc : Int) = 0 <;>
    by_cases h3 : a.m_dirjobs = 0 <;> by_cases h4 : a.m_paths = [] <;>
    by_cases h5 : a.m_smart_case = true <;> by_cases h6 : a.m_ignore_case = false <;>
    by_cases h7 : a.m_pattern.find? isupper = none <;>
    simp [h1, h2, h3, h4, h5, h6, h7]

/-- C20: when smart-case is on and ignore-case is off after option processing, the last
part of `Parse` leaves ignore-case on if and only if the pattern holds no uppercase
character; in every other case it leaves ignore-case as it was. -/
theorem Parse_smart_case {TM : Type} (hardware_concurrency : Nat) (a : ArgParse TM) :
    (a.m_smart_case = true → a.m_ignore_case = false →
      ((Parse_defaults hardware_concurrency a).m_ignore_case = true ↔
        ∀ c ∈ a.m_pattern, isupper c = false)) ∧
    (¬ (a.m_smart_case = true ∧ a.m_ignore_case = false) →
      (Parse_defaults hardware_concurrency a).m_ignore_case = a.m_ignore_case) := by
  have h := (Parse_defaults_fields hardware_concurrency a).2.2
  constructor
  · intro hs hi
    rw [h, if_pos ⟨hs, hi⟩]
    constructor
    · intro hf c hc
      by_cases hn : a.m_pattern.find? isupper = none
      · have := List.find?_eq_none.mp hn c hc
        simpa using this
      · rw [if_neg hn] at hf
        cases hf
    · intro hall
      have hn : a.m_pattern.find? isupper = none := by
        rw [List.find?_eq_none]
        intro c hc
        simp [hall c hc]
      rw [if_pos hn]
  · intro hn
    rw [h, if_neg hn]

theorem Parse_smart_case_witness :
    ¬ ((Parse_defaults 4 { demoArgParse [] with m_pattern := "Foo".toList }).m_ignore_case =
        true) ∧
    (Parse_defaults 4 { demoArgParse [] with m_pattern := "foo".toList }).m_ignore_case =
      true :=
  ⟨fun h =>
    absurd
      (((Parse_smart_case 4 { demoArgParse [] with m_pattern := "Foo".toList }).1
        (by decide) (by decide)).mp h 'F' (by decide))
      (by decide),
    ((Parse_smart_case 4 { demoArgParse [] with m_pattern := "foo".toList }).1
      (by decide) (by decide)).mpr (by decide)⟩

/-! ## Properties of the compiled pattern -/

/-- C22: for every user pattern `P`, the string the constructor compiles is obtained by the
three steps of the spec in their order (`\Q` `\E` in literal mode, then `\b(?:` `)\b` in
word-regexp mode, then `(?:` `)(?=.*?$)(?C1)`); with both modes off it is exactly
`(?:P)(?=.*?$)(?C1)`. -/
theorem FileScannerPCRE2_regex_eq_spec (P : Str) (word_regexp literal : Bool) :
    FileScannerPCRE2_regex P word_regexp literal = compiledSpec P word_regexp literal ∧
    FileScannerPCRE2_regex P false false = "(?:".toList ++ P ++ ")(?=.*?$)(?C1)".toList ∧
    FileScannerPCRE2_regex P false true =
      "(?:".toList ++ ("\\Q".toList ++ P ++ "\\E".toList) ++ ")(?=.*?$)(?C1)".toList ∧
    FileScannerPCRE2_regex P true false =
      "(?:".toList ++ ("\\b(?:".toList ++ P ++ ")\\b".toList) ++ ")(?=.*?$)(?C1)".toList ∧
    FileScannerPCRE2_regex P true true =
      "(?:".toList ++ ("\\b(?:".toList ++ ("\\Q".toList ++ P ++ "\\E".toList) ++
        ")\\b".toList) ++ ")(?=.*?$)(?C1)".toList := by
  refine ⟨?_, rfl, rfl, rfl, rfl⟩
  cases word_regexp <;> cases literal <;> rfl

/-- C27 on the pattern `a\E.` in literal mode: the compiled string is
`(?:\Qa\E.\E)(?=.*?$)(?C1)`, and the quotation opened by its `\Q` ends at the first `\E`,
the one inside the pattern: it holds `a` only, and the `.` of the pattern comes after it. -/
theorem FileScannerPCRE2_regex_literal_with_backslash_E :
    FileScannerPCRE2_regex "a\\E.".toList false true =
      "(?:\\Qa\\E.\\E)(?=.*?$)(?C1)".toList ∧
    FileScannerPCRE2_regex "a\\E.".toList false true =
      "(?:\\Q".toList ++ ("a\\E.".toList ++ "\\E)(?=.*?$)(?C1)".toList) ∧
    beforeFirstBackslashE ("a\\E.".toList ++ "\\E)(?=.*?$)(?C1)".toList) = "a".toList ∧
    beforeFirstBackslashE ("a\\E.".toList ++ "\\E)(?=.*?$)(?C1)".toList) ≠ "a\\E.".toList ∧
    beforeFirstBackslashE ("a.".toList ++ "\\E)(?=.*?$)(?C1)".toList) = "a.".toList := by
  decide

/-! ## Properties of dev_ino_pair -/

theorem dev_ino_pair_eq (d i : Nat) (hd : d < 2 ^ 64) (hi : i < 2 ^ 64) :
    dev_ino_pair d i = 2 ^ 64 * d + i := by
  unfold dev_ino_pair
  have h1 : d % 2 ^ 128 = d := Nat.mod_eq_of_lt (by omega)
  have h2 : i % 2 ^ 128 = i := Nat.mod_eq_of_lt (by omega)
  have h3 : (d <<< 64) % 2 ^ 128 = 2 ^ 64 * d := by
    rw [Nat.shiftLeft_eq, Nat.mul_comm]
    apply Nat.mod_eq_of_lt
    omega
  simp only [h1, h2, h3]
  exact (Nat.mul_add_lt_is_or hi d).symm

/-- C25: for 64-bit device and inode numbers the packed value is `d * 2^64 + i`; two pairs
are equivalent under `operator<` exactly when the devices and the inodes are equal, and
`operator<` is the strict lexicographic order on (device, inode). -/
theorem dev_ino_pair_lexicographic (d1 i1 d2 i2 : Nat) (hd1 : d1 < 2 ^ 64)
    (hi1 : i1 < 2 ^ 64) (hd2 : d2 < 2 ^ 64) (hi2 : i2 < 2 ^ 64) :
    dev_ino_pair d1 i1 = d1 * 2 ^ 64 + i1 ∧
    ((dev_ino_pair_lt (dev_ino_pair d1 i1) (dev_ino_pair d2 i2) = false ∧
        dev_ino_pair_lt (dev_ino_pair d2 i2) (dev_ino_pair d1 i1) = false) ↔
      (d1 = d2 ∧ i1 = i2)) ∧
    (dev_ino_pair_lt (dev_ino_pair d1 i1) (dev_ino_pair d2 i2) = true ↔
      (d1 < d2 ∨ (d1 = d2 ∧ i1 < i2))) := by
  rw [dev_ino_pair_eq d1 i1 hd1 hi1, dev_ino_pair_eq d2 i2 hd2 hi2]
  unfold dev_ino_pair_lt
  simp only [decide_eq_false_iff_not, decide_eq_true_eq]
  refine ⟨by omega, ?_, ?_⟩ <;> constructor <;> intro h <;> omega

theorem dev_ino_pair_lexicographic_witness :
    dev_ino_pair 1 (2 ^ 64 - 1) = 1 * 2 ^ 64 + (2 ^ 64 - 1) ∧
    dev_ino_pair_lt (dev_ino_pair 1 (2 ^ 64 - 1)) (dev_ino_pair 2 0) = true :=
  ⟨(dev_ino_pair_lexicographic 1 (2 ^ 64 - 1) 2 0 (by decide) (by decide) (by decide)
      (by decide)).1,
    (dev_ino_pair_lexicographic 1 (2 ^ 64 - 1) 2 0 (by decide) (by decide) (by decide)
      (by decide)).2.2.mpr (Or.inl (by decide))⟩

/-! ## Properties of parse_opt: the case options -/

/-- No key but `OPT_SMART_CASE` turns ignore-case off. -/
theorem parse_opt_keeps_ignore_case {TM : Type} (pext : ParseOptExternals TM) (k : Int)
    (arg : Str) (state : argp_state) (a : ArgParse TM) (hk : k ≠ OPT_SMART_CASE)
    (h : a.m_ignore_case = true) :
    ((parse_opt pext k arg state a).argumentsOr a).m_ignore_case = true := by
  unfold parse_opt parse_opt_type
  simp only [apply_ite (ParseOptResult.argumentsOr a), apply_ite ArgParse.m_ignore_case]
  simp only [ParseOptResult.argumentsOr, if_neg hk, h, ite_self]

theorem parse_opt_calls_keep_ignore_case {TM : Type} (pext : ParseOptExternals TM) :
    ∀ (calls : List (Int × Str × argp_state)) (a a1 : ArgParse TM),
      (∀ c ∈ calls, c.1 ≠ OPT_SMART_CASE) → a.m_ignore_case = true →
      parse_opt_calls pext calls a = some a1 → a1.m_ignore_case = true := by
  intro calls
  induction calls with
  | nil =>
    intro a a1 _ h hr
    simp only [parse_opt_calls, Option.some.injEq] at hr
    rw [← hr]
    exact h
  | cons c rest ih =>
    intro a a1 hall h hr
    obtain ⟨k, arg, state⟩ := c
    have hk : k ≠ OPT_SMART_CASE := hall (k, arg, state) (List.mem_cons_self _ _)
    have hrest : ∀ c ∈ rest, c.1 ≠ OPT_SMART_CASE :=
      fun c hc => hall c (List.mem_cons_of_mem _ hc)
    have hstep := parse_opt_keeps_ignore_case pext k arg state a hk h
    simp only [parse_opt_calls] at hr
    cases hp : parse_opt pext k arg state a with
    | ok a2 st2 eff =>
      rw [hp] at hr hstep
      exact ih a2 a1 hrest hstep hr
    | ARGP_ERR_UNKNOWN =>
      rw [hp] at hr
      exact ih a a1 hrest h hr
    | argp_failure s m => rw [hp] at hr; cases hr
    | argp_error m => rw [hp] at hr; cases hr
    | argp_usage => rw [hp] at hr; cases hr

/-- C21: `-i` (the key of `--ignore-case`) sets ignore-case on and smart-case off, and
`--no-smart-case` and `--nosmart-case` (the key `OPT_NO_SMART_CASE`) set smart-case off;
each leaves every other member, the parser state included, as it was. After `-i`,
whatever calls follow with a key other than that of `--smart-case`, ignore-case is on when
`argp_parse` is done, and the last part of `Parse` leaves it on for every pattern. -/
theorem parse_opt_ignore_case_no_smart_case {TM : Type} (pext : ParseOptExternals TM)
    (arg : Str) (state : argp_state) (a : ArgParse TM) :
    (find_option "ignore-case".toList).map argp_option.key = some (key 'i') ∧
    (find_option "no-smart-case".toList).map argp_option.key = some OPT_NO_SMART_CASE ∧
    (find_option "nosmart-case".toList).map argp_option.key = some OPT_NO_SMART_CASE ∧
    parse_opt pext (key 'i') arg state a =
      ParseOptResult.ok { a with m_ignore_case := true, m_smart_case := false } state [] ∧
    parse_opt pext OPT_NO_SMART_CASE arg state a =
      ParseOptResult.ok { a with m_smart_case := false } state [] ∧
    (∀ (calls : List (Int × Str × argp_state)) (a1 : ArgParse TM),
      (∀ c ∈ calls, c.1 ≠ OPT_SMART_CASE) →
      parse_opt_calls pext ((key 'i', arg, state) :: calls) a = some a1 →
      a1.m_ignore_case = true ∧
      ∀ (hardware_concurrency : Nat) (pattern : Str),
        (Parse_defaults hardware_concurrency
          { a1 with m_pattern := pattern }).m_ignore_case = true) := by
  refine ⟨by decide, by decide, by decide, rfl, rfl, ?_⟩
  intro calls a1 hall hr
  have hi : parse_opt pext (key 'i') arg state a =
      ParseOptResult.ok { a with m_ignore_case := true, m_smart_case := false } state [] := rfl
  simp only [parse_opt_calls, hi] at hr
  have h1 := parse_opt_calls_keep_ignore_case pext calls _ a1 hall rfl hr
  refine ⟨h1, ?_⟩
  intro hc pattern
  rw [(Parse_defaults_fields hc { a1 with m_pattern := pattern }).2.2]
  simp [h1]

theorem parse_opt_ignore_case_no_smart_case_witness :
    (Parse_defaults 4
      { demoArgParse [] with
        m_ignore_case := true, m_smart_case := false, m_word_regexp := true,
        m_pattern := "foo".toList }).m_ignore_case = true :=
  ((parse_opt_ignore_case_no_smart_case (logParseOptExternals []) [] (demoState [])
      (demoArgParse [])).2.2.2.2.2
    [(OPT_NO_SMART_CASE, [], demoState []), (key 'w', [], demoState []),
      (ARGP_KEY_ARG, "Foo".toList, demoState [])]
    { demoArgParse [] with
      m_ignore_case := true, m_smart_case := false, m_word_regexp := true,
      m_pattern := "Foo".toList }
    (by decide) (by decide)).2 4 "foo".toList

/-! ## Properties of HandleTYPELogic: what it leaves alone -/

theorem HandleTYPELogic_loop_length {TM : Type} (ext : Externals TM) :
    ∀ (v : List Str) (tm : TM), (HandleTYPELogic_loop ext tm v).v.length = v.length := by
  intro v
  induction v with
  | nil => intro tm; rfl
  | cons arg rest ih =>
    intro tm
    simp only [HandleTYPELogic_loop]
    cases h : HandleTYPELogic_arg ext tm arg with
    | next arg1 tm1 => simp [ih tm1]
    | leave => rfl
    | throw msg => rfl

/-- An argument `--X` that is no type name, does not begin with `--no` and that `split`
does not cut into exactly two parts is passed over: no call, no change. -/
theorem HandleTYPELogic_arg_not_two_parts {TM : Type} (ext : Externals TM) (tm : TM)
    (X : Str) (h0 : ext.GetMatchingTypenameList tm X = [])
    (hno : X.take 2 ≠ "no".toList) (hsplit : (ext.split X '=').length ≠ 2) :
    HandleTYPELogic_arg ext tm ("--".toList ++ X) = ArgStep.next ("--".toList ++ X) tm := by
  have hd : ("--".toList ++ X).drop 2 = X := rfl
  unfold HandleTYPELogic_arg
  simp only [hd, h0, if_neg hno]
  split_ifs with h1 h2
  · rfl
  · exfalso
    apply h1
    left
    rw [h2]
    decide
  · split
    · rename_i cmd params heq
      rw [heq] at hsplit
      simp at hsplit
    · rfl

/-- C28 on `ucg --type-add=sh:firstlinematch:/a=b/ pat`, with a `split` that cuts at every
`=`: the text after `--` falls into three parts, so `HandleTYPELogic` passes the argument
over without a call of the type manager, and `parse_opt` with the key `OPT_TYPE_ADD` changes
nothing either; the same rule without its `=` is registered. -/
theorem type_add_spec_with_equals_dropped :
    (logExternals ["cpp".toList]).split "type-add=sh:firstlinematch:/a=b/".toList '=' =
      ["type-add".toList, "sh:firstlinematch:/a".toList, "b/".toList] ∧
    (HandleTYPELogic (logExternals ["cpp".toList]) [] demoArgvSpecWithEquals).tm = [] ∧
    (HandleTYPELogic (logExternals ["cpp".toList]) [] demoArgvSpecWithEquals).thrown = none ∧
    (HandleTYPELogic (logExternals ["cpp".toList]) [] demoArgvSpecWithEquals).v =
      demoArgvSpecWithEquals ∧
    parse_opt (logParseOptExternals ["cpp".toList]) OPT_TYPE_ADD
        "sh:firstlinematch:/a=b/".toList (demoState demoArgvSpecWithEquals)
        (demoArgParse []) =
      ParseOptResult.ok (demoArgParse []) (demoState demoArgvSpecWithEquals) [] ∧
    (HandleTYPELogic (logExternals ["cpp".toList]) []
        ["ucg".toList, "--type-add=sh:firstlinematch:/ab/".toList, "pat".toList]).tm =
      [TMCall.TypeAddFromFilterSpecString false "sh:firstlinematch:/ab/".toList] := by
  decide

/-- C30: `HandleTYPELogic` never changes the number of arguments. On `ucg -- --cpp` with
the type `cpp` registered it rewrites the argument after the `--` to `--type=cpp`, and on
`ucg -- --type-del=cpp` it calls `TypeDel`: the test for `--` comes after the test that
passes over every argument shorter than three characters, and is never reached. -/
theorem HandleTYPELogic_after_double_dash :
    (∀ (TM : Type) (ext : Externals TM) (tm : TM) (v : List Str),
      (HandleTYPELogic ext tm v).v.length = v.length) ∧
    (HandleTYPELogic (logExternals ["cpp".toList]) [] demoArgvAfterDoubleDash).v =
      ["ucg".toList, "--".toList, "--type=cpp".toList] ∧
    (HandleTYPELogic (logExternals ["cpp".toList]) [] demoArgvAfterDoubleDash).thrown =
      none ∧
    (HandleTYPELogic (logExternals ["cpp".toList]) []
        ["ucg".toList, "--".toList, "--type-del=cpp".toList]).tm =
      [TMCall.TypeDel "cpp".toList] := by
  refine ⟨fun TM ext tm v => HandleTYPELogic_loop_length ext v tm, ?_, ?_, ?_⟩ <;> decide

/-! ## Properties of the scan loop: engine errors and termination -/

theorem ScanFile_body_throw (pcre2_match : Engine) (file_data : List Nat) (file_size : Nat)
    (st st1 : ScanState) (rc : Int)
    (h : ScanFile_body pcre2_match file_data file_size st = LoopCtl.throw rc st1) :
    rc < 0 ∧ rc ≠ PCRE2_ERROR_NOMATCH ∧
    rc = (pcre2_match st.ov1 (ScanFile_options st.ov0 st.ov1)).1 ∧ st1.ml = st.ml := by
  unfold ScanFile_body at h
  simp only at h
  split_ifs at h with h1 h2 h3 h4 h5 h6
  simp only [LoopCtl.throw.injEq] at h
  obtain ⟨hrc, hst⟩ := h
  rw [← hrc, ← hst]
  exact ⟨h4, h2, rfl, rfl⟩

theorem ScanFile_loop_threw (pcre2_match : Engine) (file_data : List Nat) (file_size : Nat)
    (rc : Int) :
    ∀ (fuel : Nat) (st : ScanState),
      (ScanFile_loop pcre2_match file_data file_size fuel st).1 = ScanStatus.threw rc →
      rc < 0 ∧ rc ≠ PCRE2_ERROR_NOMATCH ∧ ∃ start options, (pcre2_match start options).1 = rc := by
  intro fuel
  induction fuel with
  | zero => intro st h; simp [ScanFile_loop] at h
  | succ n ih =>
    intro st h
    unfold ScanFile_loop at h
    by_cases hlt : st.start_offset < file_size
    · rw [if_pos hlt] at h
      cases hb : ScanFile_body pcre2_match file_data file_size st with
      | next st1 =>
        rw [hb] at h
        exact ih st1 h
      | leave st1 =>
        rw [hb] at h
        simp at h
      | throw rc1 st1 =>
        rw [hb] at h
        simp only [ScanStatus.threw.injEq] at h
        subst h
        obtain ⟨a, b, c, -⟩ := ScanFile_body_throw _ _ _ _ _ _ hb
        exact ⟨a, b, _, _, c.symm⟩
    · rw [if_neg hlt] at h
      simp at h

/-- C26 (as stated) fails: with an engine that finds a match on line 1 and then reports a
match-time error, `ScanFile` on `ab\nab\n` throws and the `MatchList` holds the match of
line 1. -/
theorem ScanFile_error_leaves_earlier_matches :
    ScanFile errorEngine bufAB 6 10 =
      (ScanStatus.threw PCRE2_ERROR_MATCHLIMIT, [{ start := 0, stop := 1, line_no := 1 }]) ∧
    ¬ (∀ (pcre2_match : Engine) (file_data : List Nat) (file_size fuel : Nat) (rc : Int),
        (ScanFile pcre2_match file_data file_size fuel).1 = ScanStatus.threw rc →
        (ScanFile pcre2_match file_data file_size fuel).2 = []) := by
  refine ⟨by decide, ?_⟩
  intro h
  have := h errorEngine bufAB 6 10 PCRE2_ERROR_MATCHLIMIT (by decide)
  revert this
  decide

/-- C26 (amended): when the engine reports a match-time error (a negative result other
than no-match) in a pass of the loop, `ScanFile` throws its `FileScannerException` in that
pass and the `MatchList` is left as it stood before the pass, with the matches added
earlier; and `ScanFile` throws for no other reason. -/
theorem ScanFile_engine_error (pcre2_match : Engine) (file_data : List Nat)
    (file_size fuel : Nat) (st : ScanState)
    (hlt : st.start_offset < file_size)
    (hend : ¬ (st.ov0 = st.ov1 ∧ st.ov0 = file_size))
    (hnm : (pcre2_match st.ov1 (ScanFile_options st.ov0 st.ov1)).1 ≠ PCRE2_ERROR_NOMATCH)
    (hneg : (pcre2_match st.ov1 (ScanFile_options st.ov0 st.ov1)).1 < 0) :
    ScanFile_loop pcre2_match file_data file_size (fuel + 1) st =
      (ScanStatus.threw (pcre2_match st.ov1 (ScanFile_options st.ov0 st.ov1)).1,
        { st with start_offset := st.ov1 }) ∧
    (ScanFile_loop pcre2_match file_data file_size (fuel + 1) st).2.ml = st.ml ∧
    (∀ n rc, (ScanFile pcre2_match file_data file_size n).1 = ScanStatus.threw rc →
      rc < 0 ∧ rc ≠ PCRE2_ERROR_NOMATCH ∧
      ∃ start options, (pcre2_match start options).1 = rc) := by
  have hbody : ScanFile_body pcre2_match file_data file_size st =
      LoopCtl.throw (pcre2_match st.ov1 (ScanFile_options st.ov0 st.ov1)).1
        { st with start_offset := st.ov1 } := by
    unfold ScanFile_body
    simp only [if_neg hend, if_neg hnm, if_pos hneg]
  have hloop : ScanFile_loop pcre2_match file_data file_size (fuel + 1) st =
      (ScanStatus.threw (pcre2_match st.ov1 (ScanFile_options st.ov0 st.ov1)).1,
        { st with start_offset := st.ov1 }) := by
    rw [ScanFile_loop, if_pos hlt, hbody]
  refine ⟨hloop, by rw [hloop], ?_⟩
  intro n rc h
  exact ScanFile_loop_threw pcre2_match file_data file_size rc n ScanFile_init h

theorem ScanFile_engine_error_witness :
    ScanFile_loop errorEngine bufAB 6 (0 + 1)
        { line_no := 1, prev_lineno := 1, prev_lineno_search_end := 0, start_offset := 0,
          ov0 := 0, ov1 := 1, ml := [{ start := 0, stop := 1, line_no := 1 }] } =
      (ScanStatus.threw (errorEngine 1 (ScanFile_options 0 1)).1,
        { line_no := 1, prev_lineno := 1, prev_lineno_search_end := 0, start_offset := 1,
          ov0 := 0, ov1 := 1, ml := [{ start := 0, stop := 1, line_no := 1 }] }) :=
  (ScanFile_engine_error errorEngine bufAB 6 0
    { line_no := 1, prev_lineno := 1, prev_lineno_search_end := 0, start_offset := 0,
      ov0 := 0, ov1 := 1, ml := [{ start := 0, stop := 1, line_no := 1 }] }
    (by decide) (by decide) (by decide) (by decide)).1

theorem ScanFile_body_progress (pcre2_match : Engine) (file_data : List Nat)
    (file_size : Nat) (hb : EngineBounded file_size pcre2_match) (st st1 : ScanState)
    (hov : st.ov1 ≤ file_size)
    (h : ScanFile_body pcre2_match file_data file_size st = LoopCtl.next st1) :
    st1.ov1 ≤ file_size ∧
    scanMeasure file_size st1 < scanMeasure file_size st ∧
    (st.ov1 < st1.ov1 ∨ (st1.ov1 = st.ov1 ∧ st.ov0 ≠ st.ov1 ∧ st1.ov0 = st1.ov1)) ∧
    (st.ov0 = st.ov1 →
      (pcre2_match st.ov1 (ScanFile_options st.ov0 st.ov1)).1 = PCRE2_ERROR_NOMATCH →
      st1.ov1 = st.ov1 + 1) := by
  have hmatch : ∀ st2 : ScanState,
      0 < (pcre2_match st.ov1 (ScanFile_options st.ov0 st.ov1)).1 →
      (pcre2_match st.ov1 (ScanFile_options st.ov0 st.ov1)).1 ≠ PCRE2_ERROR_NOMATCH →
      st2.ov0 = (pcre2_match st.ov1 (ScanFile_options st.ov0 st.ov1)).2.1 →
      st2.ov1 = (pcre2_match st.ov1 (ScanFile_options st.ov0 st.ov1)).2.2 →
      st2.ov1 ≤ file_size ∧
      scanMeasure file_size st2 < scanMeasure file_size st ∧
      (st.ov1 < st2.ov1 ∨ (st2.ov1 = st.ov1 ∧ st.ov0 ≠ st.ov1 ∧ st2.ov0 = st2.ov1)) ∧
      (st.ov0 = st.ov1 →
        (pcre2_match st.ov1 (ScanFile_options st.ov0 st.ov1)).1 = PCRE2_ERROR_NOMATCH →
        st2.ov1 = st.ov1 + 1) := by
    intro st2 hpos hnm h0 h1
    obtain ⟨b1, b2, b3⟩ := hb.bounds st.ov1 (ScanFile_options st.ov0 st.ov1) hov hpos
    have hne : st.ov0 = st.ov1 → st.ov1 < st2.ov1 := by
      intro heq
      have hopt : ScanFile_options st.ov0 st.ov1 =
          PCRE2_NOTEMPTY_ATSTART ||| PCRE2_ANCHORED := by
        unfold ScanFile_options
        rw [if_pos heq]
      rw [hopt] at hpos b1 b2 b3 h0 h1
      have := hb.notempty st.ov1 hov hpos
      rw [h1]
      by_contra hle
      apply this
      constructor <;> omega
    rw [← h0] at b1 b2
    rw [← h1] at b2 b3
    refine ⟨b3, scanMeasure_after_match file_size st st2 b1 b2 b3 hne, ?_,
      fun _ hn => absurd hn hnm⟩
    by_cases hgt : st.ov1 < st2.ov1
    · exact Or.inl hgt
    · right
      refine ⟨by omega, ?_, by omega⟩
      intro heq
      exact hgt (hne heq)
  unfold ScanFile_body at h
  simp only at h
  split_ifs at h with h1 h2 h3 h4 h5 h6
  · simp only [LoopCtl.next.injEq] at h
    subst h
    have heq : st.ov0 = st.ov1 := by
      by_contra hne
      exact h3 ((ScanFile_options_eq_zero_iff _ _).mpr hne)
    have hlt : st.ov1 < file_size := by
      by_contra hge
      apply h1
      constructor
      · exact heq
      · omega
    refine ⟨by simp only; omega, ?_, Or.inl (by simp only; omega), fun _ _ => rfl⟩
    unfold scanMeasure
    simp only
    rw [if_pos heq, if_neg (by omega)]
    omega
  · simp only [LoopCtl.next.injEq] at h
    subst h
    exact hmatch _ (by omega) h2 rfl rfl
  · simp only [LoopCtl.next.injEq] at h
    subst h
    exact hmatch _ (by omega) h2 rfl rfl

theorem ScanFile_loop_stops (pcre2_match : Engine) (file_data : List Nat) (file_size : Nat)
    (hb : EngineBounded file_size pcre2_match) :
    ∀ (fuel : Nat) (st : ScanState), st.ov1 ≤ file_size →
      scanMeasure file_size st < fuel →
      (ScanFile_loop pcre2_match file_data file_size fuel st).1 ≠ ScanStatus.running := by
  intro fuel
  induction fuel with
  | zero => intro st _ h; omega
  | succ n ih =>
    intro st hov hm
    unfold ScanFile_loop
    by_cases hlt : st.start_offset < file_size
    · rw [if_pos hlt]
      cases hbody : ScanFile_body pcre2_match file_data file_size st with
      | next st1 =>
        obtain ⟨h1, h2, -, -⟩ := ScanFile_body_progress _ _ _ hb st st1 hov hbody
        exact ih st1 h1 (by omega)
      | leave st1 => simp
      | throw rc st1 => simp
    · rw [if_neg hlt]
      simp

/-- C29: with an engine whose matches lie between the start offset and `file_size` and
which never returns the empty match at the start offset under
`PCRE2_NOTEMPTY_ATSTART | PCRE2_ANCHORED`, the loop of `ScanFile` ends within
`2 * file_size + 2` passes. A pass that does not leave the loop either moves the next start
offset forward, or keeps it after a zero-width match found without those options, the next
pass then using them; and a pass with those options that finds no match moves the start
offset forward by exactly one byte. -/
theorem ScanFile_terminates (pcre2_match : Engine) (file_data : List Nat) (file_size : Nat)
    (hb : EngineBounded file_size pcre2_match) :
    (∀ fuel, 2 * file_size + 1 < fuel →
      (ScanFile pcre2_match file_data file_size fuel).1 ≠ ScanStatus.running) ∧
    (∀ st st1 : ScanState, st.ov1 ≤ file_size →
      ScanFile_body pcre2_match file_data file_size st = LoopCtl.next st1 →
      st1.ov1 ≤ file_size ∧
      (st.ov1 < st1.ov1 ∨
        (st1.ov1 = st.ov1 ∧ st.ov0 ≠ st.ov1 ∧
          ScanFile_options st1.ov0 st1.ov1 = PCRE2_NOTEMPTY_ATSTART ||| PCRE2_ANCHORED)) ∧
      (ScanFile_options st.ov0 st.ov1 = PCRE2_NOTEMPTY_ATSTART ||| PCRE2_ANCHORED →
        (pcre2_match st.ov1 (ScanFile_options st.ov0 st.ov1)).1 = PCRE2_ERROR_NOMATCH →
        st1.ov1 = st.ov1 + 1)) := by
  constructor
  · intro fuel hfuel
    have hm : scanMeasure file_size ScanFile_init < fuel := by
      have : scanMeasure file_size ScanFile_init = 2 * file_size + 1 := by
        unfold scanMeasure ScanFile_init
        simp [SIZE_MAX]
      omega
    have := ScanFile_loop_stops pcre2_match file_data file_size hb fuel ScanFile_init
      (Nat.zero_le _) hm
    exact this
  · intro st st1 hov hbody
    obtain ⟨h1, -, h3, h4⟩ := ScanFile_body_progress _ _ _ hb st st1 hov hbody
    refine ⟨h1, ?_, ?_⟩
    · rcases h3 with h3 | ⟨a, b, c⟩
      · exact Or.inl h3
      · right
        refine ⟨a, b, ?_⟩
        unfold ScanFile_options
        rw [if_pos c]
    · intro hopt hn
      apply h4 _ hn
      by_contra hne
      have := (ScanFile_options_eq_zero_iff _ _).mpr hne
      rw [this] at hopt
      revert hopt
      decide

theorem ScanFile_terminates_witness :
    EngineBounded bufMultiline.length (referenceEngine candsEmpty bufMultiline) ∧
    (ScanFile (referenceEngine candsEmpty bufMultiline) bufMultiline bufMultiline.length
      (2 * bufMultiline.length + 2)).1 ≠ ScanStatus.running :=
  have hb : EngineBounded bufMultiline.length (referenceEngine candsEmpty bufMultiline) :=
    { bounds := fun start options _ h =>
        have hf := referenceEngine_found candsEmpty bufMultiline start options h
        ⟨hf.2, hf.1.2.1, hf.1.2.2.1⟩
      notempty := fun start _ h hh =>
        have hc := referenceEngine_anchored candsEmpty bufMultiline start
          (PCRE2_NOTEMPTY_ATSTART ||| PCRE2_ANCHORED) (by decide) h
        absurd hh.2 (Nat.ne_of_gt hc.2) }
  ⟨hb,
    (ScanFile_terminates (referenceEngine candsEmpty bufMultiline) bufMultiline
      bufMultiline.length hb).1 (2 * bufMultiline.length + 2) (by decide)⟩

/-! ## Properties of FileID -/

theorem FileID.make_members (m : FileIDMembers) (at_dir : Option FileID) :
    (FileID.make m at_dir).members = m := by
  cases at_dir <;> rfl

theorem FileID.withMembers_members (f : FileID) (m : FileIDMembers) :
    (f.withMembers m).members = m := by
  cases f <;> rfl

theorem FileID.UnsyncedGetPath_of_path (hdr : FileIDHeader) (f : FileID)
    (h : f.members.m_path ≠ []) :
    FileID.UnsyncedGetPath hdr f = some (f.members.m_path, f) := by
  cases f with
  | noAtDir m =>
    simp only [FileID.members] at h
    simp only [FileID.UnsyncedGetPath, if_neg h, FileID.members]
  | atDir m p =>
    simp only [FileID.members] at h
    simp only [FileID.UnsyncedGetPath, if_neg h, FileID.members]

/-- A call of `UnsyncedGetPath` writes no member but `m_path`. -/
theorem FileID.UnsyncedGetPath_members (hdr : FileIDHeader) (f f1 : FileID) (path : Str)
    (h : FileID.UnsyncedGetPath hdr f = some (path, f1)) :
    f1.members = { f.members with m_path := f1.members.m_path } := by
  cases f with
  | noAtDir m =>
    simp only [FileID.UnsyncedGetPath] at h
    split_ifs at h
    cases h
    rfl
  | atDir m p =>
    simp only [FileID.UnsyncedGetPath] at h
    split_ifs at h
    all_goals first
      | (cases h; rfl)
      | (cases hp : FileID.UnsyncedGetPath hdr p with
         | none => rw [hp] at h; cases h
         | some q =>
           obtain ⟨at_path, p1⟩ := q
           rw [hp] at h
           cases h
           rfl)

/-- A call of `GetFileDescriptor` writes no member but `m_file_descriptor`. -/
theorem FileID.GetFileDescriptor_members (hdr : FileIDHeader) (fs : FileSystem)
    (f f1 : FileID) (r : Option Int)
    (h : FileID.GetFileDescriptor hdr fs f = some (r, f1)) :
    f1.members = { f.members with m_file_descriptor := f1.members.m_file_descriptor } := by
  cases f with
  | noAtDir m =>
    simp only [FileID.GetFileDescriptor] at h
    split_ifs at h
    all_goals
      cases h
      rfl
  | atDir m p =>
    simp only [FileID.GetFileDescriptor] at h
    split_ifs at h
    all_goals first
      | (cases h; rfl)
      | (cases hp : FileID.GetFileDescriptor hdr fs p with
         | none => rw [hp] at h; cases h
         | some q =>
           obtain ⟨r1, p1⟩ := q
           rw [hp] at h
           cases r1 with
           | none => cases h; rfl
           | some at_fd => cases h; rfl)

/-- C23 (as stated) fails for a parent that is the current directory: the path of the
current-directory `FileID` is `.`, and the path of `src` constructed relative to it is
`src`, not `./src`. -/
theorem FileID_path_relative_to_cwd :
    (FileID.GetPath demoHeader (FileID.cwd demoHeader)).map Prod.fst = some ".".toList ∧
    (FileID.GetPath demoHeader demoDir).map Prod.fst = some "src".toList ∧
    (FileID.GetPath demoHeader demoDir).map Prod.fst ≠
      some (".".toList ++ "/".toList ++ "src".toList) := by
  decide

/-- C23 (amended): for a `FileID` constructed relative to a parent-directory `FileID`,
`path()` is the path of the parent followed by `/` and the basename when the parent is
not the current directory (`IsAtFDCWD` is false for it), and the basename alone when it
is; for a `FileID` given an absolute pathname at construction, `path()` is that
pathname. -/
theorem FileID_path (hdr : FileIDHeader) (parent : FileID) (name : Str) (type : FileType) :
    (hdr.IsAtFDCWD parent = false →
      ∀ at_path parent1, FileID.GetPath hdr parent = some (at_path, parent1) →
        (FileID.GetPath hdr (FileID.relative hdr (some parent) name type)).map Prod.fst =
          some (at_path ++ "/".toList ++ name) ∧
        (is_pathname_absolute name = false →
          (FileID.GetPath hdr (FileID.ofPathname hdr (some parent) name)).map Prod.fst =
            some (at_path ++ "/".toList ++ name))) ∧
    (hdr.IsAtFDCWD parent = true →
      (FileID.GetPath hdr (FileID.relative hdr (some parent) name type)).map Prod.fst =
          some name ∧
        (is_pathname_absolute name = false →
          (FileID.GetPath hdr (FileID.ofPathname hdr (some parent) name)).map Prod.fst =
            some name)) ∧
    (is_pathname_absolute name = true →
      ∀ at_dir : Option FileID,
        (FileID.GetPath hdr (FileID.absolute hdr at_dir name type)).map Prod.fst =
          some name ∧
        (FileID.GetPath hdr (FileID.ofPathname hdr at_dir name)).map Prod.fst =
          some name) := by
  refine ⟨?_, ?_, ?_⟩
  · intro hcwd at_path parent1 hp
    unfold FileID.GetPath at hp
    constructor
    · simp [FileID.GetPath, FileID.relative, FileID.make, FileID.UnsyncedGetPath, hcwd, hp]
    · intro hrel
      simp [FileID.GetPath, FileID.ofPathname, FileID.make, FileID.UnsyncedGetPath, hcwd, hp,
        hrel]
  · intro hcwd
    constructor
    · simp [FileID.GetPath, FileID.relative, FileID.make, FileID.UnsyncedGetPath, hcwd]
    · intro hrel
      simp [FileID.GetPath, FileID.ofPathname, FileID.make, FileID.UnsyncedGetPath, hcwd,
        hrel]
  · intro habs at_dir
    have hne : name ≠ [] := by
      intro he
      rw [he] at habs
      revert habs
      decide
    constructor
    · unfold FileID.GetPath
      rw [FileID.UnsyncedGetPath_of_path hdr _
        (by rw [FileID.absolute, FileID.make_members]; exact hne)]
      simp [FileID.absolute, FileID.make_members]
    · unfold FileID.GetPath
      rw [FileID.UnsyncedGetPath_of_path hdr _
        (by rw [FileID.ofPathname, FileID.make_members]; simp [habs, hne])]
      simp [FileID.ofPathname, FileID.make_members, habs]

theorem FileID_path_witness :
    (FileID.GetPath demoHeader demoFile).map Prod.fst = some "src/a.c".toList ∧
    (FileID.GetPath demoHeader
      (FileID.ofPathname demoHeader (some demoDir) "/etc/hosts".toList)).map Prod.fst =
      some "/etc/hosts".toList :=
  ⟨((FileID_path demoHeader demoDir "a.c".toList FileType.FT_UNINITIALIZED).1 (by decide)
      "src".toList
      (FileID.atDir
        { demoHeader.init with
          m_basename := "src".toList, m_path := "src".toList,
          m_file_type := FileType.FT_DIR }
        (FileID.cwd demoHeader))
      (by decide)).1,
    ((FileID_path demoHeader demoDir "/etc/hosts".toList FileType.FT_REG).2.2 (by decide)
      (some demoDir)).2⟩

/-- C24 (as stated) fails for `SetDevIno`: on the file `a.c` with its stat info loaded
(device 1, inode 11), `SetDevIno(2, 5)` replaces the (device, inode) identity. -/
theorem FileID_SetDevIno_after_stat :
    (FileID.LazyLoadStatInfo demoHeader demoFileSystem demoFile).map
        (fun f => (demoHeader.IsStatInfoValid f, f.members.m_unique_file_identifier)) =
      some (true, dev_ino_pair 1 11) ∧
    ((FileID.LazyLoadStatInfo demoHeader demoFileSystem demoFile).bind
        (fun f => FileID.call demoHeader demoFileSystem f (FileIDOp.SetDevIno 2 5))).map
        (fun f => f.members.m_unique_file_identifier) =
      some (dev_ino_pair 2 5) ∧
    dev_ino_pair 2 5 ≠ dev_ino_pair 1 11 := by
  decide

theorem FileID.LazyLoadStatInfo_of_valid (hdr : FileIDHeader) (fs : FileSystem) (f : FileID)
    (h : hdr.IsStatInfoValid f = true) : FileID.LazyLoadStatInfo hdr fs f = some f := by
  unfold FileID.LazyLoadStatInfo
  rw [if_pos h]

theorem FileID.GetFileType_of_valid (hdr : FileIDHeader) (fs : FileSystem) (f : FileID)
    (h : hdr.IsStatInfoValid f = true) :
    FileID.GetFileType hdr fs f = some (f.members.m_file_type, f) := by
  unfold FileID.GetFileType
  rw [FileID.LazyLoadStatInfo_of_valid hdr fs f h]
  split_ifs <;> rfl

/-- C24 (amended): once the stat info of a `FileID` is loaded (`IsStatInfoValid`, which
returns the flag `m_stat_info_valid`, is true), it stays loaded, and no member function of
`FileID.cpp` changes the kind, the size or the block size; `LazyLoadStatInfo` changes
nothing at all; `SetDevIno(d, i)` replaces the (device, inode) identity by that of `d` and
`i`, and every other function leaves the identity as it was. -/
theorem FileID_stat_info_kept (hdr : FileIDHeader) (fs : FileSystem) (f f1 : FileID)
    (op : FileIDOp)
    (hflag : ∀ g, hdr.IsStatInfoValid g = g.members.m_stat_info_valid)
    (hvalid : hdr.IsStatInfoValid f = true)
    (hcall : FileID.call hdr fs f op = some f1) :
    hdr.IsStatInfoValid f1 = true ∧
    f1.members.m_file_type = f.members.m_file_type ∧
    f1.members.m_size = f.members.m_size ∧
    f1.members.m_block_size = f.members.m_block_size ∧
    ((∀ d i, op ≠ FileIDOp.SetDevIno d i) →
      f1.members.m_unique_file_identifier = f.members.m_unique_file_identifier) ∧
    (∀ d i, op = FileIDOp.SetDevIno d i →
      f1.members.m_unique_file_identifier = dev_ino_pair d i ∧ f1.members.m_dev = d) ∧
    (op = FileIDOp.LazyLoadStatInfo → f1 = f) := by
  have hv : f.members.m_stat_info_valid = true := by rw [← hflag]; exact hvalid
  have hsame : f1 = f → hdr.IsStatInfoValid f1 = true ∧
      f1.members.m_file_type = f.members.m_file_type ∧
      f1.members.m_size = f.members.m_size ∧
      f1.members.m_block_size = f.members.m_block_size ∧
      f1.members.m_unique_file_identifier = f.members.m_unique_file_identifier := by
    intro h
    rw [h]
    exact ⟨hvalid, rfl, rfl, rfl, rfl⟩
  have hpath : ∀ path, FileID.UnsyncedGetPath hdr f = some (path, f1) →
      hdr.IsStatInfoValid f1 = true ∧
      f1.members.m_file_type = f.members.m_file_type ∧
      f1.members.m_size = f.members.m_size ∧
      f1.members.m_block_size = f.members.m_block_size ∧
      f1.members.m_unique_file_identifier = f.members.m_unique_file_identifier := by
    intro path h
    have hm := FileID.UnsyncedGetPath_members hdr f f1 path h
    refine ⟨?_, ?_, ?_, ?_, ?_⟩
    · rw [hflag, hm]; exact hv
    all_goals rw [hm]
  cases op with
  | GetPath =>
    simp only [FileID.call, FileID.GetPath, Option.map_eq_some', Prod.exists,
      exists_eq_right] at hcall
    obtain ⟨path, h⟩ := hcall
    obtain ⟨a, b, c, d, e⟩ := hpath path h
    exact ⟨a, b, c, d, fun _ => e, fun _ _ h => (by cases h), fun h => (by cases h)⟩
  | UnsyncedGetPath =>
    simp only [FileID.call, Option.map_eq_some', Prod.exists, exists_eq_right] at hcall
    obtain ⟨path, h⟩ := hcall
    obtain ⟨a, b, c, d, e⟩ := hpath path h
    exact ⟨a, b, c, d, fun _ => e, fun _ _ h => (by cases h), fun h => (by cases h)⟩
  | GetAtDirCRef =>
    simp only [FileID.call, Option.some.injEq] at hcall
    obtain ⟨a, b, c, d, e⟩ := hsame hcall.symm
    exact ⟨a, b, c, d, fun _ => e, fun _ _ h => (by cases h), fun h => (by cases h)⟩
  | GetAtDirRelativeBasename =>
    simp only [FileID.call, Option.some.injEq] at hcall
    obtain ⟨a, b, c, d, e⟩ := hsame hcall.symm
    exact ⟨a, b, c, d, fun _ => e, fun _ _ h => (by cases h), fun h => (by cases h)⟩
  | GetFileType =>
    simp only [FileID.call, FileID.GetFileType_of_valid hdr fs f hvalid, Option.map_some',
      Option.some.injEq] at hcall
    obtain ⟨a, b, c, d, e⟩ := hsame hcall.symm
    exact ⟨a, b, c, d, fun _ => e, fun _ _ h => (by cases h), fun h => (by cases h)⟩
  | SetDevIno d0 i0 =>
    simp only [FileID.call, Option.some.injEq] at hcall
    have hm : f1.members =
        { f.members with m_dev := d0, m_unique_file_identifier := dev_ino_pair d0 i0 } := by
      rw [← hcall, FileID.SetDevIno, FileID.withMembers_members]
    refine ⟨?_, ?_, ?_, ?_, ?_, ?_, fun h => (by cases h)⟩
    · rw [hflag, hm]; exact hv
    · rw [hm]
    · rw [hm]
    · rw [hm]
    · intro h
      exact absurd rfl (h d0 i0)
    · intro d i h
      cases h
      rw [hm]
      exact ⟨rfl, rfl⟩
  | LazyLoadStatInfo =>
    simp only [FileID.call, FileID.LazyLoadStatInfo_of_valid hdr fs f hvalid,
      Option.some.injEq] at hcall
    obtain ⟨a, b, c, d, e⟩ := hsame hcall.symm
    exact ⟨a, b, c, d, fun _ => e, fun _ _ h => (by cases h), fun _ => hcall.symm⟩
  | GetFileDescriptor =>
    simp only [FileID.call, Option.map_eq_some', Prod.exists, exists_eq_right] at hcall
    obtain ⟨r, h⟩ := hcall
    have hm := FileID.GetFileDescriptor_members hdr fs f f1 r h
    refine ⟨?_, ?_, ?_, ?_, fun _ => ?_, fun _ _ h => (by cases h), fun h => (by cases h)⟩
    · rw [hflag, hm]; exact hv
    all_goals rw [hm]

theorem FileID_stat_info_kept_witness :
    demoHeader.IsStatInfoValid demoFileLoaded = true ∧
    (FileID.SetDevIno demoFileLoaded 2 5).members.m_size = demoFileLoaded.members.m_size ∧
    (FileID.SetDevIno demoFileLoaded 2 5).members.m_unique_file_identifier =
      dev_ino_pair 2 5 :=
  have h := FileID_stat_info_kept demoHeader demoFileSystem demoFileLoaded
    (FileID.SetDevIno demoFileLoaded 2 5) (FileIDOp.SetDevIno 2 5) (fun _ => rfl)
    (by decide) rfl
  ⟨by decide, h.2.2.1, (h.2.2.2.2.2.1 2 5 rfl).1⟩

end Ucg
